import Mathlib

/-!
# The debug-info codec of `mono/mini/debug-mini.c`

A shallow embedding of the variable-length integer codec (`encode_value`,
`decode_value`), of the variable-location codec (`serialize_variable`,
`deserialize_variable`) and of the record serializer and deserializer
(`mono_debug_serialize_debug_info`, `deserialize_debug_info`), of the recording
session (`mono_debug_init_method`, `mono_debug_open_method`,
`mono_debug_record_line_number`, `mono_debug_close_method`) and of the loader entry
point `mono_debug_add_aot_method`, followed by the theorems that relate them.

Conventions of the embedding.

* `gint32` values are integers (`Int`); `guint32` values are naturals.  A C
  conversion between the two is `to_gint32` or `to_guint32`, both reduce modulo
  `2 ^ 32`.
* A byte (`guint8`) is a `Fin 256`; a store into a `guint8` truncates modulo 256
  (`to_guint8`).
* A read pointer `guint8 *ptr` is the list of the bytes of the buffer from that
  position on: `ptr [k]` is the `k`-th element of the list and `ptr += k` drops
  `k` elements.  The C code reads without any bounds check; reading outside the
  list is the fault `out_of_bounds`.
* A function that writes through `p` and reports the end pointer returns the
  bytes it wrote; the end pointer is `p` advanced by their number.  The
  serializer threads the bytes written so far.
* A C array together with its count field is a list, the count is its length
  (the source assigns both together everywhere).
* `g_assert` and `g_assert_not_reached` abort: the fault `assertion_failed`.
* The allocations (`g_new0`, `g_malloc`, `g_array_new`) are taken to succeed.  Where
  a decoded count is too large to allocate, the embedding goes on to the reads that
  the C code would make after the allocation.
* The global `mono_debug_format` is an argument of the functions that read it.  The
  constants that the source takes from headers outside the sources are the fields
  of the parameters `AddressModes` and `Constants`.
* The calls `mono_debug_add_method` and `mono_debugger_breakpoint_callback`, whose
  code is elsewhere, are recorded in order in the state `World`.
-/

namespace DebugMini

/-- The type `guint8`. -/
abbrev guint8 := Fin 256

/-- The ways in which the C code stops without a result. -/
inductive Fault where
  /-- A read through a pointer that has left the buffer (undefined behaviour in C). -/
  | out_of_bounds
  /-- A dereference of a null pointer. -/
  | null_pointer
  /-- A failed `g_assert` or a reached `g_assert_not_reached`. -/
  | assertion_failed
  deriving DecidableEq

/-- Equality of results is decidable, so that closed instances can be evaluated. -/
instance instDecidableEqExcept {ε α : Type} [DecidableEq ε] [DecidableEq α] :
    DecidableEq (Except ε α) := fun a b =>
  match a, b with
  | .ok x, .ok y =>
    if h : x = y then isTrue (congrArg Except.ok h)
    else isFalse (fun h2 => h (Except.ok.inj h2))
  | .error x, .error y =>
    if h : x = y then isTrue (congrArg Except.error h)
    else isFalse (fun h2 => h (Except.error.inj h2))
  | .ok _, .error _ => isFalse (fun h => Except.noConfusion h)
  | .error _, .ok _ => isFalse (fun h => Except.noConfusion h)

/-! ## Machine integers -/

/-- Conversion to `guint32`: the value modulo `2 ^ 32`. -/
def to_guint32 (x : Int) : Nat := (x % 4294967296).toNat

/-- Conversion to `gint32`: the two's-complement reading of the low 32 bits. -/
def to_gint32 (x : Int) : Int := (x + 2147483648) % 4294967296 - 2147483648

/-- A store into a `guint8`: the value modulo 256. -/
def to_guint8 (x : Int) : guint8 := ⟨(x % 256).toNat, by omega⟩

/-- The C operator `&` on two `int` operands, computed on their 32-bit patterns. -/
def c_and (x y : Int) : Int := to_gint32 ((to_guint32 x &&& to_guint32 y : Nat) : Int)

/-- The C operator `|` on two `int` operands, computed on their 32-bit patterns. -/
def c_or (x y : Int) : Int := to_gint32 ((to_guint32 x ||| to_guint32 y : Nat) : Int)

/-- The C operator `>>` on a `gint32` left operand: the arithmetic shift. -/
def c_shr (x : Int) (k : Nat) : Int := x >>> k

/-- The values of type `gint32`. -/
def is_gint32 (x : Int) : Prop := -2147483648 ≤ x ∧ x ≤ 2147483647

instance (x : Int) : Decidable (is_gint32 x) := by unfold is_gint32; infer_instance

/-- The values of type `guint32`. -/
def is_guint32 (n : Nat) : Prop := n < 4294967296

instance (n : Nat) : Decidable (is_guint32 n) := by unfold is_guint32; infer_instance

/-! ## The VarInt codec -/

/-- The function `encode_value (value, buf, endbuf)`: the bytes stored at `buf`;
`*endbuf` is `buf` advanced by their number. -/
def encode_value (value : Int) : List guint8 :=
  if 0 ≤ value ∧ value ≤ 127 then
    [to_guint8 value]
  else if 0 ≤ value ∧ value ≤ 16383 then
    [to_guint8 (c_or 0x80 (c_shr value 8)),
     to_guint8 (c_and value 0xff)]
  else if 0 ≤ value ∧ value ≤ 0x1fffffff then
    [to_guint8 (c_or (c_shr value 24) 0xc0),
     to_guint8 (c_and (c_shr value 16) 0xff),
     to_guint8 (c_and (c_shr value 8) 0xff),
     to_guint8 (c_and value 0xff)]
  else
    [to_guint8 0xff,
     to_guint8 (c_and (c_shr value 24) 0xff),
     to_guint8 (c_and (c_shr value 16) 0xff),
     to_guint8 (c_and (c_shr value 8) 0xff),
     to_guint8 (c_and value 0xff)]

/-- The read `ptr [k]`, promoted to `int`. -/
def rd (ptr : List guint8) (k : Nat) : Except Fault Nat :=
  match ptr.get? k with
  | some b => .ok b.val
  | none => .error .out_of_bounds

/-- The function `decode_value (ptr, rptr)`: the decoded `gint32` and the
advanced pointer.  The bytes are promoted to `int`, so the shifts and ors are
computed on naturals below `2 ^ 32` and the result is read as a `gint32`. -/
def decode_value (ptr : List guint8) : Except Fault (Int × List guint8) := do
  let b ← rd ptr 0
  if b &&& 0x80 = 0 then
    pure ((b : Int), ptr.drop 1)
  else if b &&& 0x40 = 0 then
    let b1 ← rd ptr 1
    pure (to_gint32 (((b &&& 0x3f) <<< 8 ||| b1 : Nat) : Int), ptr.drop 2)
  else if b ≠ 0xff then
    let b1 ← rd ptr 1
    let b2 ← rd ptr 2
    let b3 ← rd ptr 3
    pure (to_gint32 ((((b &&& 0x1f) <<< 24) ||| (b1 <<< 16) ||| (b2 <<< 8) ||| b3 : Nat) : Int),
      ptr.drop 4)
  else
    let b1 ← rd ptr 1
    let b2 ← rd ptr 2
    let b3 ← rd ptr 3
    let b4 ← rd ptr 4
    pure (to_gint32 (((b1 <<< 24) ||| (b2 <<< 16) ||| (b3 <<< 8) ||| b4 : Nat) : Int),
      ptr.drop 5)

/-! ## Data model -/

/-- The three address-mode macros of `mono-debug.h`, which is not among the
sources: `MONO_DEBUG_VAR_ADDRESS_MODE_FLAGS`, `..._REGISTER` and `..._REGOFFSET`.
They are a parameter of everything that uses them. -/
structure AddressModes where
  flags : Nat
  register : Nat
  regoffset : Nat
  deriving DecidableEq

/-- The fields of `MonoDebugVarInfo` that this file touches, both `guint32`. -/
structure MonoDebugVarInfo where
  index : Nat
  offset : Nat
  deriving DecidableEq

/-- The structure `MonoDebugLineNumberEntry`. -/
structure MonoDebugLineNumberEntry where
  il_offset : Nat
  native_offset : Nat
  deriving DecidableEq

/-- The structure `MonoDebugMethodJitInfo`.  `num_line_numbers`, `num_params` and
`num_locals` are the lengths of the three lists; `this_var` is a nullable
pointer. -/
structure MonoDebugMethodJitInfo where
  code_start : Nat
  code_size : Nat
  prologue_end : Nat
  epilogue_begin : Nat
  line_numbers : List MonoDebugLineNumberEntry
  this_var : Option MonoDebugVarInfo
  params : List MonoDebugVarInfo
  locals : List MonoDebugVarInfo
  deriving DecidableEq

/-- The structure `MiniDebugMethodInfo`; `jit` is a nullable pointer and
`line_numbers` the growing `GArray`. -/
structure MiniDebugMethodInfo where
  jit : Option MonoDebugMethodJitInfo
  line_numbers : List MonoDebugLineNumberEntry
  has_line_numbers : Nat
  breakpoint_id : Nat
  deriving DecidableEq

/-- The fields of `MonoMethodSignature` that are read. -/
structure MonoMethodSignature where
  hasthis : Bool
  param_count : Nat
  deriving DecidableEq

/-- The fields of `MonoMethodHeader` that are read; `code` is the address of the
IL body. -/
structure MonoMethodHeader where
  code : Nat
  code_size : Nat
  num_locals : Nat
  deriving DecidableEq

/-- A `MonoMethod` with what `mono_method_get_header` (which may return null)
and `mono_method_signature` return for it. -/
structure MonoMethod where
  iflags : Nat
  flags : Nat
  wrapper_type : Nat
  header : Option MonoMethodHeader
  signature : MonoMethodSignature
  deriving DecidableEq

/-- The fields of `MonoInst` that are read; `cil_code` is a nullable pointer into
the IL body. -/
structure MonoInst where
  opcode : Nat
  dreg : Nat
  inst_basereg : Nat
  inst_offset : Int
  cil_code : Option Nat
  deriving DecidableEq

/-- The fields of `MonoCompile` that are read; `debug_info` is a nullable
pointer. -/
structure MonoCompile where
  method : MonoMethod
  debug_info : Option MiniDebugMethodInfo
  native_code : Nat
  epilog_begin : Nat
  code_len : Nat
  varinfo : List MonoInst
  locals_start : Nat
  domain : Nat
  deriving DecidableEq

/-! ## The variable-location codec -/

/-- The function `serialize_variable (var, p, endbuf)`: the bytes stored at `p`.
The `switch` takes the first matching label. -/
def serialize_variable (M : AddressModes) (var : MonoDebugVarInfo) :
    Except Fault (List guint8) :=
  let flags := var.index &&& M.flags
  if flags = M.register then
    pure (encode_value (to_gint32 var.index))
  else if flags = M.regoffset then
    pure (encode_value (to_gint32 var.index) ++ encode_value (to_gint32 var.offset))
  else
    throw .assertion_failed

/-- The function `deserialize_variable (var, p, endbuf)`: the updated `*var` and the
advanced pointer. -/
def deserialize_variable (M : AddressModes) (var : MonoDebugVarInfo) (p : List guint8) :
    Except Fault (MonoDebugVarInfo × List guint8) := do
  let (v, p) ← decode_value p
  let var := { var with index := to_guint32 v }
  let flags := var.index &&& M.flags
  if flags = M.register then
    pure (var, p)
  else if flags = M.regoffset then
    let (o, p) ← decode_value p
    pure ({ var with offset := to_guint32 o }, p)
  else
    throw .assertion_failed

/-! ## The serializer -/

/-- A loop `for (i = 0; i < n; ++i) serialize_variable (&vars [i], p, &p)` over an
array of `n` variables; `p` is what the buffer holds so far. -/
def serialize_variables (M : AddressModes) :
    List MonoDebugVarInfo → List guint8 → Except Fault (List guint8)
  | [], p => pure p
  | var :: vars, p => do
    let w ← serialize_variable M var
    serialize_variables M vars (p ++ w)

/-- The line-number loop of the serializer, with its two running `guint32`
variables; the subtractions are `guint32` subtractions and their results are
passed as `gint32`. -/
def serialize_line_numbers :
    List MonoDebugLineNumberEntry → Nat → Nat → List guint8 → List guint8
  | [], _, _, p => p
  | lne :: lnes, prev_offset, prev_native_offset, p =>
    let p := p ++ encode_value (to_gint32 (to_guint32 ((lne.il_offset : Int) - prev_offset)))
    let p := p ++ encode_value
      (to_gint32 (to_guint32 ((lne.native_offset : Int) - prev_native_offset)))
    serialize_line_numbers lnes lne.il_offset lne.native_offset p

/-- The `guint32` expression that sizes the buffer of the serializer. -/
def serialize_size (jit : MonoDebugMethodJitInfo) : Nat :=
  to_guint32 (((jit.params.length + jit.locals.length + 1) * 10
    + jit.line_numbers.length * 10 + 64 : Nat) : Int)

/-- The function `mono_debug_serialize_debug_info (cfg, out_buf, buf_len)`: what it
stores in `*out_buf` (nothing on the early return) and in `*buf_len`. -/
def mono_debug_serialize_debug_info (M : AddressModes) (cfg : MonoCompile) :
    Except Fault (Option (List guint8) × Nat) :=
  match cfg.debug_info with
  | none => pure (none, 0)
  | some info =>
    match info.jit with
    | none => pure (none, 0)
    | some jit => do
      let size := serialize_size jit
      let p : List guint8 := []
      let p := p ++ encode_value (to_gint32 jit.epilogue_begin)
      let p := p ++ encode_value (to_gint32 jit.prologue_end)
      let p := p ++ encode_value (to_gint32 jit.code_size)
      let p ← serialize_variables M jit.params p
      let p ←
        if cfg.method.signature.hasthis then
          match jit.this_var with
          | none => throw Fault.null_pointer
          | some var => do
            let w ← serialize_variable M var
            pure (p ++ w)
        else pure p
      let p ← serialize_variables M jit.locals p
      let p := p ++ encode_value (to_gint32 jit.line_numbers.length)
      let p := serialize_line_numbers jit.line_numbers 0 0 p
      if p.length < size then pure (some p, p.length)
      else throw Fault.assertion_failed

/-! ## The deserializer -/

/-- A loop `for (i = 0; i < n; ++i) deserialize_variable (&vars [i], p, &p)` over a
zero-filled array of `n` variables. -/
def deserialize_variables (M : AddressModes) :
    Nat → List guint8 → Except Fault (List MonoDebugVarInfo × List guint8)
  | 0, p => pure ([], p)
  | n + 1, p => do
    let (var, p) ← deserialize_variable M ⟨0, 0⟩ p
    let (vars, p) ← deserialize_variables M n p
    pure (var :: vars, p)

/-- The line-number loop of the deserializer, with its two running `gint32`
variables; the additions wrap. -/
def deserialize_line_numbers :
    Nat → Int → Int → List guint8 → Except Fault (List MonoDebugLineNumberEntry × List guint8)
  | 0, _, _, p => pure ([], p)
  | n + 1, prev_offset, prev_native_offset, p => do
    let (d, p) ← decode_value p
    let offset := to_gint32 (prev_offset + d)
    let (dn, p) ← decode_value p
    let native_offset := to_gint32 (prev_native_offset + dn)
    let lne : MonoDebugLineNumberEntry :=
      { il_offset := to_guint32 offset, native_offset := to_guint32 native_offset }
    let (lnes, p) ← deserialize_line_numbers n offset native_offset p
    pure (lne :: lnes, p)

/-- The function `deserialize_debug_info (method, code_start, buf, buf_len)`.  The
argument `buf_len` is never read. -/
def deserialize_debug_info (M : AddressModes) (method : MonoMethod) (code_start : Nat)
    (buf : List guint8) (_buf_len : Nat) : Except Fault MonoDebugMethodJitInfo :=
  match method.header with
  | none => throw .assertion_failed
  | some header => do
    let p := buf
    let (epilogue_begin, p) ← decode_value p
    let (prologue_end, p) ← decode_value p
    let (code_size, p) ← decode_value p
    let (params, p) ← deserialize_variables M method.signature.param_count p
    let (this_var, p) ←
      if method.signature.hasthis then do
        let (var, p) ← deserialize_variable M ⟨0, 0⟩ p
        pure (some var, p)
      else pure (none, p)
    let (locals, p) ← deserialize_variables M header.num_locals p
    let (num_line_numbers, p) ← decode_value p
    let (line_numbers, _) ← deserialize_line_numbers (to_guint32 num_line_numbers) 0 0 p
    pure
      { code_start := code_start
        code_size := to_guint32 code_size
        prologue_end := to_guint32 prologue_end
        epilogue_begin := to_guint32 epilogue_begin
        line_numbers := line_numbers
        this_var := this_var
        params := params
        locals := locals }

/-! ## The recording session and the loader entry point -/

/-- The macros and enumerators of other headers that this part of the file tests,
none of which is among the sources; they are a parameter of everything that uses
them. -/
structure Constants where
  MONO_DEBUG_FORMAT_NONE : Nat
  METHOD_IMPL_ATTRIBUTE_INTERNAL_CALL : Nat
  METHOD_IMPL_ATTRIBUTE_RUNTIME : Nat
  METHOD_ATTRIBUTE_PINVOKE_IMPL : Nat
  METHOD_ATTRIBUTE_ABSTRACT : Nat
  MONO_WRAPPER_NONE : Nat
  OP_REGVAR : Nat
  deriving DecidableEq

/-- What the functions of this file do to their collaborators: the calls of
`mono_debug_add_method (method, jit, domain)`, which registers a copy of `jit`, and the
calls of `mono_debugger_breakpoint_callback (method, breakpoint_id)`, each in call
order. -/
structure World where
  registry : List (MonoMethod × MonoDebugMethodJitInfo × Nat)
  breakpoint_callbacks : List (MonoMethod × Nat)
  deriving DecidableEq

/-- The function `record_line_number (info, address, offset)`. -/
def record_line_number (info : MiniDebugMethodInfo) (address offset : Nat) :
    MiniDebugMethodInfo :=
  let lne : MonoDebugLineNumberEntry := { native_offset := address, il_offset := offset }
  { info with line_numbers := info.line_numbers ++ [lne] }

/-- The function `mono_debug_init_method (cfg, start_block, breakpoint_id)`;
`mono_debug_format` is the global of that name.  `g_new0` gives a zero-filled
`MiniDebugMethodInfo`, whose null `line_numbers` is the empty list. -/
def mono_debug_init_method (K : Constants) (mono_debug_format : Nat) (cfg : MonoCompile)
    (_start_block : Nat) (breakpoint_id : Nat) : MonoCompile :=
  if mono_debug_format = K.MONO_DEBUG_FORMAT_NONE then cfg
  else
    let info : MiniDebugMethodInfo :=
      { jit := none, line_numbers := [], has_line_numbers := 0, breakpoint_id := breakpoint_id }
    { cfg with debug_info := some info }

/-- The function `mono_debug_open_method (cfg)`.  `mono_class_init` has no effect on
the state kept here. -/
def mono_debug_open_method (cfg : MonoCompile) : Except Fault MonoCompile :=
  match cfg.debug_info with
  | none => pure cfg
  | some info =>
    match cfg.method.header with
    | none => throw .assertion_failed
    | some header =>
      let jit : MonoDebugMethodJitInfo :=
        { code_start := 0, code_size := 0, prologue_end := 0, epilogue_begin := 0,
          line_numbers := [], this_var := none, params := [],
          locals := List.replicate header.num_locals ⟨0, 0⟩ }
      pure { cfg with debug_info := some { info with jit := some jit, line_numbers := [] } }

/-- The function `write_variable (inst, var)`: the updated `*var`. -/
def write_variable (K : Constants) (M : AddressModes) (inst : MonoInst)
    (var : MonoDebugVarInfo) : MonoDebugVarInfo :=
  if inst.opcode = K.OP_REGVAR then
    { var with index := to_guint32 ((inst.dreg ||| M.register : Nat) : Int) }
  else
    { index := to_guint32 ((inst.inst_basereg ||| M.regoffset : Nat) : Int),
      offset := to_guint32 inst.inst_offset }

/-- The function `mono_debug_add_vg_method (method, jit)`.  Its body is compiled only
under `VALGRIND_ADD_LINE_INFO`, and there it names the fields `offset` and `address`
of a line entry, which the rest of this file knows as `il_offset` and
`native_offset`; what remains of it keeps no state of its own.  Its one assertion is
`vg_line_bound` below. -/
def mono_debug_add_vg_method (_method : MonoMethod) (_jit : MonoDebugMethodJitInfo) : Unit :=
  ()

/-- The assertion `g_assert (lne->offset <= header->code_size)` that
`mono_debug_add_vg_method` makes on every line entry. -/
def vg_line_bound (header : MonoMethodHeader) (jit : MonoDebugMethodJitInfo) : Prop :=
  ∀ lne ∈ jit.line_numbers, lne.il_offset ≤ header.code_size

instance (header : MonoMethodHeader) (jit : MonoDebugMethodJitInfo) :
    Decidable (vg_line_bound header jit) := by
  unfold vg_line_bound; infer_instance

/-- A loop `for (i = 0; i < n; i++) write_variable (cfg->varinfo [start + i], &vars [i])`
over the array `vars` of `n` variables, from index `i` on; an index outside
`cfg->varinfo` is a read outside the array. -/
def write_variables (K : Constants) (M : AddressModes) (varinfo : List MonoInst)
    (start : Nat) : Nat → List MonoDebugVarInfo → Except Fault (List MonoDebugVarInfo)
  | _, [] => pure []
  | i, var :: vars =>
    match varinfo.get? (start + i) with
    | none => throw .out_of_bounds
    | some inst => do
      let vars ← write_variables K M varinfo start (i + 1) vars
      pure (write_variable K M inst var :: vars)

/-- The function `mono_debug_close_method (cfg)`: what it does to the registry and to
the debugger.  It assigns no field of `cfg`; the objects `info` and `jit` that it
fills are freed before it returns.  A null `header` is dereferenced for the
synthetic line entry. -/
def mono_debug_close_method (K : Constants) (M : AddressModes) (W : World)
    (cfg : MonoCompile) : Except Fault World :=
  match cfg.debug_info with
  | none => pure W
  | some info =>
    match info.jit with
    | none => pure W
    | some jit =>
      match cfg.method.header with
      | none => throw .null_pointer
      | some header => do
        let sig := cfg.method.signature
        let jit := { jit with code_start := cfg.native_code
                              epilogue_begin := cfg.epilog_begin
                              code_size := cfg.code_len }
        let info := record_line_number info jit.epilogue_begin header.code_size
        let params : List MonoDebugVarInfo := List.replicate sig.param_count ⟨0, 0⟩
        let locals ← write_variables K M cfg.varinfo cfg.locals_start 0 jit.locals
        let this_var ←
          if sig.hasthis then
            match cfg.varinfo.get? 0 with
            | none => throw Fault.out_of_bounds
            | some inst => pure (some (write_variable K M inst ⟨0, 0⟩))
          else pure jit.this_var
        let params ← write_variables K M cfg.varinfo sig.hasthis.toNat 0 params
        let jit := { jit with locals := locals, this_var := this_var, params := params,
                              line_numbers := info.line_numbers }
        let W := { W with registry := W.registry ++ [(cfg.method, jit, cfg.domain)] }
        let _ := mono_debug_add_vg_method cfg.method jit
        let W :=
          if info.breakpoint_id ≠ 0 then
            { W with breakpoint_callbacks :=
                W.breakpoint_callbacks ++ [(cfg.method, info.breakpoint_id)] }
          else W
        pure W

/-- The function `mono_debug_record_line_number (cfg, ins, address)`.  The pointer
difference `ins->cil_code - header->code` is stored in a `guint32`; `TRUE` is 1. -/
def mono_debug_record_line_number (cfg : MonoCompile) (ins : MonoInst) (address : Nat) :
    Except Fault MonoCompile :=
  match cfg.debug_info with
  | none => pure cfg
  | some info =>
    match info.jit with
    | none => pure cfg
    | some jit =>
      match ins.cil_code with
      | none => pure cfg
      | some cil_code =>
        match cfg.method.header with
        | none => throw .assertion_failed
        | some header =>
          if cil_code < header.code ∨ cil_code > header.code + header.code_size then
            pure cfg
          else
            let offset := to_guint32 ((cil_code : Int) - header.code)
            let info :=
              if info.has_line_numbers = 0 then
                { info with jit := some { jit with prologue_end := address },
                            has_line_numbers := 1 }
              else info
            pure { cfg with debug_info := some (record_line_number info address offset) }

/-- The function `mono_debug_add_aot_method (domain, method, code_start, debug_info,
debug_info_len)`: what it does to the registry. -/
def mono_debug_add_aot_method (K : Constants) (M : AddressModes) (mono_debug_format : Nat)
    (W : World) (domain : Nat) (method : MonoMethod) (code_start : Nat)
    (debug_info : List guint8) (debug_info_len : Nat) : Except Fault World :=
  if mono_debug_format = K.MONO_DEBUG_FORMAT_NONE then pure W
  else if method.iflags &&& K.METHOD_IMPL_ATTRIBUTE_INTERNAL_CALL ≠ 0
      ∨ method.iflags &&& K.METHOD_IMPL_ATTRIBUTE_RUNTIME ≠ 0
      ∨ method.flags &&& K.METHOD_ATTRIBUTE_PINVOKE_IMPL ≠ 0
      ∨ method.flags &&& K.METHOD_ATTRIBUTE_ABSTRACT ≠ 0
      ∨ method.wrapper_type ≠ K.MONO_WRAPPER_NONE then pure W
  else if debug_info_len = 0 then pure W
  else do
    let jit ← deserialize_debug_info M method code_start debug_info debug_info_len
    let W := { W with registry := W.registry ++ [(method, jit, domain)] }
    let _ := mono_debug_add_vg_method method jit
    pure W

/-! ## Vocabulary of the statements -/

/-- The address-mode flag bits of `var` are one of the two supported tags. -/
def valid_address_mode (M : AddressModes) (var : MonoDebugVarInfo) : Prop :=
  var.index &&& M.flags = M.register ∨ var.index &&& M.flags = M.regoffset

instance (M : AddressModes) (var : MonoDebugVarInfo) : Decidable (valid_address_mode M var) := by
  unfold valid_address_mode; infer_instance

/-- Both fields of `var` are `guint32` values. -/
def var_in_range (var : MonoDebugVarInfo) : Prop :=
  is_guint32 var.index ∧ is_guint32 var.offset

instance (var : MonoDebugVarInfo) : Decidable (var_in_range var) := by
  unfold var_in_range; infer_instance

/-- The location that `var` denotes, in a zero-filled `MonoDebugVarInfo`: the `index`
(tag and register), and the `offset` unless the tag is the register tag, for which
the field `offset` carries no meaning. -/
def location (M : AddressModes) (var : MonoDebugVarInfo) : MonoDebugVarInfo :=
  if var.index &&& M.flags = M.register then { index := var.index, offset := 0 } else var

/-- All scalar fields of `jit`, and its count `num_line_numbers`, are `guint32`
values. -/
def jit_in_range (jit : MonoDebugMethodJitInfo) : Prop :=
  is_guint32 jit.code_size ∧ is_guint32 jit.prologue_end ∧ is_guint32 jit.epilogue_begin ∧
  (∀ var ∈ jit.params, var_in_range var) ∧
  (∀ var ∈ jit.this_var.toList, var_in_range var) ∧
  (∀ var ∈ jit.locals, var_in_range var) ∧
  (∀ lne ∈ jit.line_numbers, is_guint32 lne.il_offset ∧ is_guint32 lne.native_offset) ∧
  is_guint32 jit.line_numbers.length

instance (jit : MonoDebugMethodJitInfo) : Decidable (jit_in_range jit) := by
  unfold jit_in_range; infer_instance

/-- Every variable of `jit` carries one of the two supported tags. -/
def jit_valid_tags (M : AddressModes) (jit : MonoDebugMethodJitInfo) : Prop :=
  (∀ var ∈ jit.params, valid_address_mode M var) ∧
  (∀ var ∈ jit.this_var.toList, valid_address_mode M var) ∧
  (∀ var ∈ jit.locals, valid_address_mode M var)

instance (M : AddressModes) (jit : MonoDebugMethodJitInfo) :
    Decidable (jit_valid_tags M jit) := by
  unfold jit_valid_tags; infer_instance

/-- The size expression of the serializer, computed without wrap-around. -/
def allocated_size (jit : MonoDebugMethodJitInfo) : Nat :=
  (jit.params.length + jit.locals.length + 1) * 10 + jit.line_numbers.length * 10 + 64

/-- The variable encoding of the wire layout: one VarInt that carries the tagged
`index` for the register tag, and otherwise a second VarInt that carries `offset`. -/
def variable_encoding (M : AddressModes) (var : MonoDebugVarInfo) : List guint8 :=
  if var.index &&& M.flags = M.register then encode_value (to_gint32 var.index)
  else encode_value (to_gint32 var.index) ++ encode_value (to_gint32 var.offset)

/-- The entry before position `i` of a line table that is preceded by `start`; the
wire layout starts from the entry whose two offsets are 0. -/
def previous_entry (start : MonoDebugLineNumberEntry) (lines : List MonoDebugLineNumberEntry)
    (i : Nat) : MonoDebugLineNumberEntry :=
  if i = 0 then start else lines.getD (i - 1) ⟨0, 0⟩

/-- The two VarInts of line entry `i` in the wire layout: the differences of its
offsets to those of the entry before, as signed 32-bit values. -/
def line_entry_encoding (start : MonoDebugLineNumberEntry)
    (lines : List MonoDebugLineNumberEntry) (i : Nat) : List guint8 :=
  encode_value (to_gint32
      (((lines.getD i ⟨0, 0⟩).il_offset : Int) - (previous_entry start lines i).il_offset))
    ++ encode_value (to_gint32
      (((lines.getD i ⟨0, 0⟩).native_offset : Int)
        - (previous_entry start lines i).native_offset))

/-- The wire layout as the specification describes it, for a record `jit` of a
method whose signature has `hasthis`. -/
def wire_layout (M : AddressModes) (hasthis : Bool) (jit : MonoDebugMethodJitInfo) :
    List guint8 :=
  encode_value (to_gint32 jit.epilogue_begin)
    ++ encode_value (to_gint32 jit.prologue_end)
    ++ encode_value (to_gint32 jit.code_size)
    ++ (jit.params.map (variable_encoding M)).flatten
    ++ (if hasthis then (jit.this_var.toList.map (variable_encoding M)).flatten else [])
    ++ (jit.locals.map (variable_encoding M)).flatten
    ++ encode_value (to_gint32 jit.line_numbers.length)
    ++ ((List.range jit.line_numbers.length).map
        (line_entry_encoding ⟨0, 0⟩ jit.line_numbers)).flatten

/-- The part of the wire layout that follows the parameters: the receiver if `hasthis`,
the locals, the line count and the line entries. -/
def after_params (M : AddressModes) (hasthis : Bool) (jit : MonoDebugMethodJitInfo) :
    List guint8 :=
  (if hasthis then (jit.this_var.toList.map (variable_encoding M)).flatten else [])
    ++ (jit.locals.map (variable_encoding M)).flatten
    ++ encode_value (to_gint32 jit.line_numbers.length)
    ++ ((List.range jit.line_numbers.length).map
        (line_entry_encoding ⟨0, 0⟩ jit.line_numbers)).flatten

/-! ## Example data -/

/-- A concrete choice of the three address-mode constants, on which closed
instances are evaluated: the tag occupies the four high-order bits of `index`, the
register tag is 0 and the register-offset tag is `0x10000000`.  These are the values
that the mono header `mono/metadata/mono-debug.h` gives the three macros; the
general theorems hold for arbitrary constants. -/
def example_modes : AddressModes :=
  { flags := 0xf0000000, register := 0, regoffset := 0x10000000 }

/-- A method with no locals, an IL body of 11 bytes and the given signature. -/
def example_method (hasthis : Bool) (param_count : Nat) : MonoMethod :=
  { iflags := 0, flags := 0, wrapper_type := 0,
    header := some { code := 0, code_size := 11, num_locals := 0 },
    signature := { hasthis := hasthis, param_count := param_count } }

/-- The record of the full round-trip example of the specification: two parameters
(register-offset with base register 5 and offset `-8`, register 2), a receiver in
register 0, no locals, four line entries with a non-monotonic `il_offset`. -/
def example_jit : MonoDebugMethodJitInfo :=
  { code_start := 0, code_size := 20, prologue_end := 2, epilogue_begin := 14,
    line_numbers := [⟨0, 0⟩, ⟨3, 4⟩, ⟨1, 10⟩, ⟨10, 14⟩],
    this_var := some ⟨0, 0⟩,
    params := [⟨0x10000005, to_guint32 (-8)⟩, ⟨2, 0⟩],
    locals := [] }

/-- A compile context that holds `jit` as its opened record. -/
def example_cfg (method : MonoMethod) (jit : MonoDebugMethodJitInfo) : MonoCompile :=
  { method := method,
    debug_info := some { jit := some jit, line_numbers := [], has_line_numbers := 1,
                         breakpoint_id := 0 },
    native_code := 0, epilog_begin := 14, code_len := 20, varinfo := [], locals_start := 0,
    domain := 0 }

/-- The 27 bytes that the serializer writes for `example_jit`. -/
def example_bytes : List guint8 :=
  [14, 2, 20, 0xd0, 0, 0, 5, 0xff, 0xff, 0xff, 0xff, 0xf8, 2, 0, 4, 0, 0, 3, 4,
   0xff, 0xff, 0xff, 0xff, 0xfe, 6, 9, 4]

/-- A record with two register parameters, no receiver, no locals and no line
entries. -/
def bare_jit : MonoDebugMethodJitInfo :=
  { code_start := 0, code_size := 0, prologue_end := 0, epilogue_begin := 0,
    line_numbers := [], this_var := none, params := [⟨1, 0⟩, ⟨2, 0⟩], locals := [] }

/-! ## Vocabulary of the session statements -/

/-- A run of calls `mono_debug_record_line_number (cfg, ins, address)`, in order. -/
def record_line_numbers : MonoCompile → List (MonoInst × Nat) → Except Fault MonoCompile
  | cfg, [] => pure cfg
  | cfg, (ins, address) :: calls => do
    let cfg ← mono_debug_record_line_number cfg ins address
    record_line_numbers cfg calls

/-- A recording session up to its close: `mono_debug_init_method`,
`mono_debug_open_method`, then the run `calls` of `mono_debug_record_line_number`. -/
def recording_session (K : Constants) (mono_debug_format : Nat) (cfg : MonoCompile)
    (start_block breakpoint_id : Nat) (calls : List (MonoInst × Nat)) :
    Except Fault MonoCompile := do
  let opened ← mono_debug_open_method
    (mono_debug_init_method K mono_debug_format cfg start_block breakpoint_id)
  record_line_numbers opened calls

/-- The instruction has an IL position and it lies in the IL body of `header`, its
end included: the calls that `mono_debug_record_line_number` does not drop. -/
def accepted (header : MonoMethodHeader) (ins : MonoInst) : Prop :=
  match ins.cil_code with
  | none => False
  | some cil_code => header.code ≤ cil_code ∧ cil_code ≤ header.code + header.code_size

instance (header : MonoMethodHeader) (ins : MonoInst) : Decidable (accepted header ins) := by
  unfold accepted
  cases ins.cil_code with
  | none => exact isFalse (fun h => h)
  | some c => exact inferInstanceAs (Decidable (_ ∧ _))

/-- The IL offset of an instruction in the body of `header`. -/
def il_offset_of (header : MonoMethodHeader) (ins : MonoInst) : Nat :=
  match ins.cil_code with
  | none => 0
  | some cil_code => cil_code - header.code

/-- The line entry that an accepted call stands for. -/
def line_entry_of (header : MonoMethodHeader) (call : MonoInst × Nat) :
    MonoDebugLineNumberEntry :=
  { il_offset := il_offset_of header call.1, native_offset := call.2 }

/-- The conditions under which `mono_debug_add_aot_method` goes on to the
deserializer, each written as the test that the function makes. -/
def aot_eligible (K : Constants) (mono_debug_format : Nat) (method : MonoMethod)
    (debug_info_len : Nat) : Prop :=
  mono_debug_format ≠ K.MONO_DEBUG_FORMAT_NONE ∧
  method.iflags &&& K.METHOD_IMPL_ATTRIBUTE_INTERNAL_CALL = 0 ∧
  method.iflags &&& K.METHOD_IMPL_ATTRIBUTE_RUNTIME = 0 ∧
  method.flags &&& K.METHOD_ATTRIBUTE_PINVOKE_IMPL = 0 ∧
  method.flags &&& K.METHOD_ATTRIBUTE_ABSTRACT = 0 ∧
  method.wrapper_type = K.MONO_WRAPPER_NONE ∧
  debug_info_len ≠ 0

instance (K : Constants) (mono_debug_format : Nat) (method : MonoMethod)
    (debug_info_len : Nat) : Decidable (aot_eligible K mono_debug_format method debug_info_len) := by
  unfold aot_eligible; infer_instance

/-- The method is an internal call, runtime-provided, a P/Invoke stub, abstract or a
wrapper, by the tests of `mono_debug_add_aot_method`. -/
def ineligible_kind (K : Constants) (method : MonoMethod) : Prop :=
  method.iflags &&& K.METHOD_IMPL_ATTRIBUTE_INTERNAL_CALL ≠ 0
    ∨ method.iflags &&& K.METHOD_IMPL_ATTRIBUTE_RUNTIME ≠ 0
    ∨ method.flags &&& K.METHOD_ATTRIBUTE_PINVOKE_IMPL ≠ 0
    ∨ method.flags &&& K.METHOD_ATTRIBUTE_ABSTRACT ≠ 0
    ∨ method.wrapper_type ≠ K.MONO_WRAPPER_NONE

instance (K : Constants) (method : MonoMethod) : Decidable (ineligible_kind K method) := by
  unfold ineligible_kind; infer_instance

/-- The record that `mono_debug_open_method` allocates for `header`. -/
def opened_jit (header : MonoMethodHeader) : MonoDebugMethodJitInfo :=
  { code_start := 0, code_size := 0, prologue_end := 0, epilogue_begin := 0,
    line_numbers := [], this_var := none, params := [],
    locals := List.replicate header.num_locals ⟨0, 0⟩ }

/-- The record that `mono_debug_close_method` has filled when it calls
`mono_debug_add_method`, given the three groups of variables that it has written. -/
def closed_record (cfg : MonoCompile) (info : MiniDebugMethodInfo)
    (jit : MonoDebugMethodJitInfo) (header : MonoMethodHeader)
    (locals : List MonoDebugVarInfo) (this_var : Option MonoDebugVarInfo)
    (params : List MonoDebugVarInfo) : MonoDebugMethodJitInfo :=
  { code_start := cfg.native_code
    code_size := cfg.code_len
    prologue_end := jit.prologue_end
    epilogue_begin := cfg.epilog_begin
    line_numbers := info.line_numbers ++ [⟨header.code_size, cfg.epilog_begin⟩]
    this_var := this_var
    params := params
    locals := locals }

/-- The world after `record` has been registered for the method of `cfg` and the
pending breakpoint of the session, if any, has been reported. -/
def registered (W : World) (cfg : MonoCompile) (info : MiniDebugMethodInfo)
    (record : MonoDebugMethodJitInfo) : World :=
  { registry := W.registry ++ [(cfg.method, record, cfg.domain)]
    breakpoint_callbacks :=
      if info.breakpoint_id ≠ 0 then
        W.breakpoint_callbacks ++ [(cfg.method, info.breakpoint_id)]
      else W.breakpoint_callbacks }

/-- The receiver variable that `mono_debug_close_method` writes. -/
def closed_this_var (K : Constants) (M : AddressModes) (cfg : MonoCompile)
    (jit : MonoDebugMethodJitInfo) : Except Fault (Option MonoDebugVarInfo) :=
  if cfg.method.signature.hasthis then
    match cfg.varinfo.get? 0 with
    | none => .error .out_of_bounds
    | some inst => .ok (some (write_variable K M inst ⟨0, 0⟩))
  else .ok jit.this_var

/-- Modelled from the spec: a runtime-provided method.  The code type of a method is
the field of `iflags` under `METHOD_IMPL_ATTRIBUTE_CODE_TYPE_MASK`, a constant of the
metadata headers that the source does not name and that is the parameter
`code_type_mask`; the method is runtime-provided when this field holds the value
`METHOD_IMPL_ATTRIBUTE_RUNTIME`. -/
def runtime_provided (K : Constants) (code_type_mask : Nat) (method : MonoMethod) : Prop :=
  method.iflags &&& code_type_mask = K.METHOD_IMPL_ATTRIBUTE_RUNTIME

instance (K : Constants) (code_type_mask : Nat) (method : MonoMethod) :
    Decidable (runtime_provided K code_type_mask method) := by
  unfold runtime_provided; infer_instance

/-- Modelled from the spec: the conditions of eligibility by kind of method.  The
debug format is not `NONE`, the method is not an internal call (its flag bit is
clear), not runtime-provided, not a P/Invoke stub and not abstract (their flag bits
are clear), its wrapper type is `MONO_WRAPPER_NONE`, and the buffer length is not 0. -/
def kind_eligible (K : Constants) (code_type_mask : Nat) (mono_debug_format : Nat)
    (method : MonoMethod) (debug_info_len : Nat) : Prop :=
  mono_debug_format ≠ K.MONO_DEBUG_FORMAT_NONE ∧
  method.iflags &&& K.METHOD_IMPL_ATTRIBUTE_INTERNAL_CALL = 0 ∧
  ¬ runtime_provided K code_type_mask method ∧
  method.flags &&& K.METHOD_ATTRIBUTE_PINVOKE_IMPL = 0 ∧
  method.flags &&& K.METHOD_ATTRIBUTE_ABSTRACT = 0 ∧
  method.wrapper_type = K.MONO_WRAPPER_NONE ∧
  debug_info_len ≠ 0

instance (K : Constants) (code_type_mask : Nat) (mono_debug_format : Nat)
    (method : MonoMethod) (debug_info_len : Nat) :
    Decidable (kind_eligible K code_type_mask mono_debug_format method debug_info_len) := by
  unfold kind_eligible; infer_instance

/-! ## Example data of the session -/

/-- A concrete choice of the constants of `Constants`, on which closed instances are
evaluated: the values that the mono headers give them (`MONO_DEBUG_FORMAT_NONE` and
`MONO_WRAPPER_NONE` are the first enumerators; the opcode number is arbitrary). -/
def example_constants : Constants :=
  { MONO_DEBUG_FORMAT_NONE := 0
    METHOD_IMPL_ATTRIBUTE_INTERNAL_CALL := 0x1000
    METHOD_IMPL_ATTRIBUTE_RUNTIME := 0x0003
    METHOD_ATTRIBUTE_PINVOKE_IMPL := 0x2000
    METHOD_ATTRIBUTE_ABSTRACT := 0x0400
    MONO_WRAPPER_NONE := 0
    OP_REGVAR := 1 }

/-- A wrapper method (its `wrapper_type` is not `MONO_WRAPPER_NONE`) with an IL body of
11 bytes at address 1000, no locals and one parameter. -/
def example_wrapper : MonoMethod :=
  { iflags := 0, flags := 0, wrapper_type := 1,
    header := some { code := 1000, code_size := 11, num_locals := 0 },
    signature := { hasthis := false, param_count := 1 } }

/-- A compile context for `method` before `mono_debug_init_method`, with one variable
that lives in register 3. -/
def example_compile (method : MonoMethod) : MonoCompile :=
  { method := method, debug_info := none, native_code := 4096, epilog_begin := 14,
    code_len := 20,
    varinfo := [{ opcode := 1, dreg := 3, inst_basereg := 0, inst_offset := 0,
                  cil_code := none }],
    locals_start := 1, domain := 7 }

/-- An instruction at IL offset `il_offset` of a body at address 1000. -/
def example_ins (il_offset : Nat) : MonoInst :=
  { opcode := 0, dreg := 0, inst_basereg := 0, inst_offset := 0,
    cil_code := some (1000 + il_offset) }

/-- The session of `example_wrapper` after three recorded entries, before its close. -/
def example_opened : MonoCompile :=
  { example_compile example_wrapper with
    debug_info := some
      ({ jit := some { opened_jit { code := 1000, code_size := 11, num_locals := 0 } with
                  prologue_end := 2 },
         line_numbers := [⟨0, 2⟩, ⟨3, 4⟩, ⟨1, 1⟩], has_line_numbers := 1, breakpoint_id := 5 }) }

/-- The method of the example record with the code type `native`: the code-type field
of `iflags`, under the mask 3, holds 1, where `IL` is 0, `OPTIL` is 2 and `runtime`
is 3. -/
def example_native : MonoMethod :=
  { example_method true 2 with iflags := 1 }

/-! ## Arithmetic of the bit operations -/

theorem to_guint32_cast (x : Int) : ((to_guint32 x : Nat) : Int) = x % 4294967296 := by
  unfold to_guint32; omega

theorem to_guint32_to_gint32 (x : Int) : to_guint32 (to_gint32 x) = to_guint32 x := by
  unfold to_guint32 to_gint32; congr 1; omega

theorem to_guint32_of_nat (n : Nat) (h : n < 4294967296) : to_guint32 (n : Int) = n := by
  unfold to_guint32; omega

theorem to_gint32_of_is_gint32 (x : Int) (h : is_gint32 x) : to_gint32 x = x := by
  unfold is_gint32 at h; unfold to_gint32; omega

theorem is_gint32_to_gint32 (x : Int) : is_gint32 (to_gint32 x) := by
  unfold is_gint32 to_gint32; omega

theorem c_and_255 (x : Int) : c_and x 255 = x % 256 := by
  unfold c_and
  have h255 : to_guint32 255 = 2 ^ 8 - 1 := by decide
  rw [h255, Nat.and_pow_two_sub_one_eq_mod]
  have h := to_guint32_cast x
  unfold to_gint32
  push_cast
  omega

theorem nat_or_128 (n : Nat) (h : n < 64) : 128 ||| n = 128 + n := by
  have := Nat.mul_add_lt_is_or (i := 7) (b := n) (by norm_num; omega) 1
  simpa using this.symm

theorem nat_or_192 (n : Nat) (h : n < 32) : n ||| 192 = 192 + n := by
  have := Nat.mul_add_lt_is_or (i := 6) (b := n) (by norm_num; omega) 3
  rw [Nat.lor_comm]
  simpa using this.symm

theorem c_or_128 (y : Int) (h0 : 0 ≤ y) (h1 : y < 64) : c_or 128 y = 128 + y := by
  unfold c_or
  have h128 : to_guint32 128 = 128 := by decide
  have hy : to_guint32 y = y.toNat := by unfold to_guint32; congr 1; omega
  rw [h128, hy, nat_or_128 _ (by omega)]
  unfold to_gint32
  push_cast
  omega

theorem c_or_192 (y : Int) (h0 : 0 ≤ y) (h1 : y < 32) : c_or y 192 = 192 + y := by
  unfold c_or
  have h192 : to_guint32 192 = 192 := by decide
  have hy : to_guint32 y = y.toNat := by unfold to_guint32; congr 1; omega
  rw [h192, hy, nat_or_192 _ (by omega)]
  unfold to_gint32
  push_cast
  omega

theorem c_shr_8 (x : Int) : c_shr x 8 = x / 256 := by
  unfold c_shr; rw [Int.shiftRight_eq_div_pow]; norm_num

theorem c_shr_16 (x : Int) : c_shr x 16 = x / 65536 := by
  unfold c_shr; rw [Int.shiftRight_eq_div_pow]; norm_num

theorem c_shr_24 (x : Int) : c_shr x 24 = x / 16777216 := by
  unfold c_shr; rw [Int.shiftRight_eq_div_pow]; norm_num

theorem shl_or (a b k : Nat) (h : b < 2 ^ k) : a <<< k ||| b = a * 2 ^ k + b := by
  rw [Nat.shiftLeft_eq, Nat.mul_comm, ← Nat.mul_add_lt_is_or h]

theorem be32 (a b c d : Nat) (hb : b < 256) (hc : c < 256) (hd : d < 256) :
    (a <<< 24) ||| (b <<< 16) ||| (c <<< 8) ||| d
      = a * 16777216 + b * 65536 + c * 256 + d := by
  have h1 : (a <<< 24) ||| (b <<< 16) = (a * 256 + b) <<< 16 := by
    rw [Nat.shiftLeft_eq, Nat.shiftLeft_eq, Nat.shiftLeft_eq]
    have := Nat.mul_add_lt_is_or (i := 24) (b := b * 2 ^ 16) (by norm_num; omega) a
    rw [Nat.mul_comm a, ← this]; ring
  have h2 : ((a * 256 + b) <<< 16) ||| (c <<< 8) = ((a * 256 + b) * 256 + c) <<< 8 := by
    rw [Nat.shiftLeft_eq, Nat.shiftLeft_eq, Nat.shiftLeft_eq]
    have := Nat.mul_add_lt_is_or (i := 16) (b := c * 2 ^ 8) (by norm_num; omega) (a * 256 + b)
    rw [Nat.mul_comm (a * 256 + b), ← this]; ring
  rw [h1, h2, shl_or _ _ _ (by norm_num; omega)]
  ring

set_option maxRecDepth 100000 in
theorem and_128 : ∀ b : Fin 256, (b.val &&& 128 = 0) ↔ b.val < 128 := by decide

set_option maxRecDepth 100000 in
theorem and_64 : ∀ b : Fin 256, (b.val &&& 64 = 0) ↔ (b.val / 64) % 2 = 0 := by decide

theorem and_63 (n : Nat) : n &&& 63 = n % 64 := Nat.and_pow_two_sub_one_eq_mod n 6

theorem and_31 (n : Nat) : n &&& 31 = n % 32 := Nat.and_pow_two_sub_one_eq_mod n 5

theorem decode_value_form1 (b : guint8) (r : List guint8) (h : b.val < 128) :
    decode_value (b :: r) = .ok ((b.val : Int), r) := by
  have h1 : b.val &&& 128 = 0 := (and_128 b).2 h
  simp [decode_value, rd, h1, bind, Except.bind, pure, Except.pure]

theorem decode_value_form2 (b b1 : guint8) (r : List guint8)
    (h : 128 ≤ b.val) (h2 : b.val < 192) :
    decode_value (b :: b1 :: r) = .ok ((b.val : Int) % 64 * 256 + (b1.val : Int), r) := by
  have h1 : ¬ (b.val &&& 128 = 0) := fun e => by have := (and_128 b).1 e; omega
  have h3 : b.val &&& 64 = 0 := (and_64 b).2 (by omega)
  have h4 : (b.val &&& 63) <<< 8 ||| b1.val = b.val % 64 * 256 + b1.val := by
    rw [shl_or _ _ _ (by have := b1.isLt; omega), and_63]; norm_num
  have h5 : to_gint32 ((b.val : Int) % 64 * 256 + (b1.val : Int))
      = (b.val : Int) % 64 * 256 + (b1.val : Int) := by
    have := b1.isLt
    unfold to_gint32; omega
  simp [decode_value, rd, h1, h3, h4, h5, bind, Except.bind, pure, Except.pure]

/-! ## The forms of the decoder and of the encoder -/

theorem decode_value_form4 (b b1 b2 b3 : guint8) (r : List guint8)
    (h : 192 ≤ b.val) (h2 : b.val ≠ 255) :
    decode_value (b :: b1 :: b2 :: b3 :: r)
      = .ok ((b.val : Int) % 32 * 16777216 + (b1.val : Int) * 65536 + (b2.val : Int) * 256
          + (b3.val : Int), r) := by
  have h1 : ¬ (b.val &&& 128 = 0) := fun e => by have := (and_128 b).1 e; omega
  have h3 : ¬ (b.val &&& 64 = 0) := fun e => by have := (and_64 b).1 e; have := b.isLt; omega
  have h4 : (b.val &&& 31) <<< 24 ||| b1.val <<< 16 ||| b2.val <<< 8 ||| b3.val
      = b.val % 32 * 16777216 + b1.val * 65536 + b2.val * 256 + b3.val := by
    rw [be32 _ _ _ _ b1.isLt b2.isLt b3.isLt, and_31]
  have h5 : to_gint32 ((b.val % 32 * 16777216 + b1.val * 65536 + b2.val * 256 + b3.val : Nat) : Int)
      = (b.val : Int) % 32 * 16777216 + (b1.val : Int) * 65536 + (b2.val : Int) * 256
          + (b3.val : Int) := by
    have := b1.isLt; have := b2.isLt; have := b3.isLt
    unfold to_gint32; push_cast; omega
  have r0 : rd (b :: b1 :: b2 :: b3 :: r) 0 = .ok b.val := rfl
  have r1 : rd (b :: b1 :: b2 :: b3 :: r) 1 = .ok b1.val := rfl
  have r2 : rd (b :: b1 :: b2 :: b3 :: r) 2 = .ok b2.val := rfl
  have r3 : rd (b :: b1 :: b2 :: b3 :: r) 3 = .ok b3.val := rfl
  unfold decode_value
  rw [r0]
  show (if b.val &&& 0x80 = 0 then _ else _) = _
  rw [if_neg h1, if_neg h3, if_pos h2, r1, r2, r3]
  show Except.ok (to_gint32 (((b.val &&& 31) <<< 24 ||| b1.val <<< 16 ||| b2.val <<< 8
    ||| b3.val : Nat) : Int), r) = _
  rw [h4, h5]

theorem decode_value_form5 (b b1 b2 b3 b4 : guint8) (r : List guint8) (h : b.val = 255) :
    decode_value (b :: b1 :: b2 :: b3 :: b4 :: r)
      = .ok (to_gint32 ((b1.val : Int) * 16777216 + (b2.val : Int) * 65536
          + (b3.val : Int) * 256 + (b4.val : Int)), r) := by
  have h1 : ¬ (b.val &&& 128 = 0) := fun e => by have := (and_128 b).1 e; omega
  have h3 : ¬ (b.val &&& 64 = 0) := fun e => by have := (and_64 b).1 e; omega
  have h2 : ¬ (b.val ≠ 255) := fun e => e h
  have h4 := be32 b1.val b2.val b3.val b4.val b2.isLt b3.isLt b4.isLt
  have r0 : rd (b :: b1 :: b2 :: b3 :: b4 :: r) 0 = .ok b.val := rfl
  have r1 : rd (b :: b1 :: b2 :: b3 :: b4 :: r) 1 = .ok b1.val := rfl
  have r2 : rd (b :: b1 :: b2 :: b3 :: b4 :: r) 2 = .ok b2.val := rfl
  have r3 : rd (b :: b1 :: b2 :: b3 :: b4 :: r) 3 = .ok b3.val := rfl
  have r4 : rd (b :: b1 :: b2 :: b3 :: b4 :: r) 4 = .ok b4.val := rfl
  unfold decode_value
  rw [r0]
  show (if b.val &&& 0x80 = 0 then _ else _) = _
  rw [if_neg h1, if_neg h3, if_neg h2, r1, r2, r3, r4]
  show Except.ok (to_gint32 ((b1.val <<< 24 ||| b2.val <<< 16 ||| b3.val <<< 8
    ||| b4.val : Nat) : Int), r) = _
  rw [h4]
  push_cast
  rfl

theorem to_guint8_val (x : Int) : ((to_guint8 x).val : Int) = x % 256 := by
  show (((x % 256).toNat : Nat) : Int) = x % 256
  omega

theorem encode_value_form1 (v : Int) (h0 : 0 ≤ v) (h1 : v ≤ 127) :
    encode_value v = [to_guint8 v] := by
  unfold encode_value
  rw [if_pos ⟨h0, h1⟩]

theorem encode_value_form2 (v : Int) (h0 : 128 ≤ v) (h1 : v ≤ 16383) :
    encode_value v = [to_guint8 (128 + v / 256), to_guint8 (v % 256)] := by
  unfold encode_value
  rw [if_neg (by omega), if_pos ⟨by omega, h1⟩, c_shr_8, c_and_255,
    c_or_128 _ (by omega) (by omega)]

theorem encode_value_form4 (v : Int) (h0 : 16384 ≤ v) (h1 : v ≤ 536870911) :
    encode_value v = [to_guint8 (192 + v / 16777216), to_guint8 (v / 65536 % 256),
      to_guint8 (v / 256 % 256), to_guint8 (v % 256)] := by
  unfold encode_value
  rw [if_neg (by omega), if_neg (by omega), if_pos ⟨by omega, h1⟩, c_shr_8, c_shr_16, c_shr_24,
    c_and_255, c_and_255, c_and_255, c_or_192 _ (by omega) (by omega)]

theorem encode_value_form5 (v : Int) (h : v < 0 ∨ 536870911 < v) :
    encode_value v = [to_guint8 255, to_guint8 (v / 16777216 % 256), to_guint8 (v / 65536 % 256),
      to_guint8 (v / 256 % 256), to_guint8 (v % 256)] := by
  unfold encode_value
  rw [if_neg (by omega), if_neg (by omega), if_neg (by omega), c_shr_8, c_shr_16, c_shr_24,
    c_and_255, c_and_255, c_and_255, c_and_255]

/-- Decoding what `encode_value` wrote gives the value back and leaves the pointer on
the byte that follows. -/
theorem decode_encode_value (v : Int) (hv : is_gint32 v) (rest : List guint8) :
    decode_value (encode_value v ++ rest) = .ok (v, rest) := by
  unfold is_gint32 at hv
  by_cases c1 : 0 ≤ v ∧ v ≤ 127
  · rw [encode_value_form1 v c1.1 c1.2]
    have hb := to_guint8_val v
    show decode_value (to_guint8 v :: rest) = _
    rw [decode_value_form1 _ _ (by omega)]
    congr 2; omega
  · by_cases c2 : 0 ≤ v ∧ v ≤ 16383
    · rw [encode_value_form2 v (by omega) c2.2]
      have hb := to_guint8_val (128 + v / 256)
      have hb1 := to_guint8_val (v % 256)
      show decode_value (to_guint8 _ :: to_guint8 _ :: rest) = _
      rw [decode_value_form2 _ _ _ (by omega) (by omega)]
      congr 2; omega
    · by_cases c3 : 0 ≤ v ∧ v ≤ 536870911
      · rw [encode_value_form4 v (by omega) c3.2]
        have hb := to_guint8_val (192 + v / 16777216)
        have hb1 := to_guint8_val (v / 65536 % 256)
        have hb2 := to_guint8_val (v / 256 % 256)
        have hb3 := to_guint8_val (v % 256)
        show decode_value (to_guint8 _ :: to_guint8 _ :: to_guint8 _ :: to_guint8 _ :: rest) = _
        rw [decode_value_form4 _ _ _ _ _ (by omega) (by omega)]
        congr 2; omega
      · rw [encode_value_form5 v (by omega)]
        have hb1 := to_guint8_val (v / 16777216 % 256)
        have hb2 := to_guint8_val (v / 65536 % 256)
        have hb3 := to_guint8_val (v / 256 % 256)
        have hb4 := to_guint8_val (v % 256)
        show decode_value (to_guint8 _ :: to_guint8 _ :: to_guint8 _ :: to_guint8 _
          :: to_guint8 _ :: rest) = _
        have hb : (to_guint8 255).val = 255 := by have := to_guint8_val 255; omega
        rw [decode_value_form5 _ _ _ _ _ _ hb]
        refine congrArg (fun x => (Except.ok (x, rest) : Except Fault (Int × List guint8))) ?_
        unfold to_gint32; omega

theorem decode_value_nil : decode_value [] = .error .out_of_bounds := rfl

theorem decode_value_short2 (b : guint8) (h : 128 ≤ b.val) (h2 : b.val < 192) :
    decode_value [b] = .error .out_of_bounds := by
  have h1 : ¬ (b.val &&& 128 = 0) := fun e => by have := (and_128 b).1 e; omega
  have h3 : b.val &&& 64 = 0 := (and_64 b).2 (by omega)
  have r0 : rd [b] 0 = .ok b.val := rfl
  unfold decode_value
  rw [r0]
  show (if b.val &&& 0x80 = 0 then _ else _) = _
  rw [if_neg h1, if_pos h3]
  rfl

theorem decode_value_short4 (b : guint8) (t : List guint8) (h : 192 ≤ b.val)
    (h2 : b.val ≠ 255) (ht : t.length < 3) :
    decode_value (b :: t) = .error .out_of_bounds := by
  have h1 : ¬ (b.val &&& 128 = 0) := fun e => by have := (and_128 b).1 e; omega
  have h3 : ¬ (b.val &&& 64 = 0) := fun e => by have := (and_64 b).1 e; have := b.isLt; omega
  have r0 : rd (b :: t) 0 = .ok b.val := rfl
  unfold decode_value
  rw [r0]
  show (if b.val &&& 0x80 = 0 then _ else _) = _
  rw [if_neg h1, if_neg h3, if_pos h2]
  rcases t with _ | ⟨b1, _ | ⟨b2, _ | ⟨b3, r⟩⟩⟩
  · rfl
  · rfl
  · rfl
  · simp at ht; omega

theorem decode_value_short5 (b : guint8) (t : List guint8) (h : b.val = 255)
    (ht : t.length < 4) :
    decode_value (b :: t) = .error .out_of_bounds := by
  have h1 : ¬ (b.val &&& 128 = 0) := fun e => by have := (and_128 b).1 e; omega
  have h3 : ¬ (b.val &&& 64 = 0) := fun e => by have := (and_64 b).1 e; omega
  have h2 : ¬ (b.val ≠ 255) := fun e => e h
  have r0 : rd (b :: t) 0 = .ok b.val := rfl
  unfold decode_value
  rw [r0]
  show (if b.val &&& 0x80 = 0 then _ else _) = _
  rw [if_neg h1, if_neg h3, if_neg h2]
  rcases t with _ | ⟨b1, _ | ⟨b2, _ | ⟨b3, _ | ⟨b4, r⟩⟩⟩⟩
  · rfl
  · rfl
  · rfl
  · rfl
  · simp at ht; omega

/-- Inversion of a successful `decode_value`: which form was read, from which bytes. -/
theorem decode_value_ok_cases (ptr rest : List guint8) (x : Int)
    (h : decode_value ptr = .ok (x, rest)) :
    (∃ b : guint8, ptr = b :: rest ∧ b.val < 128 ∧ x = b.val) ∨
    (∃ b b1 : guint8, ptr = b :: b1 :: rest ∧ 128 ≤ b.val ∧ b.val < 192 ∧
      x = (b.val : Int) % 64 * 256 + b1.val) ∨
    (∃ b b1 b2 b3 : guint8, ptr = b :: b1 :: b2 :: b3 :: rest ∧ 192 ≤ b.val ∧ b.val ≠ 255 ∧
      x = (b.val : Int) % 32 * 16777216 + (b1.val : Int) * 65536 + (b2.val : Int) * 256
        + b3.val) ∨
    (∃ b b1 b2 b3 b4 : guint8, ptr = b :: b1 :: b2 :: b3 :: b4 :: rest ∧ b.val = 255 ∧
      x = to_gint32 ((b1.val : Int) * 16777216 + (b2.val : Int) * 65536
        + (b3.val : Int) * 256 + b4.val)) := by
  rcases ptr with _ | ⟨b, t⟩
  · rw [decode_value_nil] at h; exact Except.noConfusion h
  · by_cases c1 : b.val < 128
    · rw [decode_value_form1 b t c1] at h
      injection h with h; injection h with hx ht
      exact Or.inl ⟨b, by rw [ht], c1, hx.symm⟩
    · by_cases c2 : b.val < 192
      · rcases t with _ | ⟨b1, r⟩
        · rw [decode_value_short2 b (by omega) c2] at h; exact Except.noConfusion h
        · rw [decode_value_form2 b b1 r (by omega) c2] at h
          injection h with h; injection h with hx ht
          exact Or.inr (Or.inl ⟨b, b1, by rw [ht], by omega, c2, hx.symm⟩)
      · by_cases c3 : b.val = 255
        · rcases t with _ | ⟨b1, _ | ⟨b2, _ | ⟨b3, _ | ⟨b4, r⟩⟩⟩⟩
          · rw [decode_value_short5 b _ c3 (by simp)] at h; exact Except.noConfusion h
          · rw [decode_value_short5 b _ c3 (by simp)] at h; exact Except.noConfusion h
          · rw [decode_value_short5 b _ c3 (by simp)] at h; exact Except.noConfusion h
          · rw [decode_value_short5 b _ c3 (by simp)] at h; exact Except.noConfusion h
          · rw [decode_value_form5 b b1 b2 b3 b4 r c3] at h
            injection h with h; injection h with hx ht
            exact Or.inr (Or.inr (Or.inr ⟨b, b1, b2, b3, b4, by rw [ht], c3, hx.symm⟩))
        · rcases t with _ | ⟨b1, _ | ⟨b2, _ | ⟨b3, r⟩⟩⟩
          · rw [decode_value_short4 b _ (by omega) c3 (by simp)] at h; exact Except.noConfusion h
          · rw [decode_value_short4 b _ (by omega) c3 (by simp)] at h; exact Except.noConfusion h
          · rw [decode_value_short4 b _ (by omega) c3 (by simp)] at h; exact Except.noConfusion h
          · rw [decode_value_form4 b b1 b2 b3 r (by omega) c3] at h
            injection h with h; injection h with hx ht
            exact Or.inr (Or.inr (Or.inl ⟨b, b1, b2, b3, by rw [ht], by omega, c3, hx.symm⟩))

theorem encode_value_length_cases (v : Int) :
    (0 ≤ v ∧ v ≤ 127 ∧ (encode_value v).length = 1) ∨
    (128 ≤ v ∧ v ≤ 16383 ∧ (encode_value v).length = 2) ∨
    (16384 ≤ v ∧ v ≤ 536870911 ∧ (encode_value v).length = 4) ∨
    ((v < 0 ∨ 536870911 < v) ∧ (encode_value v).length = 5) := by
  by_cases c1 : 0 ≤ v ∧ v ≤ 127
  · exact Or.inl ⟨c1.1, c1.2, by rw [encode_value_form1 v c1.1 c1.2]; rfl⟩
  · by_cases c2 : 0 ≤ v ∧ v ≤ 16383
    · exact Or.inr (Or.inl ⟨by omega, c2.2, by rw [encode_value_form2 v (by omega) c2.2]; rfl⟩)
    · by_cases c3 : 0 ≤ v ∧ v ≤ 536870911
      · exact Or.inr (Or.inr (Or.inl
          ⟨by omega, c3.2, by rw [encode_value_form4 v (by omega) c3.2]; rfl⟩))
      · exact Or.inr (Or.inr (Or.inr
          ⟨by omega, by rw [encode_value_form5 v (by omega)]; rfl⟩))

theorem encode_value_length_le (v : Int) : (encode_value v).length ≤ 5 := by
  rcases encode_value_length_cases v with h | h | h | h <;> omega

theorem encode_value_length_pos (v : Int) : 1 ≤ (encode_value v).length := by
  rcases encode_value_length_cases v with h | h | h | h <;> omega

/-! ## The variable-location codec -/

theorem to_guint32_to_gint32_nat (n : Nat) (h : is_guint32 n) :
    to_guint32 (to_gint32 (n : Int)) = n := by
  rw [to_guint32_to_gint32]
  exact to_guint32_of_nat n h

theorem serialize_variable_register (M : AddressModes) (var : MonoDebugVarInfo)
    (h : var.index &&& M.flags = M.register) :
    serialize_variable M var = .ok (encode_value (to_gint32 var.index)) := by
  unfold serialize_variable
  show (if var.index &&& M.flags = M.register then _ else _) = _
  rw [if_pos h]
  rfl

theorem serialize_variable_regoffset (M : AddressModes) (var : MonoDebugVarInfo)
    (h : var.index &&& M.flags ≠ M.register) (h2 : var.index &&& M.flags = M.regoffset) :
    serialize_variable M var
      = .ok (encode_value (to_gint32 var.index) ++ encode_value (to_gint32 var.offset)) := by
  unfold serialize_variable
  show (if var.index &&& M.flags = M.register then _ else _) = _
  rw [if_neg h, if_pos h2]
  rfl

theorem serialize_variable_invalid (M : AddressModes) (var : MonoDebugVarInfo)
    (h : ¬ valid_address_mode M var) :
    serialize_variable M var = .error .assertion_failed := by
  unfold valid_address_mode at h
  have h1 : ¬ (var.index &&& M.flags = M.register) := fun e => h (Or.inl e)
  have h2 : ¬ (var.index &&& M.flags = M.regoffset) := fun e => h (Or.inr e)
  unfold serialize_variable
  show (if var.index &&& M.flags = M.register then _ else _) = _
  rw [if_neg h1, if_neg h2]
  rfl

theorem serialize_variable_valid (M : AddressModes) (var : MonoDebugVarInfo)
    (h : valid_address_mode M var) :
    serialize_variable M var = .ok (variable_encoding M var) := by
  unfold variable_encoding
  by_cases c : var.index &&& M.flags = M.register
  · rw [if_pos c]; exact serialize_variable_register M var c
  · rw [if_neg c]
    exact serialize_variable_regoffset M var c (h.resolve_left c)

theorem variable_encoding_length (M : AddressModes) (var : MonoDebugVarInfo) :
    (variable_encoding M var).length ≤ 10 := by
  unfold variable_encoding
  have h1 := encode_value_length_le (to_gint32 var.index)
  have h2 := encode_value_length_le (to_gint32 var.offset)
  split
  · omega
  · rw [List.length_append]; omega

/-- What `deserialize_variable` does once the first VarInt has been decoded. -/
theorem deserialize_variable_step (M : AddressModes) (var : MonoDebugVarInfo)
    (p p1 : List guint8) (v : Int) (h : decode_value p = .ok (v, p1)) :
    deserialize_variable M var p =
      if to_guint32 v &&& M.flags = M.register then
        .ok ({ var with index := to_guint32 v }, p1)
      else if to_guint32 v &&& M.flags = M.regoffset then
        match decode_value p1 with
        | .ok (o, p2) => .ok ({ index := to_guint32 v, offset := to_guint32 o }, p2)
        | .error e => .error e
      else .error .assertion_failed := by
  unfold deserialize_variable
  simp only [h, bind, Except.bind]
  by_cases c : to_guint32 v &&& M.flags = M.register
  · simp only [c, if_true]; rfl
  · by_cases c2 : to_guint32 v &&& M.flags = M.regoffset
    · simp only [c, c2, if_true, if_false]
      cases decode_value p1 with
      | error e => rfl
      | ok x => rfl
    · simp only [c, c2, if_false]; rfl

theorem deserialize_variable_encoding (M : AddressModes) (var var0 : MonoDebugVarInfo)
    (hr : var_in_range var) (hv : valid_address_mode M var) (rest : List guint8) :
    deserialize_variable M var0 (variable_encoding M var ++ rest)
      = .ok (if var.index &&& M.flags = M.register then { var0 with index := var.index }
          else var, rest) := by
  have e1 : to_guint32 (to_gint32 (var.index : Int)) = var.index :=
    to_guint32_to_gint32_nat _ hr.1
  have e2 : to_guint32 (to_gint32 (var.offset : Int)) = var.offset :=
    to_guint32_to_gint32_nat _ hr.2
  unfold variable_encoding
  by_cases c : var.index &&& M.flags = M.register
  · rw [if_pos c, if_pos c]
    rw [deserialize_variable_step M var0 _ rest _
      (decode_encode_value _ (is_gint32_to_gint32 _) rest), e1, if_pos c]
  · rw [if_neg c, if_neg c, List.append_assoc]
    rw [deserialize_variable_step M var0 _ _ _
      (decode_encode_value _ (is_gint32_to_gint32 _) _), e1, if_neg c,
      if_pos (hv.resolve_left c), decode_encode_value _ (is_gint32_to_gint32 _) rest]
    simp only [e2]

theorem deserialize_variable_location (M : AddressModes) (var : MonoDebugVarInfo)
    (hr : var_in_range var) (hv : valid_address_mode M var) (rest : List guint8) :
    deserialize_variable M ⟨0, 0⟩ (variable_encoding M var ++ rest)
      = .ok (location M var, rest) := by
  rw [deserialize_variable_encoding M var ⟨0, 0⟩ hr hv rest]
  rfl

/-- The only fault of `decode_value` is a read outside the buffer. -/
theorem decode_value_total (ptr : List guint8) :
    (∃ x rest, decode_value ptr = .ok (x, rest)) ∨ decode_value ptr = .error .out_of_bounds := by
  rcases ptr with _ | ⟨b, t⟩
  · exact Or.inr decode_value_nil
  · by_cases c1 : b.val < 128
    · exact Or.inl ⟨_, _, decode_value_form1 b t c1⟩
    · by_cases c2 : b.val < 192
      · rcases t with _ | ⟨b1, r⟩
        · exact Or.inr (decode_value_short2 b (by omega) c2)
        · exact Or.inl ⟨_, _, decode_value_form2 b b1 r (by omega) c2⟩
      · by_cases c3 : b.val = 255
        · rcases t with _ | ⟨b1, _ | ⟨b2, _ | ⟨b3, _ | ⟨b4, r⟩⟩⟩⟩
          · exact Or.inr (decode_value_short5 b _ c3 (by simp))
          · exact Or.inr (decode_value_short5 b _ c3 (by simp))
          · exact Or.inr (decode_value_short5 b _ c3 (by simp))
          · exact Or.inr (decode_value_short5 b _ c3 (by simp))
          · exact Or.inl ⟨_, _, decode_value_form5 b b1 b2 b3 b4 r c3⟩
        · rcases t with _ | ⟨b1, _ | ⟨b2, _ | ⟨b3, r⟩⟩⟩
          · exact Or.inr (decode_value_short4 b _ (by omega) c3 (by simp))
          · exact Or.inr (decode_value_short4 b _ (by omega) c3 (by simp))
          · exact Or.inr (decode_value_short4 b _ (by omega) c3 (by simp))
          · exact Or.inl ⟨_, _, decode_value_form4 b b1 b2 b3 r (by omega) c3⟩

/-! ## The loops of the serializer and of the deserializer -/

theorem serialize_variables_valid (M : AddressModes) (vars : List MonoDebugVarInfo)
    (hv : ∀ var ∈ vars, valid_address_mode M var) (p : List guint8) :
    serialize_variables M vars p = .ok (p ++ (vars.map (variable_encoding M)).flatten) := by
  induction vars generalizing p with
  | nil => simp [serialize_variables, pure, Except.pure]
  | cons var vars ih =>
    have h1 := serialize_variable_valid M var (hv var (List.mem_cons_self _ _))
    have h2 := ih (fun x hx => hv x (List.mem_cons_of_mem _ hx)) (p ++ variable_encoding M var)
    simp only [serialize_variables, h1, bind, Except.bind, h2, List.map_cons, List.flatten_cons,
      List.append_assoc]

theorem variables_encoding_length (M : AddressModes) (vars : List MonoDebugVarInfo) :
    ((vars.map (variable_encoding M)).flatten).length ≤ vars.length * 10 := by
  induction vars with
  | nil => simp
  | cons var vars ih =>
    have := variable_encoding_length M var
    simp only [List.map_cons, List.flatten_cons, List.length_append, List.length_cons]
    omega

theorem deserialize_variables_encoding (M : AddressModes) (vars : List MonoDebugVarInfo)
    (hr : ∀ var ∈ vars, var_in_range var) (hv : ∀ var ∈ vars, valid_address_mode M var)
    (rest : List guint8) :
    deserialize_variables M vars.length ((vars.map (variable_encoding M)).flatten ++ rest)
      = .ok (vars.map (location M), rest) := by
  induction vars with
  | nil => simp [deserialize_variables, pure, Except.pure]
  | cons var vars ih =>
    have h1 := deserialize_variable_location M var (hr var (List.mem_cons_self _ _))
      (hv var (List.mem_cons_self _ _)) ((vars.map (variable_encoding M)).flatten ++ rest)
    have h2 := ih (fun x hx => hr x (List.mem_cons_of_mem _ hx))
      (fun x hx => hv x (List.mem_cons_of_mem _ hx))
    simp only [List.length_cons, deserialize_variables, List.map_cons, List.flatten_cons,
      List.append_assoc, h1, bind, Except.bind, h2, pure, Except.pure]

theorem serialize_line_numbers_cons (lne : MonoDebugLineNumberEntry)
    (lines : List MonoDebugLineNumberEntry) (po pn : Nat) (p : List guint8) :
    serialize_line_numbers (lne :: lines) po pn p
      = serialize_line_numbers lines lne.il_offset lne.native_offset
          (p ++ encode_value (to_gint32 (to_guint32 ((lne.il_offset : Int) - po)))
            ++ encode_value (to_gint32 (to_guint32 ((lne.native_offset : Int) - pn)))) := rfl

theorem acc_step (S : List guint8 → List guint8) (ih : ∀ p, S p = p ++ S [])
    (p e1 e2 : List guint8) : S (p ++ e1 ++ e2) = p ++ S ([] ++ e1 ++ e2) := by
  rw [ih (p ++ e1 ++ e2), ih ([] ++ e1 ++ e2)]
  simp only [List.append_assoc, List.nil_append]

theorem serialize_line_numbers_acc (lines : List MonoDebugLineNumberEntry)
    (po pn : Nat) (p : List guint8) :
    serialize_line_numbers lines po pn p = p ++ serialize_line_numbers lines po pn [] := by
  induction lines generalizing po pn p with
  | nil =>
    show p = p ++ []
    rw [List.append_nil]
  | cons lne lines ih =>
    exact (serialize_line_numbers_cons lne lines po pn p).trans
      ((acc_step (serialize_line_numbers lines lne.il_offset lne.native_offset)
        (ih lne.il_offset lne.native_offset) p _ _).trans
        (congrArg (fun z => p ++ z) (serialize_line_numbers_cons lne lines po pn []).symm))

theorem cons_nil_step (S : List guint8 → List guint8) (ih : ∀ p, S p = p ++ S [])
    (e1 e2 : List guint8) : S ([] ++ e1 ++ e2) = e1 ++ (e2 ++ S []) := by
  rw [ih ([] ++ e1 ++ e2)]
  simp only [List.append_assoc, List.nil_append]

/-- The bytes of a non-empty line table: the two VarInts of the first entry, then the
bytes of the remaining entries. -/
theorem serialize_line_numbers_cons_nil (lne : MonoDebugLineNumberEntry)
    (lines : List MonoDebugLineNumberEntry) (po pn : Nat) :
    serialize_line_numbers (lne :: lines) po pn []
      = encode_value (to_gint32 (to_guint32 ((lne.il_offset : Int) - po)))
        ++ (encode_value (to_gint32 (to_guint32 ((lne.native_offset : Int) - pn)))
        ++ serialize_line_numbers lines lne.il_offset lne.native_offset []) :=
  (serialize_line_numbers_cons lne lines po pn []).trans
    (cons_nil_step (serialize_line_numbers lines lne.il_offset lne.native_offset)
      (serialize_line_numbers_acc lines lne.il_offset lne.native_offset)
      (encode_value (to_gint32 (to_guint32 ((lne.il_offset : Int) - po))))
      (encode_value (to_gint32 (to_guint32 ((lne.native_offset : Int) - pn)))))

theorem length_step (e1 e2 s : List guint8) (n : Nat) (h1 : e1.length ≤ 5)
    (h2 : e2.length ≤ 5) (h3 : s.length ≤ n * 10) :
    (e1 ++ (e2 ++ s)).length ≤ (n + 1) * 10 := by
  simp only [List.length_append]
  omega

theorem serialize_line_numbers_length (lines : List MonoDebugLineNumberEntry) (po pn : Nat) :
    (serialize_line_numbers lines po pn []).length ≤ lines.length * 10 := by
  induction lines generalizing po pn with
  | nil => exact Nat.zero_le _
  | cons lne lines ih =>
    exact (congrArg List.length (serialize_line_numbers_cons_nil lne lines po pn)).le.trans
      (length_step _ _ _ _ (encode_value_length_le _) (encode_value_length_le _)
        (ih lne.il_offset lne.native_offset))

theorem line_delta_round_trip (x : Nat) (po : Nat) (so : Int) (hx : is_guint32 x)
    (hs : to_guint32 so = po) :
    to_guint32 (to_gint32 (so + to_gint32 (to_guint32 ((x : Int) - po)))) = x := by
  unfold is_guint32 at hx
  have h1 := to_guint32_cast so
  rw [hs] at h1
  have h2 := to_guint32_cast ((x : Int) - po)
  have h3 := to_guint32_cast
    (to_gint32 (so + to_gint32 ((to_guint32 ((x : Int) - po) : Nat) : Int)))
  unfold to_gint32 at h3 ⊢
  omega

theorem deserialize_line_numbers_step (n : Nat) (so sn : Int) (q q1 q2 r : List guint8)
    (d dn : Int) (ls : List MonoDebugLineNumberEntry)
    (h1 : decode_value q = .ok (d, q1)) (h2 : decode_value q1 = .ok (dn, q2))
    (h3 : deserialize_line_numbers n (to_gint32 (so + d)) (to_gint32 (sn + dn)) q2
      = .ok (ls, r)) :
    deserialize_line_numbers (n + 1) so sn q
      = .ok (⟨to_guint32 (to_gint32 (so + d)), to_guint32 (to_gint32 (sn + dn))⟩ :: ls, r) := by
  simp only [deserialize_line_numbers, h1, h2, h3, bind, Except.bind, pure, Except.pure]

theorem deserialize_line_numbers_encoding (lines : List MonoDebugLineNumberEntry)
    (hr : ∀ lne ∈ lines, is_guint32 lne.il_offset ∧ is_guint32 lne.native_offset)
    (po pn : Nat) (so sn : Int) (hso : to_guint32 so = po) (hsn : to_guint32 sn = pn)
    (rest : List guint8) :
    deserialize_line_numbers lines.length so sn (serialize_line_numbers lines po pn [] ++ rest)
      = .ok (lines, rest) := by
  induction lines generalizing po pn so sn with
  | nil => rfl
  | cons lne lines ih =>
    have hl := hr lne (List.mem_cons_self _ _)
    have e1 := line_delta_round_trip lne.il_offset po so hl.1 hso
    have e2 := line_delta_round_trip lne.native_offset pn sn hl.2 hsn
    have h3 := ih (fun x hx => hr x (List.mem_cons_of_mem _ hx))
      lne.il_offset lne.native_offset _ _ e1 e2
    have key := deserialize_line_numbers_step lines.length so sn _ _ _ rest _ _ lines
      (decode_encode_value (to_gint32 (to_guint32 ((lne.il_offset : Int) - po)))
        (is_gint32_to_gint32 _)
        (encode_value (to_gint32 (to_guint32 ((lne.native_offset : Int) - pn)))
          ++ (serialize_line_numbers lines lne.il_offset lne.native_offset [] ++ rest)))
      (decode_encode_value (to_gint32 (to_guint32 ((lne.native_offset : Int) - pn)))
        (is_gint32_to_gint32 _)
        (serialize_line_numbers lines lne.il_offset lne.native_offset [] ++ rest))
      h3
    rw [e1, e2] at key
    rw [serialize_line_numbers_cons_nil, List.append_assoc, List.append_assoc]
    exact key

theorem to_gint32_to_guint32 (x : Int) : to_gint32 ((to_guint32 x : Nat) : Int) = to_gint32 x := by
  have h := to_guint32_cast x
  unfold to_gint32
  omega

theorem previous_entry_succ (start l : MonoDebugLineNumberEntry)
    (ls : List MonoDebugLineNumberEntry) (i : Nat) :
    previous_entry start (l :: ls) (i + 1) = previous_entry l ls i := by
  unfold previous_entry
  cases i with
  | zero => rfl
  | succ j => rfl

theorem line_entry_encoding_succ (start l : MonoDebugLineNumberEntry)
    (ls : List MonoDebugLineNumberEntry) (i : Nat) :
    line_entry_encoding start (l :: ls) (i + 1) = line_entry_encoding l ls i := by
  unfold line_entry_encoding
  rw [previous_entry_succ]
  rfl

theorem line_entry_encoding_zero (start l : MonoDebugLineNumberEntry)
    (ls : List MonoDebugLineNumberEntry) :
    line_entry_encoding start (l :: ls) 0
      = encode_value (to_gint32 (to_guint32 ((l.il_offset : Int) - start.il_offset)))
        ++ encode_value (to_gint32 (to_guint32 ((l.native_offset : Int) - start.native_offset)))
      := by
  rw [to_gint32_to_guint32, to_gint32_to_guint32]
  rfl

theorem flatten_range_step (f g : Nat → List guint8) (n : Nat) (a b s : List guint8)
    (h0 : f 0 = a ++ b) (hs : ∀ i, f (i + 1) = g i)
    (ih : s = ((List.range n).map g).flatten) :
    a ++ (b ++ s) = ((List.range (n + 1)).map f).flatten := by
  rw [List.range_succ_eq_map, List.map_cons, List.flatten_cons, h0, List.map_map, ih]
  have e : (f ∘ Nat.succ) = g := funext hs
  rw [e, List.append_assoc]

/-- The line-number loop writes, entry by entry, the two differences to the entry
before. -/
theorem serialize_line_numbers_layout (lines : List MonoDebugLineNumberEntry)
    (start : MonoDebugLineNumberEntry) :
    serialize_line_numbers lines start.il_offset start.native_offset []
      = ((List.range lines.length).map (line_entry_encoding start lines)).flatten := by
  induction lines generalizing start with
  | nil => rfl
  | cons l ls ih =>
    exact (serialize_line_numbers_cons_nil l ls start.il_offset start.native_offset).trans
      (flatten_range_step (line_entry_encoding start (l :: ls)) (line_entry_encoding l ls)
        ls.length _ _ _ (line_entry_encoding_zero start l ls)
        (line_entry_encoding_succ start l ls) (ih l))

/-! ## The serializer as a whole -/

theorem this_encoding_length (M : AddressModes) (hasthis : Bool)
    (this_var : Option MonoDebugVarInfo) :
    (if hasthis then (this_var.toList.map (variable_encoding M)).flatten else []).length
      ≤ 10 := by
  cases hasthis with
  | false => simp
  | true =>
    cases this_var with
    | none => simp
    | some var =>
      have := variable_encoding_length M var
      simpa using this

theorem wire_layout_length (M : AddressModes) (hasthis : Bool) (jit : MonoDebugMethodJitInfo) :
    (wire_layout M hasthis jit).length + 44 ≤ allocated_size jit := by
  unfold wire_layout allocated_size
  have h1 := encode_value_length_le (to_gint32 jit.epilogue_begin)
  have h2 := encode_value_length_le (to_gint32 jit.prologue_end)
  have h3 := encode_value_length_le (to_gint32 jit.code_size)
  have h4 := variables_encoding_length M jit.params
  have h5 := this_encoding_length M hasthis jit.this_var
  have h6 := variables_encoding_length M jit.locals
  have h7 := encode_value_length_le (to_gint32 jit.line_numbers.length)
  have h8 := serialize_line_numbers_length jit.line_numbers 0 0
  rw [serialize_line_numbers_layout jit.line_numbers ⟨0, 0⟩] at h8
  simp only [List.length_append]
  omega

theorem serialize_size_eq (jit : MonoDebugMethodJitInfo) (h : allocated_size jit < 4294967296) :
    serialize_size jit = allocated_size jit :=
  to_guint32_of_nat _ h

/-- The control flow of the serializer past its null checks, over arbitrary written
bytes: `e1`, `e2`, `e3` and `en` stand for the four VarInts and `SL` for the
line-number loop. -/
theorem serialize_flow (M : AddressModes) (hasthis : Bool)
    (params locals : List MonoDebugVarInfo) (this_var : Option MonoDebugVarInfo)
    (e1 e2 e3 en W : List guint8) (SL : List guint8 → List guint8) (size : Nat)
    (hSL : ∀ p, SL p = p ++ W)
    (vp : ∀ var ∈ params, valid_address_mode M var)
    (vt : ∀ var ∈ this_var.toList, hasthis = true → valid_address_mode M var)
    (vl : ∀ var ∈ locals, valid_address_mode M var)
    (hthis : hasthis = true → this_var.isSome = true) :
    (do
      let p : List guint8 := []
      let p := p ++ e1
      let p := p ++ e2
      let p := p ++ e3
      let p ← serialize_variables M params p
      let p ←
        if hasthis then
          match this_var with
          | none => throw Fault.null_pointer
          | some var => do
            let w ← serialize_variable M var
            pure (p ++ w)
        else pure p
      let p ← serialize_variables M locals p
      let p := p ++ en
      let p := SL p
      if p.length < size then pure (some p, p.length)
      else (throw Fault.assertion_failed : Except Fault (Option (List guint8) × Nat)))
      = if (e1 ++ e2 ++ e3 ++ (params.map (variable_encoding M)).flatten
          ++ (if hasthis then (this_var.toList.map (variable_encoding M)).flatten else [])
          ++ (locals.map (variable_encoding M)).flatten ++ en ++ W).length < size
        then .ok (some (e1 ++ e2 ++ e3 ++ (params.map (variable_encoding M)).flatten
          ++ (if hasthis then (this_var.toList.map (variable_encoding M)).flatten else [])
          ++ (locals.map (variable_encoding M)).flatten ++ en ++ W),
        (e1 ++ e2 ++ e3 ++ (params.map (variable_encoding M)).flatten
          ++ (if hasthis then (this_var.toList.map (variable_encoding M)).flatten else [])
          ++ (locals.map (variable_encoding M)).flatten ++ en ++ W).length)
        else .error .assertion_failed := by
  simp only [serialize_variables_valid M params vp, bind, Except.bind, List.nil_append]
  cases hasthis with
  | false =>
    simp only [Bool.false_eq_true, if_false, pure, Except.pure,
      serialize_variables_valid M locals vl, hSL, List.append_nil]
    rfl
  | true =>
    cases this_var with
    | none => exact absurd (hthis rfl) (by simp)
    | some var =>
      have vv : valid_address_mode M var := vt var (by simp) rfl
      simp only [if_true, serialize_variable_valid M var vv, pure, Except.pure,
        serialize_variables_valid M locals vl, hSL, Option.toList, List.map_cons,
        List.map_nil, List.flatten_cons, List.flatten_nil, List.append_nil]
      rfl

theorem serialize_line_numbers_eq (lines : List MonoDebugLineNumberEntry) (p : List guint8) :
    serialize_line_numbers lines 0 0 p
      = p ++ ((List.range lines.length).map (line_entry_encoding ⟨0, 0⟩ lines)).flatten :=
  (serialize_line_numbers_acc lines 0 0 p).trans
    (congrArg (fun z => p ++ z) (serialize_line_numbers_layout lines ⟨0, 0⟩))

/-- The serializer on an opened record with valid tags and a receiver variable when
the signature has one: the wire layout if it is shorter than the size expression,
the failed assertion otherwise. -/
theorem serialize_opened (M : AddressModes) (cfg : MonoCompile)
    (info : MiniDebugMethodInfo) (jit : MonoDebugMethodJitInfo)
    (hinfo : cfg.debug_info = some info) (hjit : info.jit = some jit)
    (vp : ∀ var ∈ jit.params, valid_address_mode M var)
    (vt : ∀ var ∈ jit.this_var.toList, cfg.method.signature.hasthis = true →
      valid_address_mode M var)
    (vl : ∀ var ∈ jit.locals, valid_address_mode M var)
    (hthis : cfg.method.signature.hasthis = true → jit.this_var.isSome = true) :
    mono_debug_serialize_debug_info M cfg
      = if (wire_layout M cfg.method.signature.hasthis jit).length < serialize_size jit
        then .ok (some (wire_layout M cfg.method.signature.hasthis jit),
          (wire_layout M cfg.method.signature.hasthis jit).length)
        else .error .assertion_failed := by
  have flow := serialize_flow M cfg.method.signature.hasthis jit.params jit.locals jit.this_var
    (encode_value (to_gint32 jit.epilogue_begin)) (encode_value (to_gint32 jit.prologue_end))
    (encode_value (to_gint32 jit.code_size)) (encode_value (to_gint32 jit.line_numbers.length))
    _ (serialize_line_numbers jit.line_numbers 0 0) (serialize_size jit)
    (serialize_line_numbers_eq jit.line_numbers) vp vt vl hthis
  unfold mono_debug_serialize_debug_info
  simp only [hinfo, hjit]
  exact flow

/-- On an opened record with valid tags, a receiver variable when the signature has
one, and a size expression that does not wrap, the serializer succeeds and what it
writes is the wire layout. -/
theorem serialize_eq_wire_layout (M : AddressModes) (cfg : MonoCompile)
    (info : MiniDebugMethodInfo) (jit : MonoDebugMethodJitInfo)
    (hinfo : cfg.debug_info = some info) (hjit : info.jit = some jit)
    (hv : jit_valid_tags M jit)
    (hthis : cfg.method.signature.hasthis = true → jit.this_var.isSome = true)
    (hsize : allocated_size jit < 4294967296) :
    mono_debug_serialize_debug_info M cfg
      = .ok (some (wire_layout M cfg.method.signature.hasthis jit),
          (wire_layout M cfg.method.signature.hasthis jit).length) := by
  have hlen := wire_layout_length M cfg.method.signature.hasthis jit
  rw [← serialize_size_eq jit hsize] at hlen
  have hlen2 : (wire_layout M cfg.method.signature.hasthis jit).length < serialize_size jit := by
    omega
  rw [serialize_opened M cfg info jit hinfo hjit hv.1 (fun v hm _ => hv.2.1 v hm) hv.2.2 hthis,
    if_pos hlen2]

theorem serialize_variables_ok (M : AddressModes) (vars : List MonoDebugVarInfo)
    (p q : List guint8) (h : serialize_variables M vars p = .ok q) :
    ∀ var ∈ vars, valid_address_mode M var := by
  induction vars generalizing p with
  | nil => intro var hvar; cases hvar
  | cons v vs ih =>
    by_cases c : valid_address_mode M v
    · rw [serialize_variables, serialize_variable_valid M v c] at h
      have hvs := ih _ h
      intro var hvar
      rcases List.mem_cons.1 hvar with e | e
      · rw [e]; exact c
      · exact hvs var e
    · rw [serialize_variables, serialize_variable_invalid M v c] at h
      exact Except.noConfusion h

/-- Inversion of the control flow of the serializer: it produces a buffer only for
valid tags, a present receiver variable when one is expected, and a written length
below `size`. -/
theorem serialize_flow_ok (M : AddressModes) (hasthis : Bool)
    (params locals : List MonoDebugVarInfo) (this_var : Option MonoDebugVarInfo)
    (e1 e2 e3 en : List guint8) (SL : List guint8 → List guint8) (size : Nat)
    (res : Option (List guint8) × Nat)
    (h : (do
      let p : List guint8 := []
      let p := p ++ e1
      let p := p ++ e2
      let p := p ++ e3
      let p ← serialize_variables M params p
      let p ←
        if hasthis then
          match this_var with
          | none => throw Fault.null_pointer
          | some var => do
            let w ← serialize_variable M var
            pure (p ++ w)
        else pure p
      let p ← serialize_variables M locals p
      let p := p ++ en
      let p := SL p
      if p.length < size then pure (some p, p.length)
      else (throw Fault.assertion_failed : Except Fault (Option (List guint8) × Nat)))
      = .ok res) :
    (∀ var ∈ params, valid_address_mode M var) ∧
    (∀ var ∈ this_var.toList, hasthis = true → valid_address_mode M var) ∧
    (∀ var ∈ locals, valid_address_mode M var) ∧
    (hasthis = true → this_var.isSome = true) := by
  simp only [bind, Except.bind, List.nil_append] at h
  cases h1 : serialize_variables M params (e1 ++ e2 ++ e3) with
  | error e => rw [h1] at h; exact Except.noConfusion h
  | ok p1 =>
    rw [h1] at h
    simp only at h
    have vp := serialize_variables_ok M params _ _ h1
    cases hasthis with
    | false =>
      simp only [Bool.false_eq_true, if_false, pure, Except.pure] at h
      cases h2 : serialize_variables M locals p1 with
      | error e => rw [h2] at h; exact Except.noConfusion h
      | ok p2 =>
        have vl := serialize_variables_ok M locals _ _ h2
        exact ⟨vp, fun _ _ hc => Bool.noConfusion hc, vl, fun hc => Bool.noConfusion hc⟩
    | true =>
      cases this_var with
      | none =>
        simp only [if_true, throw, throwThe, MonadExceptOf.throw, Except.bind] at h
        exact Except.noConfusion h
      | some var =>
        simp only [if_true] at h
        by_cases c : valid_address_mode M var
        · rw [serialize_variable_valid M var c] at h
          simp only [pure, Except.pure] at h
          cases h2 : serialize_variables M locals (p1 ++ variable_encoding M var) with
          | error e => rw [h2] at h; exact Except.noConfusion h
          | ok p2 =>
            have vl := serialize_variables_ok M locals _ _ h2
            refine ⟨vp, ?_, vl, fun _ => rfl⟩
            intro v hv _
            simp only [Option.toList, List.mem_singleton] at hv
            rw [hv]; exact c
        · rw [serialize_variable_invalid M var c] at h
          exact Except.noConfusion h

/-- The serializer produces a buffer for an opened record only if the tags are valid
and the receiver variable is present when the signature has one. -/
theorem serialize_ok_valid (M : AddressModes) (cfg : MonoCompile)
    (info : MiniDebugMethodInfo) (jit : MonoDebugMethodJitInfo)
    (hinfo : cfg.debug_info = some info) (hjit : info.jit = some jit)
    (res : Option (List guint8) × Nat)
    (h : mono_debug_serialize_debug_info M cfg = .ok res) :
    (∀ var ∈ jit.params, valid_address_mode M var) ∧
    (∀ var ∈ jit.this_var.toList, cfg.method.signature.hasthis = true →
      valid_address_mode M var) ∧
    (∀ var ∈ jit.locals, valid_address_mode M var) ∧
    (cfg.method.signature.hasthis = true → jit.this_var.isSome = true) := by
  unfold mono_debug_serialize_debug_info at h
  simp only [hinfo, hjit] at h
  exact serialize_flow_ok M cfg.method.signature.hasthis jit.params jit.locals jit.this_var
    (encode_value (to_gint32 jit.epilogue_begin)) (encode_value (to_gint32 jit.prologue_end))
    (encode_value (to_gint32 jit.code_size)) (encode_value (to_gint32 jit.line_numbers.length))
    (serialize_line_numbers jit.line_numbers 0 0) (serialize_size jit) res h

/-! ## The deserializer as a whole -/

/-- The control flow of the deserializer past its header assertion, over arbitrary
intermediate pointers. -/
theorem deserialize_flow (M : AddressModes) (method : MonoMethod) (header : MonoMethodHeader)
    (code_start len : Nat) (buf q1 q2 q3 q4 q5 q6 q7 q8 : List guint8) (v1 v2 v3 n : Int)
    (ps ls : List MonoDebugVarInfo) (tv : Option MonoDebugVarInfo)
    (lines : List MonoDebugLineNumberEntry)
    (hh : method.header = some header)
    (h1 : decode_value buf = .ok (v1, q1)) (h2 : decode_value q1 = .ok (v2, q2))
    (h3 : decode_value q2 = .ok (v3, q3))
    (h4 : deserialize_variables M method.signature.param_count q3 = .ok (ps, q4))
    (h5 : (if method.signature.hasthis then
        (deserialize_variable M ⟨0, 0⟩ q4).map (fun r => (some r.1, r.2))
      else .ok (none, q4)) = .ok (tv, q5))
    (h6 : deserialize_variables M header.num_locals q5 = .ok (ls, q6))
    (h7 : decode_value q6 = .ok (n, q7))
    (h8 : deserialize_line_numbers (to_guint32 n) 0 0 q7 = .ok (lines, q8)) :
    deserialize_debug_info M method code_start buf len
      = .ok { code_start := code_start
              code_size := to_guint32 v3
              prologue_end := to_guint32 v2
              epilogue_begin := to_guint32 v1
              line_numbers := lines
              this_var := tv
              params := ps
              locals := ls } := by
  unfold deserialize_debug_info
  simp only [hh, h1, h2, h3, h4, bind, Except.bind]
  cases c : method.signature.hasthis with
  | false =>
    rw [c] at h5
    simp only [Bool.false_eq_true, if_false, Except.ok.injEq, Prod.mk.injEq] at h5
    obtain ⟨rfl, rfl⟩ := h5
    simp only [Bool.false_eq_true, if_false, pure, Except.pure, h6, h7, h8]
  | true =>
    rw [c] at h5
    simp only [if_true] at h5
    cases hd : deserialize_variable M ⟨0, 0⟩ q4 with
    | error e => rw [hd] at h5; exact Except.noConfusion h5
    | ok r =>
      rw [hd] at h5
      simp only [Except.map, Except.ok.injEq, Prod.mk.injEq] at h5
      obtain ⟨rfl, rfl⟩ := h5
      simp only [if_true, pure, Except.pure, h6, h7, h8]

theorem this_bytes {α β : Type} (f : α → List β) (hasthis : Bool) (this_var : Option α)
    (h : this_var.isSome = hasthis) :
    (if hasthis then (this_var.toList.map f).flatten else [])
      = (this_var.toList.map f).flatten := by
  cases hasthis with
  | true => rfl
  | false =>
    cases this_var with
    | none => rfl
    | some x => exact absurd h (by simp)

theorem deserialize_this (M : AddressModes) (hasthis : Bool)
    (this_var : Option MonoDebugVarInfo) (h : this_var.isSome = hasthis)
    (hr : ∀ var ∈ this_var.toList, var_in_range var)
    (hv : ∀ var ∈ this_var.toList, valid_address_mode M var) (rest : List guint8) :
    (if hasthis then
        (deserialize_variable M ⟨0, 0⟩
          ((this_var.toList.map (variable_encoding M)).flatten ++ rest)).map
            (fun r => (some r.1, r.2))
      else .ok (none, (this_var.toList.map (variable_encoding M)).flatten ++ rest))
      = .ok (this_var.map (location M), rest) := by
  cases this_var with
  | none =>
    have e : hasthis = false := by rw [← h]; rfl
    subst e
    rfl
  | some var =>
    have e : hasthis = true := by rw [← h]; rfl
    subst e
    have k := deserialize_variable_location M var (hr var (by simp)) (hv var (by simp)) rest
    simp only [Option.toList, List.map_cons, List.map_nil, List.flatten_cons, List.flatten_nil,
      List.append_nil, if_true]
    rw [k]
    rfl

theorem wire_layout_append (M : AddressModes) (hasthis : Bool) (jit : MonoDebugMethodJitInfo)
    (h : jit.this_var.isSome = hasthis) (rest : List guint8) :
    wire_layout M hasthis jit ++ rest
      = encode_value (to_gint32 jit.epilogue_begin)
        ++ (encode_value (to_gint32 jit.prologue_end)
        ++ (encode_value (to_gint32 jit.code_size)
        ++ ((jit.params.map (variable_encoding M)).flatten
        ++ ((jit.this_var.toList.map (variable_encoding M)).flatten
        ++ ((jit.locals.map (variable_encoding M)).flatten
        ++ (encode_value (to_gint32 jit.line_numbers.length)
        ++ (serialize_line_numbers jit.line_numbers 0 0 [] ++ rest))))))) := by
  unfold wire_layout
  rw [this_bytes (variable_encoding M) hasthis jit.this_var h,
    serialize_line_numbers_layout jit.line_numbers ⟨0, 0⟩]
  simp only [List.append_assoc]

/-- Deserializing the wire layout of a record, for the shape the record was written
for, gives the record back, with the locations of its variables and the injected
`code_start`. -/
theorem deserialize_wire_layout (M : AddressModes) (method : MonoMethod)
    (header : MonoMethodHeader) (code_start len : Nat) (jit : MonoDebugMethodJitInfo)
    (rest : List guint8)
    (hh : method.header = some header)
    (hr : jit_in_range jit) (hv : jit_valid_tags M jit)
    (hthis : jit.this_var.isSome = method.signature.hasthis)
    (hp : jit.params.length = method.signature.param_count)
    (hl : jit.locals.length = header.num_locals) :
    deserialize_debug_info M method code_start
        (wire_layout M method.signature.hasthis jit ++ rest) len
      = .ok { code_start := code_start
              code_size := jit.code_size
              prologue_end := jit.prologue_end
              epilogue_begin := jit.epilogue_begin
              line_numbers := jit.line_numbers
              this_var := jit.this_var.map (location M)
              params := jit.params.map (location M)
              locals := jit.locals.map (location M) } := by
  obtain ⟨r1, r2, r3, rp, rt, rl, rn, hn⟩ := hr
  obtain ⟨vp, vt, vl⟩ := hv
  have h4 := deserialize_variables_encoding M jit.params rp vp
    ((jit.this_var.toList.map (variable_encoding M)).flatten
      ++ ((jit.locals.map (variable_encoding M)).flatten
      ++ (encode_value (to_gint32 jit.line_numbers.length)
      ++ (serialize_line_numbers jit.line_numbers 0 0 [] ++ rest))))
  rw [hp] at h4
  have h5 := deserialize_this M method.signature.hasthis jit.this_var hthis rt vt
    ((jit.locals.map (variable_encoding M)).flatten
      ++ (encode_value (to_gint32 jit.line_numbers.length)
      ++ (serialize_line_numbers jit.line_numbers 0 0 [] ++ rest)))
  have h6 := deserialize_variables_encoding M jit.locals rl vl
    (encode_value (to_gint32 jit.line_numbers.length)
      ++ (serialize_line_numbers jit.line_numbers 0 0 [] ++ rest))
  rw [hl] at h6
  have h8 := deserialize_line_numbers_encoding jit.line_numbers rn 0 0 0 0 rfl rfl rest
  rw [← to_guint32_to_gint32_nat jit.line_numbers.length hn] at h8
  have flow := deserialize_flow M method header code_start len _ _ _ _ _ _ _ _ _ _ _ _ _ _ _ _ _
    hh
    (decode_encode_value (to_gint32 jit.epilogue_begin) (is_gint32_to_gint32 _) _)
    (decode_encode_value (to_gint32 jit.prologue_end) (is_gint32_to_gint32 _) _)
    (decode_encode_value (to_gint32 jit.code_size) (is_gint32_to_gint32 _) _)
    h4 h5 h6
    (decode_encode_value (to_gint32 jit.line_numbers.length) (is_gint32_to_gint32 _) _)
    h8
  rw [to_guint32_to_gint32_nat _ r1, to_guint32_to_gint32_nat _ r2,
    to_guint32_to_gint32_nat _ r3] at flow
  rw [wire_layout_append M method.signature.hasthis jit hthis rest]
  exact flow

theorem location_index (M : AddressModes) (var : MonoDebugVarInfo) :
    (location M var).index = var.index ∧
      (var.index &&& M.flags ≠ M.register → (location M var).offset = var.offset) := by
  unfold location
  by_cases c : var.index &&& M.flags = M.register
  · rw [if_pos c]; exact ⟨rfl, fun h => absurd c h⟩
  · rw [if_neg c]; exact ⟨rfl, fun _ => rfl⟩

/-! ## The recording session -/

theorem to_guint32_le (x : Int) (h : 0 ≤ x) : ((to_guint32 x : Nat) : Int) ≤ x := by
  rw [to_guint32_cast]
  omega

theorem to_guint32_sub (c code : Nat) (h : code ≤ c) (hlt : c - code < 4294967296) :
    to_guint32 ((c : Int) - code) = c - code := by
  have e : ((c : Int) - code) = ((c - code : Nat) : Int) := by omega
  rw [e]
  exact to_guint32_of_nat _ hlt

/-- A call that is not dropped: the latch, then the append. -/
theorem record_accepted (cfg : MonoCompile) (info : MiniDebugMethodInfo)
    (jit : MonoDebugMethodJitInfo) (header : MonoMethodHeader) (ins : MonoInst)
    (address c : Nat)
    (hinfo : cfg.debug_info = some info) (hjit : info.jit = some jit)
    (hh : cfg.method.header = some header) (hc : ins.cil_code = some c)
    (h1 : header.code ≤ c) (h2 : c ≤ header.code + header.code_size) :
    mono_debug_record_line_number cfg ins address
      = .ok { cfg with debug_info := some (record_line_number
          (if info.has_line_numbers = 0 then
            { info with jit := some { jit with prologue_end := address },
                        has_line_numbers := 1 }
          else info) address (to_guint32 ((c : Int) - header.code))) } := by
  have hn : ¬ (c < header.code ∨ c > header.code + header.code_size) := by omega
  unfold mono_debug_record_line_number
  simp only [hinfo, hjit, hh, hc]
  rw [if_neg hn]
  rfl

/-- A call without IL position, or with one outside the body, changes nothing. -/
theorem record_dropped (cfg : MonoCompile) (header : MonoMethodHeader) (ins : MonoInst)
    (address : Nat) (hh : cfg.method.header = some header) (hn : ¬ accepted header ins) :
    mono_debug_record_line_number cfg ins address = .ok cfg := by
  unfold mono_debug_record_line_number
  cases hinfo : cfg.debug_info with
  | none => rfl
  | some info =>
    cases hjit : info.jit with
    | none => simp only [hjit]; rfl
    | some jit =>
      cases hc : ins.cil_code with
      | none => simp only [hjit, hc]; rfl
      | some c =>
        unfold accepted at hn
        rw [hc] at hn
        have hd : c < header.code ∨ c > header.code + header.code_size := by
          simp only at hn; omega
        simp only [hjit, hc, hh]
        rw [if_pos hd]
        rfl

theorem record_no_cil_code (cfg : MonoCompile) (ins : MonoInst) (address : Nat)
    (hc : ins.cil_code = none) :
    mono_debug_record_line_number cfg ins address = .ok cfg := by
  unfold mono_debug_record_line_number
  cases hinfo : cfg.debug_info with
  | none => rfl
  | some info =>
    cases hjit : info.jit with
    | none => simp only [hjit]; rfl
    | some jit => simp only [hjit, hc]; rfl

theorem line_entry_of_accepted (header : MonoMethodHeader) (ins : MonoInst) (address c : Nat)
    (hs : is_guint32 header.code_size) (hc : ins.cil_code = some c)
    (h1 : header.code ≤ c) (h2 : c ≤ header.code + header.code_size) :
    ({ native_offset := address, il_offset := to_guint32 ((c : Int) - header.code) }
      : MonoDebugLineNumberEntry) = line_entry_of header (ins, address) := by
  unfold is_guint32 at hs
  unfold line_entry_of il_offset_of
  rw [hc, to_guint32_sub c header.code h1 (by omega)]

theorem accepted_iff (header : MonoMethodHeader) (ins : MonoInst) :
    accepted header ins ↔
      ∃ c, ins.cil_code = some c ∧ header.code ≤ c ∧ c ≤ header.code + header.code_size := by
  unfold accepted
  cases ins.cil_code with
  | none => simp
  | some c => simp

/-- A run of accepted calls on a session that has latched: only appends. -/
theorem record_line_numbers_latched (header : MonoMethodHeader)
    (hs : is_guint32 header.code_size) (calls : List (MonoInst × Nat))
    (hacc : ∀ call ∈ calls, accepted header call.1)
    (cfg : MonoCompile) (info : MiniDebugMethodInfo) (jit : MonoDebugMethodJitInfo)
    (hinfo : cfg.debug_info = some info) (hjit : info.jit = some jit)
    (hh : cfg.method.header = some header) (hl : info.has_line_numbers ≠ 0) :
    record_line_numbers cfg calls
      = .ok { cfg with debug_info := some { info with
          line_numbers := info.line_numbers ++ calls.map (line_entry_of header) } } := by
  induction calls generalizing cfg info with
  | nil =>
    simp only [record_line_numbers, List.map_nil, List.append_nil, pure, Except.pure]
    rw [← hinfo]
  | cons call calls ih =>
    obtain ⟨ins, address⟩ := call
    obtain ⟨c, hc, h1, h2⟩ := (accepted_iff header ins).1 (hacc _ (List.mem_cons_self _ _))
    have step := record_accepted cfg info jit header ins address c hinfo hjit hh hc h1 h2
    rw [if_neg hl] at step
    have e := line_entry_of_accepted header ins address c hs hc h1 h2
    unfold record_line_number at step
    simp only [e] at step
    have next := ih (fun x hx => hacc x (List.mem_cons_of_mem _ hx))
      { cfg with debug_info := some ({ info with
          line_numbers := info.line_numbers ++ [line_entry_of header (ins, address)] }) }
      ({ info with line_numbers := info.line_numbers ++ [line_entry_of header (ins, address)] })
      rfl hjit hh hl
    simp only [record_line_numbers, step, bind, Except.bind, next, List.map_cons,
      List.append_assoc, List.singleton_append]

theorem open_after_init (K : Constants) (mono_debug_format : Nat) (cfg : MonoCompile)
    (start_block breakpoint_id : Nat) (header : MonoMethodHeader)
    (hf : mono_debug_format ≠ K.MONO_DEBUG_FORMAT_NONE)
    (hh : cfg.method.header = some header) :
    mono_debug_open_method
        (mono_debug_init_method K mono_debug_format cfg start_block breakpoint_id)
      = .ok { cfg with debug_info := some ({
          jit := some (opened_jit header), line_numbers := [], has_line_numbers := 0,
          breakpoint_id := breakpoint_id }) } := by
  unfold mono_debug_init_method
  rw [if_neg hf]
  unfold mono_debug_open_method
  simp only [hh]
  rfl

/-- A run of accepted calls on a session that has not latched: the first call
latches its address, every call appends its entry. -/
theorem record_line_numbers_fresh (header : MonoMethodHeader)
    (hs : is_guint32 header.code_size) (calls : List (MonoInst × Nat))
    (hacc : ∀ call ∈ calls, accepted header call.1)
    (cfg : MonoCompile) (info : MiniDebugMethodInfo) (jit : MonoDebugMethodJitInfo)
    (hinfo : cfg.debug_info = some info) (hjit : info.jit = some jit)
    (hh : cfg.method.header = some header) (hl : info.has_line_numbers = 0) :
    record_line_numbers cfg calls
      = .ok { cfg with debug_info := some ({
          jit := some { jit with
            prologue_end := (calls.head?.map Prod.snd).getD jit.prologue_end },
          line_numbers := info.line_numbers ++ calls.map (line_entry_of header),
          has_line_numbers := if calls = [] then 0 else 1,
          breakpoint_id := info.breakpoint_id }) } := by
  cases calls with
  | nil =>
    cases cfg
    cases info
    cases jit
    simp_all [record_line_numbers, pure, Except.pure]
  | cons call calls =>
    obtain ⟨ins, address⟩ := call
    obtain ⟨c, hc, h1, h2⟩ := (accepted_iff header ins).1 (hacc _ (List.mem_cons_self _ _))
    have step := record_accepted cfg info jit header ins address c hinfo hjit hh hc h1 h2
    rw [if_pos hl] at step
    have e := line_entry_of_accepted header ins address c hs hc h1 h2
    unfold record_line_number at step
    simp only [e] at step
    have next := record_line_numbers_latched header hs calls
      (fun x hx => hacc x (List.mem_cons_of_mem _ hx))
      { cfg with debug_info := some ({
             jit := some { jit with prologue_end := address },
             line_numbers := info.line_numbers ++ [line_entry_of header (ins, address)],
             has_line_numbers := 1, breakpoint_id := info.breakpoint_id }) }
      ({ jit := some { jit with prologue_end := address },
         line_numbers := info.line_numbers ++ [line_entry_of header (ins, address)],
         has_line_numbers := 1, breakpoint_id := info.breakpoint_id })
      { jit with prologue_end := address } rfl rfl hh (fun h => Nat.noConfusion h)
    simp only [record_line_numbers, step, bind, Except.bind, next, List.map_cons,
      List.append_assoc, List.singleton_append, List.head?_cons, Option.map_some',
      Option.getD_some, reduceCtorEq, if_false]

/-! ## The close of a session -/

theorem write_variables_length (K : Constants) (M : AddressModes) (varinfo : List MonoInst)
    (start : Nat) (vars out : List MonoDebugVarInfo) (i : Nat)
    (h : write_variables K M varinfo start i vars = .ok out) : out.length = vars.length := by
  induction vars generalizing i out with
  | nil =>
    simp only [write_variables, pure, Except.pure, Except.ok.injEq] at h
    rw [← h]
  | cons var vars ih =>
    unfold write_variables at h
    cases hg : varinfo.get? (start + i) with
    | none => rw [hg] at h; exact Except.noConfusion h
    | some inst =>
      rw [hg] at h
      simp only [bind, Except.bind] at h
      cases hr : write_variables K M varinfo start (i + 1) vars with
      | error e => rw [hr] at h; exact Except.noConfusion h
      | ok rest =>
        rw [hr] at h
        simp only [pure, Except.pure, Except.ok.injEq] at h
        rw [← h, List.length_cons, List.length_cons, ih rest (i + 1) hr]

theorem write_variables_ok (K : Constants) (M : AddressModes) (varinfo : List MonoInst)
    (start : Nat) (vars : List MonoDebugVarInfo) (i : Nat)
    (h : start + i + vars.length ≤ varinfo.length) :
    ∃ out, write_variables K M varinfo start i vars = .ok out := by
  induction vars generalizing i with
  | nil => exact ⟨[], rfl⟩
  | cons var vars ih =>
    simp only [List.length_cons] at h
    obtain ⟨rest, hr⟩ := ih (i + 1) (by omega)
    have hlt : start + i < varinfo.length := by omega
    have hg : varinfo.get? (start + i) = some (varinfo.get ⟨start + i, hlt⟩) :=
      List.get?_eq_get hlt
    unfold write_variables
    rw [hg]
    simp only [bind, Except.bind, hr, pure, Except.pure]
    exact ⟨_, rfl⟩

/-- `mono_debug_close_method` on an opened session, stage by stage. -/
theorem close_eq (K : Constants) (M : AddressModes) (W : World) (cfg : MonoCompile)
    (info : MiniDebugMethodInfo) (jit : MonoDebugMethodJitInfo) (header : MonoMethodHeader)
    (hinfo : cfg.debug_info = some info) (hjit : info.jit = some jit)
    (hh : cfg.method.header = some header) :
    mono_debug_close_method K M W cfg =
      match write_variables K M cfg.varinfo cfg.locals_start 0 jit.locals with
      | .error e => .error e
      | .ok locals =>
        match closed_this_var K M cfg jit with
        | .error e => .error e
        | .ok this_var =>
          match write_variables K M cfg.varinfo cfg.method.signature.hasthis.toNat 0
              (List.replicate cfg.method.signature.param_count ⟨0, 0⟩) with
          | .error e => .error e
          | .ok params =>
            .ok (registered W cfg info
              (closed_record cfg info jit header locals this_var params)) := by
  unfold mono_debug_close_method closed_this_var registered closed_record
  simp only [hinfo, hjit, hh, bind, Except.bind]
  cases write_variables K M cfg.varinfo cfg.locals_start 0 jit.locals with
  | error e => rfl
  | ok locals =>
    simp only
    cases c : cfg.method.signature.hasthis with
    | false =>
      simp only [Bool.false_eq_true, if_false, pure, Except.pure]
      cases write_variables K M cfg.varinfo false.toNat 0
          (List.replicate cfg.method.signature.param_count ⟨0, 0⟩) with
      | error e => rfl
      | ok params =>
        by_cases hb : info.breakpoint_id = 0
        · simp [hb, record_line_number]
        · simp [hb, record_line_number]
    | true =>
      simp only [if_true]
      cases cfg.varinfo.get? 0 with
      | none => rfl
      | some inst =>
        simp only [pure, Except.pure]
        cases write_variables K M cfg.varinfo true.toNat 0
            (List.replicate cfg.method.signature.param_count ⟨0, 0⟩) with
        | error e => rfl
        | ok params =>
          by_cases hb : info.breakpoint_id = 0
          · simp [hb, record_line_number]
          · simp [hb, record_line_number]

/-- What a successful `mono_debug_close_method` on an opened session has done. -/
theorem close_ok_inv (K : Constants) (M : AddressModes) (W W2 : World) (cfg : MonoCompile)
    (info : MiniDebugMethodInfo) (jit : MonoDebugMethodJitInfo) (header : MonoMethodHeader)
    (hinfo : cfg.debug_info = some info) (hjit : info.jit = some jit)
    (hh : cfg.method.header = some header)
    (h : mono_debug_close_method K M W cfg = .ok W2) :
    ∃ (locals : List MonoDebugVarInfo) (this_var : Option MonoDebugVarInfo)
      (params : List MonoDebugVarInfo),
      W2 = registered W cfg info (closed_record cfg info jit header locals this_var params) ∧
      params.length = cfg.method.signature.param_count ∧
      locals.length = jit.locals.length := by
  rw [close_eq K M W cfg info jit header hinfo hjit hh] at h
  cases hl : write_variables K M cfg.varinfo cfg.locals_start 0 jit.locals with
  | error e => rw [hl] at h; exact Except.noConfusion h
  | ok locals =>
    rw [hl] at h
    cases ht : closed_this_var K M cfg jit with
    | error e => rw [ht] at h; exact Except.noConfusion h
    | ok this_var =>
      rw [ht] at h
      cases hp : write_variables K M cfg.varinfo cfg.method.signature.hasthis.toNat 0
          (List.replicate cfg.method.signature.param_count ⟨0, 0⟩) with
      | error e => rw [hp] at h; exact Except.noConfusion h
      | ok params =>
        rw [hp] at h
        have len_p := write_variables_length K M _ _ _ _ _ hp
        rw [List.length_replicate] at len_p
        exact ⟨locals, this_var, params, (Except.ok.inj h).symm, len_p,
          write_variables_length K M _ _ _ _ _ hl⟩

/-- `mono_debug_close_method` succeeds on an opened session when `cfg->varinfo` holds
the variables that it reads. -/
theorem close_ok (K : Constants) (M : AddressModes) (W : World) (cfg : MonoCompile)
    (info : MiniDebugMethodInfo) (jit : MonoDebugMethodJitInfo) (header : MonoMethodHeader)
    (hinfo : cfg.debug_info = some info) (hjit : info.jit = some jit)
    (hh : cfg.method.header = some header)
    (hl : cfg.locals_start + jit.locals.length ≤ cfg.varinfo.length)
    (hp : cfg.method.signature.hasthis.toNat + cfg.method.signature.param_count
      ≤ cfg.varinfo.length)
    (ht : cfg.method.signature.hasthis = true → 0 < cfg.varinfo.length) :
    ∃ W2, mono_debug_close_method K M W cfg = .ok W2 := by
  obtain ⟨locals, el⟩ := write_variables_ok K M cfg.varinfo cfg.locals_start jit.locals 0
    (by omega)
  obtain ⟨params, ep⟩ := write_variables_ok K M cfg.varinfo
    cfg.method.signature.hasthis.toNat
    (List.replicate cfg.method.signature.param_count ⟨0, 0⟩) 0
    (by rw [List.length_replicate]; omega)
  have et : ∃ tv, closed_this_var K M cfg jit = .ok tv := by
    unfold closed_this_var
    cases c : cfg.method.signature.hasthis with
    | false => exact ⟨_, rfl⟩
    | true =>
      have hlt := ht c
      have hg : cfg.varinfo.get? 0 = some (cfg.varinfo.get ⟨0, hlt⟩) := List.get?_eq_get hlt
      simp only [if_true, hg]
      exact ⟨_, rfl⟩
  obtain ⟨tv, et⟩ := et
  rw [close_eq K M W cfg info jit header hinfo hjit hh, el, et, ep]
  exact ⟨_, rfl⟩

/-! ## A session as a whole -/

theorem record_method (cfg cfg2 : MonoCompile) (ins : MonoInst) (address : Nat)
    (h : mono_debug_record_line_number cfg ins address = .ok cfg2) :
    cfg2.method = cfg.method := by
  unfold mono_debug_record_line_number at h
  cases hinfo : cfg.debug_info with
  | none => rw [hinfo] at h; rw [← Except.ok.inj h]
  | some info =>
    cases hjit : info.jit with
    | none => simp only [hinfo, hjit] at h; rw [← Except.ok.inj h]
    | some jit =>
      cases hc : ins.cil_code with
      | none => simp only [hinfo, hjit, hc] at h; rw [← Except.ok.inj h]
      | some c =>
        cases hh : cfg.method.header with
        | none => simp only [hinfo, hjit, hc, hh] at h; exact Except.noConfusion h
        | some header =>
          simp only [hinfo, hjit, hc, hh] at h
          by_cases hd : c < header.code ∨ c > header.code + header.code_size
          · rw [if_pos hd] at h; rw [← Except.ok.inj h]
          · rw [if_neg hd] at h; rw [← Except.ok.inj h]

/-- Dropped calls can be left out of a run. -/
theorem record_line_numbers_filter (header : MonoMethodHeader)
    (calls : List (MonoInst × Nat)) (cfg : MonoCompile)
    (hh : cfg.method.header = some header) :
    record_line_numbers cfg calls
      = record_line_numbers cfg (calls.filter (fun call => decide (accepted header call.1))) := by
  induction calls generalizing cfg with
  | nil => rfl
  | cons call calls ih =>
    obtain ⟨ins, address⟩ := call
    by_cases ha : accepted header ins
    · have e : ((ins, address) :: calls).filter (fun call => decide (accepted header call.1))
          = (ins, address) :: calls.filter (fun call => decide (accepted header call.1)) := by
        rw [List.filter_cons_of_pos]; exact decide_eq_true ha
      rw [e]
      simp only [record_line_numbers, bind, Except.bind]
      cases hr : mono_debug_record_line_number cfg ins address with
      | error e => rfl
      | ok cfg2 =>
        have hm := record_method cfg cfg2 ins address hr
        exact ih cfg2 (by rw [hm]; exact hh)
    · have e : ((ins, address) :: calls).filter (fun call => decide (accepted header call.1))
          = calls.filter (fun call => decide (accepted header call.1)) := by
        rw [List.filter_cons_of_neg]; simpa using ha
      rw [e]
      simp only [record_line_numbers, bind, Except.bind,
        record_dropped cfg header ins address hh ha]
      exact ih cfg hh

/-- A whole recording session: `mono_debug_init_method`, `mono_debug_open_method`,
then any run of `mono_debug_record_line_number`. -/
theorem session_run (K : Constants) (mono_debug_format : Nat) (cfg : MonoCompile)
    (start_block breakpoint_id : Nat) (header : MonoMethodHeader)
    (calls : List (MonoInst × Nat))
    (hf : mono_debug_format ≠ K.MONO_DEBUG_FORMAT_NONE)
    (hh : cfg.method.header = some header) (hs : is_guint32 header.code_size) :
    recording_session K mono_debug_format cfg start_block breakpoint_id calls
      = .ok { cfg with debug_info := some ({
          jit := some { opened_jit header with
            prologue_end :=
              (((calls.filter (fun call => decide (accepted header call.1))).head?).map
                Prod.snd).getD 0 },
          line_numbers :=
            (calls.filter (fun call => decide (accepted header call.1))).map
              (line_entry_of header),
          has_line_numbers :=
            if calls.filter (fun call => decide (accepted header call.1)) = [] then 0 else 1,
          breakpoint_id := breakpoint_id }) } := by
  unfold recording_session
  rw [open_after_init K mono_debug_format cfg start_block breakpoint_id header hf hh]
  simp only [bind, Except.bind]
  rw [record_line_numbers_filter header calls
    { cfg with debug_info := some ({
        jit := some (opened_jit header), line_numbers := [], has_line_numbers := 0,
        breakpoint_id := breakpoint_id }) } hh]
  have h := record_line_numbers_fresh header hs
    (calls.filter (fun call => decide (accepted header call.1)))
    (fun call hc => of_decide_eq_true (List.mem_filter.1 hc).2)
    { cfg with debug_info := some ({
        jit := some (opened_jit header), line_numbers := [], has_line_numbers := 0,
        breakpoint_id := breakpoint_id }) }
    ({ jit := some (opened_jit header), line_numbers := [], has_line_numbers := 0,
       breakpoint_id := breakpoint_id })
    (opened_jit header) rfl rfl hh rfl
  rw [h]
  rfl

theorem filter_accepted_all (header : MonoMethodHeader) (calls : List (MonoInst × Nat))
    (hacc : ∀ call ∈ calls, accepted header call.1) :
    calls.filter (fun call => decide (accepted header call.1)) = calls :=
  List.filter_eq_self.2 (fun call hc => decide_eq_true (hacc call hc))

/-- The state that a recording session reaches, field by field. -/
theorem session_state (K : Constants) (mono_debug_format : Nat) (cfg : MonoCompile)
    (start_block breakpoint_id : Nat) (header : MonoMethodHeader)
    (calls : List (MonoInst × Nat))
    (hf : mono_debug_format ≠ K.MONO_DEBUG_FORMAT_NONE)
    (hh : cfg.method.header = some header) (hs : is_guint32 header.code_size) :
    ∃ cfg2 info2 jit2,
      recording_session K mono_debug_format cfg start_block breakpoint_id calls = .ok cfg2 ∧
      cfg2.debug_info = some info2 ∧ info2.jit = some jit2 ∧
      cfg2.method = cfg.method ∧ cfg2.domain = cfg.domain ∧
      cfg2.epilog_begin = cfg.epilog_begin ∧ cfg2.code_len = cfg.code_len ∧
      cfg2.native_code = cfg.native_code ∧ cfg2.varinfo = cfg.varinfo ∧
      cfg2.locals_start = cfg.locals_start ∧
      info2.breakpoint_id = breakpoint_id ∧
      info2.line_numbers
        = (calls.filter (fun call => decide (accepted header call.1))).map
            (line_entry_of header) ∧
      jit2.prologue_end
        = (((calls.filter (fun call => decide (accepted header call.1))).head?).map
            Prod.snd).getD 0 ∧
      jit2.locals = List.replicate header.num_locals ⟨0, 0⟩ :=
  ⟨_, _, _, session_run K mono_debug_format cfg start_block breakpoint_id header calls hf hh hs,
    rfl, rfl, rfl, rfl, rfl, rfl, rfl, rfl, rfl, rfl, rfl, rfl, rfl⟩

/-! ## The early returns -/

theorem serialize_unopened (M : AddressModes) (cfg : MonoCompile)
    (h : cfg.debug_info = none ∨ ∃ info, cfg.debug_info = some info ∧ info.jit = none) :
    mono_debug_serialize_debug_info M cfg = .ok (none, 0) := by
  unfold mono_debug_serialize_debug_info
  rcases h with h | ⟨info, h, hj⟩
  · rw [h]; rfl
  · rw [h]; simp only [hj]; rfl

theorem close_unopened (K : Constants) (M : AddressModes) (W : World) (cfg : MonoCompile)
    (h : cfg.debug_info = none ∨ ∃ info, cfg.debug_info = some info ∧ info.jit = none) :
    mono_debug_close_method K M W cfg = .ok W := by
  unfold mono_debug_close_method
  rcases h with h | ⟨info, h, hj⟩
  · rw [h]; rfl
  · rw [h]; simp only [hj]; rfl

theorem record_unopened (cfg : MonoCompile) (ins : MonoInst) (address : Nat)
    (h : cfg.debug_info = none ∨ ∃ info, cfg.debug_info = some info ∧ info.jit = none) :
    mono_debug_record_line_number cfg ins address = .ok cfg := by
  unfold mono_debug_record_line_number
  rcases h with h | ⟨info, h, hj⟩
  · rw [h]; rfl
  · rw [h]; simp only [hj]; rfl

theorem record_line_numbers_unopened (cfg : MonoCompile) (calls : List (MonoInst × Nat))
    (h : cfg.debug_info = none ∨ ∃ info, cfg.debug_info = some info ∧ info.jit = none) :
    record_line_numbers cfg calls = .ok cfg := by
  induction calls with
  | nil => rfl
  | cons call calls ih =>
    obtain ⟨ins, address⟩ := call
    unfold record_line_numbers
    rw [record_unopened cfg ins address h]
    exact ih

theorem init_disabled (K : Constants) (mono_debug_format : Nat) (cfg : MonoCompile)
    (start_block breakpoint_id : Nat) (hf : mono_debug_format = K.MONO_DEBUG_FORMAT_NONE) :
    mono_debug_init_method K mono_debug_format cfg start_block breakpoint_id = cfg := by
  unfold mono_debug_init_method
  rw [if_pos hf]

theorem init_enabled (K : Constants) (mono_debug_format : Nat) (cfg : MonoCompile)
    (start_block breakpoint_id : Nat) (hf : mono_debug_format ≠ K.MONO_DEBUG_FORMAT_NONE) :
    mono_debug_init_method K mono_debug_format cfg start_block breakpoint_id
      = { cfg with debug_info := some ({ jit := none, line_numbers := [], has_line_numbers := 0,
                                         breakpoint_id := breakpoint_id }) } := by
  unfold mono_debug_init_method
  rw [if_neg hf]

theorem open_no_session (cfg : MonoCompile) (h : cfg.debug_info = none) :
    mono_debug_open_method cfg = .ok cfg := by
  unfold mono_debug_open_method
  rw [h]; rfl

theorem open_no_header (cfg : MonoCompile) (info : MiniDebugMethodInfo)
    (h : cfg.debug_info = some info) (hh : cfg.method.header = none) :
    mono_debug_open_method cfg = .error .assertion_failed := by
  unfold mono_debug_open_method
  rw [h]; simp only [hh]; rfl

/-! ## The loader entry point -/

theorem add_aot_disabled (K : Constants) (M : AddressModes) (mono_debug_format : Nat)
    (W : World) (domain : Nat) (method : MonoMethod) (code_start : Nat)
    (debug_info : List guint8) (debug_info_len : Nat)
    (hf : mono_debug_format = K.MONO_DEBUG_FORMAT_NONE) :
    mono_debug_add_aot_method K M mono_debug_format W domain method code_start debug_info
      debug_info_len = .ok W := by
  unfold mono_debug_add_aot_method
  rw [if_pos hf]; rfl

theorem add_aot_ineligible_kind (K : Constants) (M : AddressModes) (mono_debug_format : Nat)
    (W : World) (domain : Nat) (method : MonoMethod) (code_start : Nat)
    (debug_info : List guint8) (debug_info_len : Nat)
    (hk : ineligible_kind K method) :
    mono_debug_add_aot_method K M mono_debug_format W domain method code_start debug_info
      debug_info_len = .ok W := by
  unfold mono_debug_add_aot_method
  by_cases hf : mono_debug_format = K.MONO_DEBUG_FORMAT_NONE
  · rw [if_pos hf]; rfl
  · unfold ineligible_kind at hk
    rw [if_neg hf, if_pos hk]; rfl

theorem add_aot_zero_len (K : Constants) (M : AddressModes) (mono_debug_format : Nat)
    (W : World) (domain : Nat) (method : MonoMethod) (code_start : Nat)
    (debug_info : List guint8) :
    mono_debug_add_aot_method K M mono_debug_format W domain method code_start debug_info 0
      = .ok W := by
  unfold mono_debug_add_aot_method
  by_cases hf : mono_debug_format = K.MONO_DEBUG_FORMAT_NONE
  · rw [if_pos hf]; rfl
  · rw [if_neg hf]
    split
    · rfl
    · rw [if_pos rfl]; rfl

theorem not_aot_eligible (K : Constants) (mono_debug_format : Nat) (method : MonoMethod)
    (debug_info_len : Nat) (h : ¬ aot_eligible K mono_debug_format method debug_info_len) :
    mono_debug_format = K.MONO_DEBUG_FORMAT_NONE ∨ ineligible_kind K method
      ∨ debug_info_len = 0 := by
  unfold aot_eligible at h
  unfold ineligible_kind
  by_contra hc
  simp only [not_or, not_not] at hc
  exact h ⟨hc.1, hc.2.1.1, hc.2.1.2.1, hc.2.1.2.2.1, hc.2.1.2.2.2.1, hc.2.1.2.2.2.2, hc.2.2⟩

theorem add_aot_not_eligible (K : Constants) (M : AddressModes) (mono_debug_format : Nat)
    (W : World) (domain : Nat) (method : MonoMethod) (code_start : Nat)
    (debug_info : List guint8) (debug_info_len : Nat)
    (h : ¬ aot_eligible K mono_debug_format method debug_info_len) :
    mono_debug_add_aot_method K M mono_debug_format W domain method code_start debug_info
      debug_info_len = .ok W := by
  rcases not_aot_eligible K mono_debug_format method debug_info_len h with hf | hk | hl
  · exact add_aot_disabled K M mono_debug_format W domain method code_start debug_info
      debug_info_len hf
  · exact add_aot_ineligible_kind K M mono_debug_format W domain method code_start debug_info
      debug_info_len hk
  · rw [hl]
    exact add_aot_zero_len K M mono_debug_format W domain method code_start debug_info

theorem add_aot_eligible (K : Constants) (M : AddressModes) (mono_debug_format : Nat)
    (W : World) (domain : Nat) (method : MonoMethod) (code_start : Nat)
    (debug_info : List guint8) (debug_info_len : Nat)
    (h : aot_eligible K mono_debug_format method debug_info_len) :
    mono_debug_add_aot_method K M mono_debug_format W domain method code_start debug_info
      debug_info_len
      = (deserialize_debug_info M method code_start debug_info debug_info_len).map
          (fun jit => { W with registry := W.registry ++ [(method, jit, domain)] }) := by
  obtain ⟨hf, h1, h2, h3, h4, h5, hl⟩ := h
  have hk : ¬ (method.iflags &&& K.METHOD_IMPL_ATTRIBUTE_INTERNAL_CALL ≠ 0
      ∨ method.iflags &&& K.METHOD_IMPL_ATTRIBUTE_RUNTIME ≠ 0
      ∨ method.flags &&& K.METHOD_ATTRIBUTE_PINVOKE_IMPL ≠ 0
      ∨ method.flags &&& K.METHOD_ATTRIBUTE_ABSTRACT ≠ 0
      ∨ method.wrapper_type ≠ K.MONO_WRAPPER_NONE) := by
    simp only [h1, h2, h3, h4, h5, ne_eq, not_true_eq_false, or_self, not_false_eq_true]
  unfold mono_debug_add_aot_method
  rw [if_neg hf, if_neg hk, if_neg hl]
  cases deserialize_debug_info M method code_start debug_info debug_info_len with
  | error e => rfl
  | ok jit => rfl

/-! ## The shape of a decoded record -/

theorem deserialize_variables_length (M : AddressModes) (n : Nat) (p q : List guint8)
    (vars : List MonoDebugVarInfo) (h : deserialize_variables M n p = .ok (vars, q)) :
    vars.length = n := by
  induction n generalizing p q vars with
  | zero =>
    unfold deserialize_variables at h
    injection h with h; injection h with h1 h2
    rw [← h1]; rfl
  | succ n ih =>
    unfold deserialize_variables at h
    cases h1 : deserialize_variable M ⟨0, 0⟩ p with
    | error e => rw [h1] at h; exact Except.noConfusion h
    | ok r =>
      obtain ⟨var, p1⟩ := r
      rw [h1] at h
      cases h2 : deserialize_variables M n p1 with
      | error e =>
        simp only [bind, Except.bind, h2] at h
        exact Except.noConfusion h
      | ok r2 =>
        obtain ⟨vs, p2⟩ := r2
        simp only [bind, Except.bind, h2, pure, Except.pure, Except.ok.injEq,
          Prod.mk.injEq] at h
        rw [← h.1, List.length_cons, ih p1 p2 vs h2]

theorem deserialize_line_numbers_length (n : Nat) (so sn : Int) (p q : List guint8)
    (lines : List MonoDebugLineNumberEntry)
    (h : deserialize_line_numbers n so sn p = .ok (lines, q)) :
    lines.length = n := by
  induction n generalizing so sn p q lines with
  | zero =>
    unfold deserialize_line_numbers at h
    injection h with h; injection h with h1 h2
    rw [← h1]; rfl
  | succ n ih =>
    unfold deserialize_line_numbers at h
    cases h1 : decode_value p with
    | error e => rw [h1] at h; exact Except.noConfusion h
    | ok r =>
      obtain ⟨d, p1⟩ := r
      rw [h1] at h
      cases h2 : decode_value p1 with
      | error e =>
        simp only [bind, Except.bind, h2] at h
        exact Except.noConfusion h
      | ok r2 =>
        obtain ⟨dn, p2⟩ := r2
        cases h3 : deserialize_line_numbers n (to_gint32 (so + d)) (to_gint32 (sn + dn)) p2 with
        | error e =>
          simp only [bind, Except.bind, h2, h3] at h
          exact Except.noConfusion h
        | ok r3 =>
          obtain ⟨ls, p3⟩ := r3
          simp only [bind, Except.bind, h2, h3, pure, Except.pure, Except.ok.injEq,
            Prod.mk.injEq] at h
          rw [← h.1, List.length_cons, ih _ _ p2 p3 ls h3]

theorem decode_value_suffix (p q : List guint8) (x : Int)
    (h : decode_value p = .ok (x, q)) : q <:+ p := by
  rcases decode_value_ok_cases p q x h with ⟨b, e, _⟩ | ⟨b, b1, e, _⟩ | ⟨b, b1, b2, b3, e, _⟩
    | ⟨b, b1, b2, b3, b4, e, _⟩
  · rw [e]; exact ⟨[b], rfl⟩
  · rw [e]; exact ⟨[b, b1], rfl⟩
  · rw [e]; exact ⟨[b, b1, b2, b3], rfl⟩
  · rw [e]; exact ⟨[b, b1, b2, b3, b4], rfl⟩

theorem deserialize_variable_suffix (M : AddressModes) (var0 var : MonoDebugVarInfo)
    (p q : List guint8) (h : deserialize_variable M var0 p = .ok (var, q)) : q <:+ p := by
  unfold deserialize_variable at h
  cases h1 : decode_value p with
  | error e => rw [h1] at h; exact Except.noConfusion h
  | ok r =>
    obtain ⟨v, p1⟩ := r
    have s1 := decode_value_suffix p p1 v h1
    rw [h1] at h
    simp only [bind, Except.bind] at h
    split at h
    · simp only [pure, Except.pure, Except.ok.injEq, Prod.mk.injEq] at h
      rw [← h.2]; exact s1
    · split at h
      · cases h2 : decode_value p1 with
        | error e => rw [h2] at h; exact Except.noConfusion h
        | ok r2 =>
          obtain ⟨o, p2⟩ := r2
          rw [h2] at h
          simp only [pure, Except.pure, Except.ok.injEq, Prod.mk.injEq] at h
          rw [← h.2]
          exact (decode_value_suffix p1 p2 o h2).trans s1
      · exact Except.noConfusion h

theorem deserialize_variables_suffix (M : AddressModes) (n : Nat) (p q : List guint8)
    (vars : List MonoDebugVarInfo) (h : deserialize_variables M n p = .ok (vars, q)) :
    q <:+ p := by
  induction n generalizing p q vars with
  | zero =>
    unfold deserialize_variables at h
    injection h with h; injection h with h1 h2
    rw [← h2]
  | succ n ih =>
    unfold deserialize_variables at h
    cases h1 : deserialize_variable M ⟨0, 0⟩ p with
    | error e => rw [h1] at h; exact Except.noConfusion h
    | ok r =>
      obtain ⟨var, p1⟩ := r
      rw [h1] at h
      cases h2 : deserialize_variables M n p1 with
      | error e =>
        simp only [bind, Except.bind, h2] at h
        exact Except.noConfusion h
      | ok r2 =>
        obtain ⟨vs, p2⟩ := r2
        simp only [bind, Except.bind, h2, pure, Except.pure, Except.ok.injEq,
          Prod.mk.injEq] at h
        rw [← h.2]
        exact (ih p1 p2 vs h2).trans (deserialize_variable_suffix M _ var p p1 h1)

theorem bind_ok_inv {α β : Type} (x : Except Fault α) (f : α → Except Fault β) (b : β)
    (h : x >>= f = .ok b) : ∃ a, x = .ok a ∧ f a = .ok b := by
  cases x with
  | error e => exact Except.noConfusion h
  | ok a => exact ⟨a, rfl, h⟩

/-- Inversion of a successful `deserialize_debug_info`: the stages that it went
through. -/
theorem deserialize_ok_inv (M : AddressModes) (method : MonoMethod) (code_start : Nat)
    (buf : List guint8) (len : Nat) (jit : MonoDebugMethodJitInfo)
    (h : deserialize_debug_info M method code_start buf len = .ok jit) :
    ∃ (header : MonoMethodHeader) (q1 q2 q3 q4 q5 q6 q7 q8 : List guint8) (v1 v2 v3 n : Int)
      (ps ls : List MonoDebugVarInfo) (tv : Option MonoDebugVarInfo)
      (lines : List MonoDebugLineNumberEntry),
      method.header = some header ∧
      decode_value buf = .ok (v1, q1) ∧ decode_value q1 = .ok (v2, q2) ∧
      decode_value q2 = .ok (v3, q3) ∧
      deserialize_variables M method.signature.param_count q3 = .ok (ps, q4) ∧
      (if method.signature.hasthis then
          (deserialize_variable M ⟨0, 0⟩ q4).map (fun r => (some r.1, r.2))
        else .ok (none, q4)) = .ok (tv, q5) ∧
      deserialize_variables M header.num_locals q5 = .ok (ls, q6) ∧
      decode_value q6 = .ok (n, q7) ∧
      deserialize_line_numbers (to_guint32 n) 0 0 q7 = .ok (lines, q8) ∧
      jit = { code_start := code_start
              code_size := to_guint32 v3
              prologue_end := to_guint32 v2
              epilogue_begin := to_guint32 v1
              line_numbers := lines
              this_var := tv
              params := ps
              locals := ls } := by
  unfold deserialize_debug_info at h
  cases hh : method.header with
  | none => rw [hh] at h; exact Except.noConfusion h
  | some header =>
    rw [hh] at h
    simp only at h
    obtain ⟨⟨v1, q1⟩, h1, h⟩ := bind_ok_inv _ _ _ h
    simp only at h
    obtain ⟨⟨v2, q2⟩, h2, h⟩ := bind_ok_inv _ _ _ h
    simp only at h
    obtain ⟨⟨v3, q3⟩, h3, h⟩ := bind_ok_inv _ _ _ h
    simp only at h
    obtain ⟨⟨ps, q4⟩, h4, h⟩ := bind_ok_inv _ _ _ h
    cases c : method.signature.hasthis with
    | false =>
      rw [c] at h
      simp only [Bool.false_eq_true, if_false, pure, Except.pure, bind, Except.bind] at h
      obtain ⟨⟨ls, q6⟩, h6, h⟩ := bind_ok_inv _ _ _ h
      simp only at h
      obtain ⟨⟨n, q7⟩, h7, h⟩ := bind_ok_inv _ _ _ h
      simp only at h
      obtain ⟨⟨lines, q8⟩, h8, h⟩ := bind_ok_inv _ _ _ h
      simp only [pure, Except.pure, Except.ok.injEq] at h
      exact ⟨header, q1, q2, q3, q4, q4, q6, q7, q8, v1, v2, v3, n, ps, ls, none, lines, rfl,
        h1, h2, h3, h4, by simp only [Bool.false_eq_true, if_false], h6, h7, h8, h.symm⟩
    | true =>
      rw [c] at h
      simp only [if_true] at h
      obtain ⟨⟨var, q5⟩, hd, h⟩ := bind_ok_inv _ _ _ h
      simp only [pure, Except.pure, bind, Except.bind] at h
      obtain ⟨⟨ls, q6⟩, h6, h⟩ := bind_ok_inv _ _ _ h
      simp only at h
      obtain ⟨⟨n, q7⟩, h7, h⟩ := bind_ok_inv _ _ _ h
      simp only at h
      obtain ⟨⟨lines, q8⟩, h8, h⟩ := bind_ok_inv _ _ _ h
      simp only [pure, Except.pure, Except.ok.injEq] at h
      exact ⟨header, q1, q2, q3, q4, q5, q6, q7, q8, v1, v2, v3, n, ps, ls, some var, lines,
        rfl, h1, h2, h3, h4, by simp only [if_true, hd, Except.map], h6, h7, h8, h.symm⟩

/-! ## A session and its close -/

theorem il_offset_of_le (header : MonoMethodHeader) (ins : MonoInst)
    (h : accepted header ins) : il_offset_of header ins ≤ header.code_size := by
  obtain ⟨c, hc, h1, h2⟩ := (accepted_iff header ins).1 h
  unfold il_offset_of
  rw [hc]
  show c - header.code ≤ header.code_size
  omega

theorem closed_record_bound (cfg : MonoCompile) (info : MiniDebugMethodInfo)
    (jit : MonoDebugMethodJitInfo) (header : MonoMethodHeader)
    (locals : List MonoDebugVarInfo) (this_var : Option MonoDebugVarInfo)
    (params : List MonoDebugVarInfo) (calls : List (MonoInst × Nat))
    (hl : info.line_numbers
      = (calls.filter (fun call => decide (accepted header call.1))).map
          (line_entry_of header)) :
    vg_line_bound header (closed_record cfg info jit header locals this_var params) := by
  intro lne hm
  simp only [closed_record, hl, List.mem_append, List.mem_map, List.mem_filter,
    List.mem_singleton, decide_eq_true_eq] at hm
  rcases hm with ⟨call, ⟨_, ha⟩, e⟩ | e
  · rw [← e]
    exact il_offset_of_le header call.1 ha
  · rw [e]

/-- A recording session followed by `mono_debug_close_method`: the session returns,
and a close that returns has registered one record, whose line table is that of the
accepted calls followed by the final entry. -/
theorem session_close (K : Constants) (M : AddressModes) (mono_debug_format : Nat)
    (W : World) (cfg : MonoCompile) (start_block breakpoint_id : Nat)
    (header : MonoMethodHeader) (calls : List (MonoInst × Nat))
    (hf : mono_debug_format ≠ K.MONO_DEBUG_FORMAT_NONE)
    (hh : cfg.method.header = some header) (hs : is_guint32 header.code_size) :
    ∃ cfg2, recording_session K mono_debug_format cfg start_block breakpoint_id calls
        = .ok cfg2 ∧
      (∀ W2, mono_debug_close_method K M W cfg2 = .ok W2 →
        ∃ record : MonoDebugMethodJitInfo,
          W2.registry = W.registry ++ [(cfg.method, record, cfg.domain)] ∧
          record.line_numbers
            = (calls.filter (fun call => decide (accepted header call.1))).map
                (line_entry_of header) ++ [⟨header.code_size, cfg.epilog_begin⟩] ∧
          vg_line_bound header record) ∧
      (cfg.locals_start + header.num_locals ≤ cfg.varinfo.length →
        cfg.method.signature.hasthis.toNat + cfg.method.signature.param_count
          ≤ cfg.varinfo.length →
        ∃ W2, mono_debug_close_method K M W cfg2 = .ok W2) := by
  obtain ⟨cfg2, info2, jit2, hrun, hi, hj, hm, hd, he, _, _, hv, hls, _, hln, _, hlo⟩ :=
    session_state K mono_debug_format cfg start_block breakpoint_id header calls hf hh hs
  have hh2 : cfg2.method.header = some header := by rw [hm]; exact hh
  refine ⟨cfg2, hrun, ?_, ?_⟩
  · intro W2 hclose
    obtain ⟨locals, this_var, params, e, _, _⟩ :=
      close_ok_inv K M W W2 cfg2 info2 jit2 header hi hj hh2 hclose
    rw [e]
    refine ⟨_, by rw [← hm, ← hd]; rfl, by rw [← hln, ← he]; rfl, ?_⟩
    exact closed_record_bound cfg2 info2 jit2 header locals this_var params calls hln
  · intro hl hp
    refine close_ok K M W cfg2 info2 jit2 header hi hj hh2 ?_ ?_ ?_
    · rw [hls, hv, hlo, List.length_replicate]; exact hl
    · rw [hm, hv]; exact hp
    · rw [hm, hv]
      intro ht
      rw [ht] at hp
      simp only [Bool.toNat_true] at hp
      omega

/-! ## The faults of the deserializer -/

theorem bind_error_inv {α β : Type} (x : Except Fault α) (g : α → Except Fault β) (f : Fault)
    (h : x >>= g = .error f) : x = .error f ∨ ∃ a, x = .ok a ∧ g a = .error f := by
  cases x with
  | error e =>
    have h2 : (Except.error e : Except Fault β) = Except.error f := h
    exact Or.inl (congrArg Except.error (Except.error.inj h2))
  | ok a => exact Or.inr ⟨a, rfl, h⟩

theorem decode_value_error (p : List guint8) (f : Fault) (h : decode_value p = .error f) :
    f = .out_of_bounds := by
  rcases decode_value_total p with ⟨x, rest, e⟩ | e
  · rw [e] at h; exact Except.noConfusion h
  · rw [e] at h; exact (Except.error.inj h).symm

theorem deserialize_variable_error (M : AddressModes) (var : MonoDebugVarInfo)
    (p : List guint8) (f : Fault) (h : deserialize_variable M var p = .error f) :
    f = .out_of_bounds ∨
    (f = .assertion_failed ∧
      ∃ (v : Int) (rest : List guint8), decode_value p = .ok (v, rest) ∧
        ¬ valid_address_mode M ⟨to_guint32 v, 0⟩) := by
  rcases decode_value_total p with ⟨v, p1, e⟩ | e
  · rw [deserialize_variable_step M var p p1 v e] at h
    by_cases c : to_guint32 v &&& M.flags = M.register
    · rw [if_pos c] at h; exact Except.noConfusion h
    · rw [if_neg c] at h
      by_cases c2 : to_guint32 v &&& M.flags = M.regoffset
      · rw [if_pos c2] at h
        cases hd : decode_value p1 with
        | error e2 =>
          rw [hd] at h
          have := decode_value_error p1 e2 hd
          exact Or.inl (by rw [← Except.error.inj h, this])
        | ok r => rw [hd] at h; exact Except.noConfusion h
      · rw [if_neg c2] at h
        refine Or.inr ⟨(Except.error.inj h).symm, v, p1, e, ?_⟩
        unfold valid_address_mode
        exact fun hv => hv.elim c c2
  · unfold deserialize_variable at h
    rw [e] at h
    exact Or.inl (Except.error.inj h).symm

theorem deserialize_variables_succ_inv (M : AddressModes) (n : Nat) (p q : List guint8)
    (ps : List MonoDebugVarInfo) (h : deserialize_variables M (n + 1) p = .ok (ps, q)) :
    ∃ var p1 vs, deserialize_variable M ⟨0, 0⟩ p = .ok (var, p1) ∧
      deserialize_variables M n p1 = .ok (vs, q) ∧ ps = var :: vs := by
  unfold deserialize_variables at h
  obtain ⟨⟨var, p1⟩, h1, h⟩ := bind_ok_inv _ _ _ h
  simp only at h
  obtain ⟨⟨vs, p2⟩, h2, h⟩ := bind_ok_inv _ _ _ h
  simp only [pure, Except.pure, Except.ok.injEq, Prod.mk.injEq] at h
  exact ⟨var, p1, vs, h1, by rw [h2, h.2], h.1.symm⟩

theorem deserialize_variables_error (M : AddressModes) (n : Nat) (p : List guint8)
    (f : Fault) (h : deserialize_variables M n p = .error f) :
    f = .out_of_bounds ∨
    (f = .assertion_failed ∧
      ∃ (q : List guint8) (v : Int) (rest : List guint8), q <:+ p ∧
        decode_value q = .ok (v, rest) ∧ ¬ valid_address_mode M ⟨to_guint32 v, 0⟩) := by
  induction n generalizing p with
  | zero =>
    unfold deserialize_variables at h
    exact Except.noConfusion h
  | succ n ih =>
    unfold deserialize_variables at h
    rcases bind_error_inv _ _ _ h with h1 | ⟨⟨var, p1⟩, h1, h⟩
    · rcases deserialize_variable_error M _ p f h1 with e | ⟨e, v, rest, hd, hv⟩
      · exact Or.inl e
      · exact Or.inr ⟨e, p, v, rest, List.suffix_refl _, hd, hv⟩
    · simp only at h
      rcases bind_error_inv _ _ _ h with h2 | ⟨⟨vs, p2⟩, h2, h⟩
      · rcases ih p1 h2 with e | ⟨e, q, v, rest, hs, hd, hv⟩
        · exact Or.inl e
        · exact Or.inr ⟨e, q, v, rest,
            hs.trans (deserialize_variable_suffix M _ var p p1 h1), hd, hv⟩
      · exact Except.noConfusion h

theorem deserialize_line_numbers_error (n : Nat) (so sn : Int) (p : List guint8) (f : Fault)
    (h : deserialize_line_numbers n so sn p = .error f) : f = .out_of_bounds := by
  induction n generalizing so sn p with
  | zero =>
    unfold deserialize_line_numbers at h
    exact Except.noConfusion h
  | succ n ih =>
    unfold deserialize_line_numbers at h
    rcases bind_error_inv _ _ _ h with h1 | ⟨⟨d, p1⟩, h1, h⟩
    · exact decode_value_error p f h1
    · simp only at h
      rcases bind_error_inv _ _ _ h with h2 | ⟨⟨dn, p2⟩, h2, h⟩
      · exact decode_value_error p1 f h2
      · simp only at h
        rcases bind_error_inv _ _ _ h with h3 | ⟨⟨ls, p3⟩, h3, h⟩
        · exact ih _ _ p2 h3
        · exact Except.noConfusion h

/-- The ways in which `deserialize_debug_info` stops without a record: a read outside
the buffer, the header assertion, or the unknown-tag assertion on a decoded index. -/
theorem deserialize_error_cases (M : AddressModes) (method : MonoMethod) (code_start : Nat)
    (buf : List guint8) (len : Nat) (f : Fault)
    (h : deserialize_debug_info M method code_start buf len = .error f) :
    f = .out_of_bounds ∨
    (f = .assertion_failed ∧
      (method.header = none ∨
        ∃ (q : List guint8) (v : Int) (rest : List guint8), q <:+ buf ∧
          decode_value q = .ok (v, rest) ∧ ¬ valid_address_mode M ⟨to_guint32 v, 0⟩)) := by
  unfold deserialize_debug_info at h
  cases hh : method.header with
  | none =>
    rw [hh] at h
    exact Or.inr ⟨(Except.error.inj h).symm, Or.inl rfl⟩
  | some header =>
    rw [hh] at h
    simp only at h
    rcases bind_error_inv _ _ _ h with h1 | ⟨⟨v1, q1⟩, h1, h⟩
    · exact Or.inl (decode_value_error buf f h1)
    simp only at h
    rcases bind_error_inv _ _ _ h with h2 | ⟨⟨v2, q2⟩, h2, h⟩
    · exact Or.inl (decode_value_error q1 f h2)
    simp only at h
    rcases bind_error_inv _ _ _ h with h3 | ⟨⟨v3, q3⟩, h3, h⟩
    · exact Or.inl (decode_value_error q2 f h3)
    have s3 : q3 <:+ buf :=
      ((decode_value_suffix q2 q3 v3 h3).trans (decode_value_suffix q1 q2 v2 h2)).trans
        (decode_value_suffix buf q1 v1 h1)
    simp only at h
    rcases bind_error_inv _ _ _ h with h4 | ⟨⟨ps, q4⟩, h4, h⟩
    · rcases deserialize_variables_error M _ q3 f h4 with e | ⟨e, q, v, rest, hs, hd, hv⟩
      · exact Or.inl e
      · exact Or.inr ⟨e, Or.inr ⟨q, v, rest, hs.trans s3, hd, hv⟩⟩
    have s4 : q4 <:+ buf := (deserialize_variables_suffix M _ q3 q4 ps h4).trans s3
    have tail : ∀ (tv : Option MonoDebugVarInfo) (q5 : List guint8), q5 <:+ buf →
        (do
          let (locals, p) ← deserialize_variables M header.num_locals q5
          let (num_line_numbers, p) ← decode_value p
          let (line_numbers, _) ←
            deserialize_line_numbers (to_guint32 num_line_numbers) 0 0 p
          (pure
            { code_start := code_start
              code_size := to_guint32 v3
              prologue_end := to_guint32 v2
              epilogue_begin := to_guint32 v1
              line_numbers := line_numbers
              this_var := tv
              params := ps
              locals := locals } : Except Fault MonoDebugMethodJitInfo)) = .error f →
        f = .out_of_bounds ∨
        (f = .assertion_failed ∧
          (some header = none ∨
            ∃ (q : List guint8) (v : Int) (rest : List guint8), q <:+ buf ∧
              decode_value q = .ok (v, rest) ∧
              ¬ valid_address_mode M ⟨to_guint32 v, 0⟩)) := by
      intro tv q5 s5 h
      rcases bind_error_inv _ _ _ h with h6 | ⟨⟨ls, q6⟩, h6, h⟩
      · rcases deserialize_variables_error M _ q5 f h6 with e | ⟨e, q, v, rest, hs, hd, hv⟩
        · exact Or.inl e
        · exact Or.inr ⟨e, Or.inr ⟨q, v, rest, hs.trans s5, hd, hv⟩⟩
      simp only at h
      rcases bind_error_inv _ _ _ h with h7 | ⟨⟨n, q7⟩, h7, h⟩
      · exact Or.inl (decode_value_error q6 f h7)
      simp only at h
      rcases bind_error_inv _ _ _ h with h8 | ⟨⟨lines, q8⟩, h8, h⟩
      · exact Or.inl (deserialize_line_numbers_error _ 0 0 q7 f h8)
      · exact Except.noConfusion h
    cases c : method.signature.hasthis with
    | false =>
      rw [c] at h
      simp only [Bool.false_eq_true, if_false, pure, Except.pure, bind, Except.bind] at h
      exact tail none q4 s4 h
    | true =>
      rw [c] at h
      simp only [if_true] at h
      rcases bind_error_inv _ _ _ h with hd | ⟨⟨var, q5⟩, hd, h⟩
      · rcases deserialize_variable_error M _ q4 f hd with e | ⟨e, v, rest, hd2, hv⟩
        · exact Or.inl e
        · exact Or.inr ⟨e, Or.inr ⟨q4, v, rest, s4, hd2, hv⟩⟩
      · exact tail (some var) q5 ((deserialize_variable_suffix M _ var q4 q5 hd).trans s4) h

/-- The loop of the deserializer over more variables than were written: it decodes
the written ones and goes on from the bytes that follow them. -/
theorem deserialize_variables_more (M : AddressModes) (n m : Nat) (p q q4 : List guint8)
    (a ps : List MonoDebugVarInfo) (h1 : deserialize_variables M n p = .ok (a, q))
    (h2 : deserialize_variables M (n + m) p = .ok (ps, q4)) :
    ∃ b, deserialize_variables M m q = .ok (b, q4) ∧ ps = a ++ b := by
  induction n generalizing p a ps with
  | zero =>
    unfold deserialize_variables at h1
    simp only [pure, Except.pure, Except.ok.injEq, Prod.mk.injEq] at h1
    rw [Nat.zero_add] at h2
    rw [← h1.1, ← h1.2]
    exact ⟨ps, h2, rfl⟩
  | succ n ih =>
    obtain ⟨var, p1, vs, e1, e2, e3⟩ := deserialize_variables_succ_inv M n p q a h1
    have e : n + 1 + m = (n + m) + 1 := by omega
    rw [e] at h2
    obtain ⟨var2, p2, vs2, f1, f2, f3⟩ := deserialize_variables_succ_inv M (n + m) p q4 ps h2
    rw [e1] at f1
    simp only [Except.ok.injEq, Prod.mk.injEq] at f1
    rw [← f1.2] at f2
    obtain ⟨b, hb, hps⟩ := ih p1 vs vs2 e2 f2
    exact ⟨b, hb, by rw [f3, e3, hps, ← f1.1]; rfl⟩

/-! ## The deserializer on a shape with more parameters -/

theorem wire_layout_split (M : AddressModes) (hasthis : Bool) (jit : MonoDebugMethodJitInfo)
    (rest : List guint8) :
    wire_layout M hasthis jit ++ rest
      = encode_value (to_gint32 jit.epilogue_begin)
        ++ (encode_value (to_gint32 jit.prologue_end)
        ++ (encode_value (to_gint32 jit.code_size)
        ++ ((jit.params.map (variable_encoding M)).flatten
        ++ (after_params M hasthis jit ++ rest)))) := by
  unfold wire_layout after_params
  simp only [List.append_assoc]

/-- The control flow of the deserializer on bytes that hold fewer parameters than the
method declares, over arbitrary encodings of the scalars and of the parameters. -/
theorem deserialize_more_flow (M : AddressModes) (method : MonoMethod) (code_start len : Nat)
    (E1 E2 E3 PE T : List guint8) (e1 e2 e3 : Int) (pl : List MonoDebugVarInfo)
    (jit2 : MonoDebugMethodJitInfo)
    (d1 : ∀ r, decode_value (E1 ++ r) = .ok (e1, r))
    (d2 : ∀ r, decode_value (E2 ++ r) = .ok (e2, r))
    (d3 : ∀ r, decode_value (E3 ++ r) = .ok (e3, r))
    (dp : ∀ r, deserialize_variables M pl.length (PE ++ r) = .ok (pl, r))
    (hp : pl.length < method.signature.param_count)
    (h : deserialize_debug_info M method code_start (E1 ++ (E2 ++ (E3 ++ (PE ++ T)))) len
      = .ok jit2) :
    jit2.params.length = method.signature.param_count ∧
    jit2.params.take pl.length = pl ∧
    jit2.epilogue_begin = to_guint32 e1 ∧
    jit2.prologue_end = to_guint32 e2 ∧
    jit2.code_size = to_guint32 e3 ∧
    ∃ third q, deserialize_variable M ⟨0, 0⟩ T = .ok (third, q) ∧
      jit2.params.get? pl.length = some third := by
  obtain ⟨header, q1, q2, q3, q4, q5, q6, q7, q8, v1, v2, v3, n, ps, ls, tv, lines, hh, h1, h2,
    h3, h4, h5, h6, h7, h8, e⟩ := deserialize_ok_inv M method code_start _ len jit2 h
  rw [d1] at h1
  simp only [Except.ok.injEq, Prod.mk.injEq] at h1
  obtain ⟨rfl, rfl⟩ := h1
  rw [d2] at h2
  simp only [Except.ok.injEq, Prod.mk.injEq] at h2
  obtain ⟨rfl, rfl⟩ := h2
  rw [d3] at h3
  simp only [Except.ok.injEq, Prod.mk.injEq] at h3
  obtain ⟨rfl, rfl⟩ := h3
  obtain ⟨k, hk⟩ : ∃ k, method.signature.param_count = pl.length + (k + 1) :=
    ⟨method.signature.param_count - pl.length - 1, by omega⟩
  have hlen := deserialize_variables_length M _ _ q4 ps h4
  rw [hk] at h4
  obtain ⟨b, hb, hps⟩ := deserialize_variables_more M pl.length (k + 1) (PE ++ T) T q4 pl ps
    (dp T) h4
  obtain ⟨third, p1, vs, t1, t2, t3⟩ := deserialize_variables_succ_inv M k T q4 b hb
  rw [e]
  refine ⟨hlen, ?_, rfl, rfl, rfl, third, p1, t1, ?_⟩
  · show ps.take pl.length = pl
    rw [hps, List.take_left']
    rfl
  · show ps.get? pl.length = some third
    rw [hps, t3, List.get?_eq_getElem?, List.getElem?_append_right (Nat.le_refl _),
      Nat.sub_self]
    exact List.getElem?_cons_zero

/-! ## The guard of the loader entry point and the kinds of method -/

theorem not_runtime_provided (K : Constants) (code_type_mask : Nat) (method : MonoMethod)
    (h0 : K.METHOD_IMPL_ATTRIBUTE_RUNTIME ≠ 0)
    (hm : code_type_mask &&& K.METHOD_IMPL_ATTRIBUTE_RUNTIME = K.METHOD_IMPL_ATTRIBUTE_RUNTIME)
    (h : method.iflags &&& K.METHOD_IMPL_ATTRIBUTE_RUNTIME = 0) :
    ¬ runtime_provided K code_type_mask method := by
  intro hr
  unfold runtime_provided at hr
  apply h0
  calc K.METHOD_IMPL_ATTRIBUTE_RUNTIME
      = K.METHOD_IMPL_ATTRIBUTE_RUNTIME &&& K.METHOD_IMPL_ATTRIBUTE_RUNTIME :=
        (Nat.and_self _).symm
    _ = (method.iflags &&& code_type_mask) &&& K.METHOD_IMPL_ATTRIBUTE_RUNTIME := by rw [hr]
    _ = method.iflags &&& (code_type_mask &&& K.METHOD_IMPL_ATTRIBUTE_RUNTIME) :=
        Nat.and_assoc _ _ _
    _ = method.iflags &&& K.METHOD_IMPL_ATTRIBUTE_RUNTIME := by rw [hm]
    _ = 0 := h

theorem aot_eligible_kind (K : Constants) (code_type_mask : Nat) (mono_debug_format : Nat)
    (method : MonoMethod) (debug_info_len : Nat)
    (h0 : K.METHOD_IMPL_ATTRIBUTE_RUNTIME ≠ 0)
    (hm : code_type_mask &&& K.METHOD_IMPL_ATTRIBUTE_RUNTIME = K.METHOD_IMPL_ATTRIBUTE_RUNTIME)
    (h : aot_eligible K mono_debug_format method debug_info_len) :
    kind_eligible K code_type_mask mono_debug_format method debug_info_len := by
  obtain ⟨hf, h1, h2, h3, h4, h5, hl⟩ := h
  exact ⟨hf, h1, not_runtime_provided K code_type_mask method h0 hm h2, h3, h4, h5, hl⟩

theorem code_type_bit_not_eligible (K : Constants) (code_type_mask : Nat)
    (mono_debug_format : Nat) (method : MonoMethod) (debug_info_len : Nat)
    (h : (method.iflags &&& code_type_mask) &&& K.METHOD_IMPL_ATTRIBUTE_RUNTIME ≠ 0) :
    ¬ aot_eligible K mono_debug_format method debug_info_len := by
  intro he
  apply h
  rw [Nat.and_assoc, Nat.and_comm code_type_mask, ← Nat.and_assoc, he.2.2.1, Nat.zero_and]

/-! ## The claims -/

/-- C1 (VarInt round trip).  For every signed 32-bit value `v` and every sequence
`rest` of trailing bytes, `decode_value` applied to the bytes written by
`encode_value v` followed by `rest` returns exactly `v`, and the returned pointer is
the start advanced by exactly the number of bytes that `encode_value` wrote, that
is, it points at `rest`. -/
theorem varint_round_trip (v : Int) (hv : is_gint32 v) (rest : List guint8) :
    decode_value (encode_value v ++ rest)
        = .ok (v, (encode_value v ++ rest).drop (encode_value v).length) ∧
      (encode_value v ++ rest).drop (encode_value v).length = rest := by
  rw [List.drop_left]
  exact ⟨decode_encode_value v hv rest, rfl⟩

/-- Instance of C1 at the value `-8` followed by one trailing byte. -/
theorem varint_round_trip_witness :
    is_gint32 (-8) ∧
      (decode_value (encode_value (-8) ++ [3])
          = .ok (-8, (encode_value (-8) ++ [3]).drop (encode_value (-8)).length) ∧
        (encode_value (-8) ++ [3]).drop (encode_value (-8)).length = [3]) :=
  ⟨by decide, varint_round_trip (-8) (by decide) [3]⟩

/-- C2 (length rule of `encode_value`).  For every value `v` (so for every signed
32-bit value): one byte is written when `0 ≤ v ≤ 127`, two when `128 ≤ v ≤ 16383`,
four when `16384 ≤ v ≤ 0x1fffffff`, and five otherwise; in the last case, so for
every negative `v`, the bytes are `0xFF` followed by the 32-bit two's-complement
pattern of `v` in big-endian order.  The form chosen is the shortest that represents
`v`: whatever bytes `decode_value` reads `v` from, it consumes at least as many as
`encode_value v` writes. -/
theorem encode_value_length_rule (v : Int) :
    (0 ≤ v ∧ v ≤ 127 → (encode_value v).length = 1) ∧
    (128 ≤ v ∧ v ≤ 16383 → (encode_value v).length = 2) ∧
    (16384 ≤ v ∧ v ≤ 0x1fffffff → (encode_value v).length = 4) ∧
    (v < 0 ∨ 0x1fffffff < v →
      (encode_value v).length = 5 ∧
      (encode_value v).map Fin.val
        = [0xff, to_guint32 v / 16777216 % 256, to_guint32 v / 65536 % 256,
            to_guint32 v / 256 % 256, to_guint32 v % 256]) ∧
    (∀ ptr rest : List guint8, decode_value ptr = .ok (v, rest) →
      (encode_value v).length + rest.length ≤ ptr.length) := by
  refine ⟨?_, ?_, ?_, ?_, ?_⟩
  · intro h; rcases encode_value_length_cases v with c | c | c | c <;> omega
  · intro h; rcases encode_value_length_cases v with c | c | c | c <;> omega
  · intro h; rcases encode_value_length_cases v with c | c | c | c <;> omega
  · intro h
    refine ⟨by rcases encode_value_length_cases v with c | c | c | c <;> omega, ?_⟩
    rw [encode_value_form5 v h]
    have hu := to_guint32_cast v
    have e0 := to_guint8_val 255
    have e1 := to_guint8_val (v / 16777216 % 256)
    have e2 := to_guint8_val (v / 65536 % 256)
    have e3 := to_guint8_val (v / 256 % 256)
    have e4 := to_guint8_val (v % 256)
    simp only [List.map_cons, List.map_nil]
    have f0 : (to_guint8 255).val = 0xff := by omega
    have f1 : (to_guint8 (v / 16777216 % 256)).val = to_guint32 v / 16777216 % 256 := by omega
    have f2 : (to_guint8 (v / 65536 % 256)).val = to_guint32 v / 65536 % 256 := by omega
    have f3 : (to_guint8 (v / 256 % 256)).val = to_guint32 v / 256 % 256 := by omega
    have f4 : (to_guint8 (v % 256)).val = to_guint32 v % 256 := by omega
    rw [f0, f1, f2, f3, f4]
  · intro ptr rest h
    have hl := encode_value_length_cases v
    rcases decode_value_ok_cases ptr rest v h with
      ⟨b, hp, hb, hx⟩ | ⟨b, b1, hp, hb, hb2, hx⟩ | ⟨b, b1, b2, b3, hp, hb, hb2, hx⟩ |
      ⟨b, b1, b2, b3, b4, hp, hb, hx⟩
    · subst hp; simp only [List.length_cons]; omega
    · subst hp; have := b1.isLt; simp only [List.length_cons]; omega
    · subst hp; have := b1.isLt; have := b2.isLt; have := b3.isLt
      simp only [List.length_cons]; omega
    · subst hp; simp only [List.length_cons]; omega

/-- Instance of C2: `-8` is written as `FF FF FF FF F8`, and 16383 in two bytes. -/
theorem encode_value_length_rule_witness :
    ((encode_value (-8)).length = 5 ∧
      (encode_value (-8)).map Fin.val
        = [0xff, to_guint32 (-8) / 16777216 % 256, to_guint32 (-8) / 65536 % 256,
            to_guint32 (-8) / 256 % 256, to_guint32 (-8) % 256]) ∧
    (encode_value 16383).length = 2 :=
  ⟨(encode_value_length_rule (-8)).2.2.2.1 (by decide),
    (encode_value_length_rule 16383).2.1 (by decide)⟩

/-- C3 (no `0xFF` collision).  The first byte written by `encode_value v` has its top
bit clear in the 1-byte form, leading bits `10` in the 2-byte form and leading bits
`11` without being `0xFF` in the 4-byte form; it is `0xFF` exactly when the 5-byte
form was chosen; hence for `0 ≤ v ≤ 0x1fffffff` it is never `0xFF`. -/
theorem encode_value_first_byte (v : Int) :
    ∃ (b : guint8) (rest : List guint8), encode_value v = b :: rest ∧
      ((encode_value v).length = 1 → b.val / 128 = 0) ∧
      ((encode_value v).length = 2 → b.val / 64 = 2) ∧
      ((encode_value v).length = 4 → b.val / 64 = 3 ∧ b.val ≠ 0xff) ∧
      (b.val = 0xff ↔ (encode_value v).length = 5) ∧
      (0 ≤ v ∧ v ≤ 0x1fffffff → b.val ≠ 0xff) := by
  by_cases c1 : 0 ≤ v ∧ v ≤ 127
  · have e := encode_value_form1 v c1.1 c1.2
    have hb := to_guint8_val v
    refine ⟨_, _, e, ?_⟩
    rw [e]
    simp only [List.length_cons, List.length_nil, iff_true, iff_false]
    omega
  · by_cases c2 : 0 ≤ v ∧ v ≤ 16383
    · have e := encode_value_form2 v (by omega) c2.2
      have hb := to_guint8_val (128 + v / 256)
      refine ⟨_, _, e, ?_⟩
      rw [e]
      simp only [List.length_cons, List.length_nil, iff_true, iff_false]
      omega
    · by_cases c3 : 0 ≤ v ∧ v ≤ 536870911
      · have e := encode_value_form4 v (by omega) c3.2
        have hb := to_guint8_val (192 + v / 16777216)
        refine ⟨_, _, e, ?_⟩
        rw [e]
        simp only [List.length_cons, List.length_nil, iff_true, iff_false]
        omega
      · have e := encode_value_form5 v (by omega)
        have hb := to_guint8_val 255
        refine ⟨_, _, e, ?_⟩
        rw [e]
        simp only [List.length_cons, List.length_nil, iff_true, iff_false]
        omega

/-- Instance of C3 at the largest 29-bit value, whose first byte is `0xDF`. -/
theorem encode_value_first_byte_witness :
    ∃ (b : guint8) (rest : List guint8), encode_value 0x1fffffff = b :: rest ∧
      ((encode_value 0x1fffffff).length = 1 → b.val / 128 = 0) ∧
      ((encode_value 0x1fffffff).length = 2 → b.val / 64 = 2) ∧
      ((encode_value 0x1fffffff).length = 4 → b.val / 64 = 3 ∧ b.val ≠ 0xff) ∧
      (b.val = 0xff ↔ (encode_value 0x1fffffff).length = 5) ∧
      (0 ≤ (0x1fffffff : Int) ∧ (0x1fffffff : Int) ≤ 0x1fffffff → b.val ≠ 0xff) :=
  encode_value_first_byte 0x1fffffff

/-- C4 (decode tag order).  On a buffer that holds enough bytes `decode_value`
chooses the form from the first byte `b` alone: top bit clear, one byte is consumed
and `b` returned; else next bit clear, two bytes are consumed and the low 14 bits of
their big-endian value returned; else `b` not `0xFF`, four bytes are consumed and the
low 29 bits of their big-endian value returned; else five bytes are consumed and the
32-bit big-endian value of the four bytes after `b` returned, read as a `gint32`. -/
theorem decode_value_tag_order (b : guint8) :
    (b.val / 128 = 0 → ∀ r : List guint8,
      decode_value (b :: r) = .ok ((b.val : Int), r)) ∧
    (b.val / 128 = 1 ∧ b.val / 64 % 2 = 0 → ∀ (b1 : guint8) (r : List guint8),
      decode_value (b :: b1 :: r)
        = .ok ((((b.val * 256 + b1.val) % 16384 : Nat) : Int), r)) ∧
    (b.val / 128 = 1 ∧ b.val / 64 % 2 = 1 ∧ b.val ≠ 0xff →
      ∀ (b1 b2 b3 : guint8) (r : List guint8),
      decode_value (b :: b1 :: b2 :: b3 :: r)
        = .ok ((((b.val * 16777216 + b1.val * 65536 + b2.val * 256 + b3.val)
            % 536870912 : Nat) : Int), r)) ∧
    (b.val = 0xff → ∀ (b1 b2 b3 b4 : guint8) (r : List guint8),
      decode_value (b :: b1 :: b2 :: b3 :: b4 :: r)
        = .ok (to_gint32 (((b1.val * 16777216 + b2.val * 65536 + b3.val * 256
            + b4.val : Nat) : Int)), r)) := by
  have hb := b.isLt
  refine ⟨?_, ?_, ?_, ?_⟩
  · intro h r
    exact decode_value_form1 b r (by omega)
  · intro h b1 r
    have h1 := b1.isLt
    rw [decode_value_form2 b b1 r (by omega) (by omega)]
    refine congrArg (fun x => (Except.ok (x, r) : Except Fault (Int × List guint8))) ?_
    push_cast; omega
  · intro h b1 b2 b3 r
    have h1 := b1.isLt; have h2 := b2.isLt; have h3 := b3.isLt
    rw [decode_value_form4 b b1 b2 b3 r (by omega) h.2.2]
    refine congrArg (fun x => (Except.ok (x, r) : Except Fault (Int × List guint8))) ?_
    push_cast; omega
  · intro h b1 b2 b3 b4 r
    rw [decode_value_form5 b b1 b2 b3 b4 r h]
    refine congrArg (fun x => (Except.ok (x, r) : Except Fault (Int × List guint8))) ?_
    push_cast; rfl

/-- Instance of C4: the 4-byte form with first byte `0xE0` and the 5-byte form. -/
theorem decode_value_tag_order_witness :
    decode_value [0xe0, 1, 2, 3, 9]
        = .ok ((((0xe0 * 16777216 + 1 * 65536 + 2 * 256 + 3) % 536870912 : Nat) : Int), [9]) ∧
      decode_value [0xff, 0xff, 0xff, 0xff, 0xf8, 9]
        = .ok (to_gint32 (((0xff * 16777216 + 0xff * 65536 + 0xff * 256 + 0xf8 : Nat) : Int)),
            [9]) :=
  ⟨(decode_value_tag_order 0xe0).2.2.1 (by decide) 1 2 3 [9],
    (decode_value_tag_order 0xff).2.2.2 (by decide) 0xff 0xff 0xff 0xf8 [9]⟩

/-- C5 (full record round trip).  Take an opened record whose fields are `guint32`
values, whose variable tags are all the register or the register-offset tag, whose
`this_var` is present exactly when the signature has a receiver, and whose `params`
and `locals` have the lengths that the signature and the header declare.  Then the
deserializer applied to a buffer that the serializer has written (followed by any
bytes), for the same method and an injected `code_start`, returns a record with that
`code_start`, the same `epilogue_begin`, `prologue_end` and `code_size`, the same
locations of `params`, `this_var` and `locals` (same tagged `index`; same `offset`
unless the tag is the register tag), and the same `line_numbers` list, for arbitrary
`guint32` offsets in any order.  The serializer does write a buffer as soon as its
size expression does not wrap. -/
theorem record_round_trip (M : AddressModes) (cfg : MonoCompile)
    (info : MiniDebugMethodInfo) (jit : MonoDebugMethodJitInfo) (header : MonoMethodHeader)
    (code_start : Nat) (rest : List guint8)
    (hinfo : cfg.debug_info = some info) (hjit : info.jit = some jit)
    (hh : cfg.method.header = some header)
    (hr : jit_in_range jit) (hv : jit_valid_tags M jit)
    (hthis : jit.this_var.isSome = cfg.method.signature.hasthis)
    (hp : jit.params.length = cfg.method.signature.param_count)
    (hl : jit.locals.length = header.num_locals) :
    (∀ (buf : List guint8) (buf_len : Nat),
      mono_debug_serialize_debug_info M cfg = .ok (some buf, buf_len) →
      deserialize_debug_info M cfg.method code_start (buf ++ rest) buf_len
        = .ok { code_start := code_start
                code_size := jit.code_size
                prologue_end := jit.prologue_end
                epilogue_begin := jit.epilogue_begin
                line_numbers := jit.line_numbers
                this_var := jit.this_var.map (location M)
                params := jit.params.map (location M)
                locals := jit.locals.map (location M) }) ∧
    (allocated_size jit < 4294967296 →
      ∃ buf, mono_debug_serialize_debug_info M cfg = .ok (some buf, buf.length)) ∧
    (∀ var : MonoDebugVarInfo, (location M var).index = var.index ∧
      (var.index &&& M.flags ≠ M.register → (location M var).offset = var.offset)) := by
  have hthis2 : cfg.method.signature.hasthis = true → jit.this_var.isSome = true :=
    fun h => by rw [hthis]; exact h
  refine ⟨?_, ?_, location_index M⟩
  · intro buf buf_len h
    rw [serialize_opened M cfg info jit hinfo hjit hv.1 (fun v hm _ => hv.2.1 v hm) hv.2.2
      hthis2] at h
    by_cases c : (wire_layout M cfg.method.signature.hasthis jit).length < serialize_size jit
    · rw [if_pos c] at h
      have e := Except.ok.inj h
      have e1 : wire_layout M cfg.method.signature.hasthis jit = buf :=
        Option.some.inj (congrArg Prod.fst e)
      rw [← e1]
      exact deserialize_wire_layout M cfg.method header code_start _ jit rest hh hr hv hthis
        hp hl
    · rw [if_neg c] at h
      exact Except.noConfusion h
  · intro hsize
    exact ⟨_, serialize_eq_wire_layout M cfg info jit hinfo hjit hv hthis2 hsize⟩

/-- Instance of C5: the example record of the specification, whose line table is
`[(0,0),(3,4),(1,10),(10,14)]`, with `code_start` 77. -/
theorem record_round_trip_witness :
    jit_in_range example_jit ∧ jit_valid_tags example_modes example_jit ∧
    mono_debug_serialize_debug_info example_modes
        (example_cfg (example_method true 2) example_jit) = .ok (some example_bytes, 27) ∧
    deserialize_debug_info example_modes (example_method true 2) 77 (example_bytes ++ []) 27
      = .ok { code_start := 77
              code_size := 20
              prologue_end := 2
              epilogue_begin := 14
              line_numbers := [⟨0, 0⟩, ⟨3, 4⟩, ⟨1, 10⟩, ⟨10, 14⟩]
              this_var := (some ⟨0, 0⟩ : Option MonoDebugVarInfo).map (location example_modes)
              params := [⟨0x10000005, to_guint32 (-8)⟩, ⟨2, 0⟩].map (location example_modes)
              locals := ([] : List MonoDebugVarInfo).map (location example_modes) } :=
  ⟨by decide, by decide, by decide,
    (record_round_trip example_modes (example_cfg (example_method true 2) example_jit)
      { jit := some example_jit, line_numbers := [], has_line_numbers := 1, breakpoint_id := 0 }
      example_jit { code := 0, code_size := 11, num_locals := 0 } 77 [] rfl rfl rfl
      (by decide) (by decide) rfl rfl rfl).1 example_bytes 27 (by decide)⟩

/-- C6 (variable-location round trip).  For a variable whose tag is the register tag
`serialize_variable` writes one VarInt, and `deserialize_variable` on these bytes
followed by any `rest` returns the same tagged `index` (mode and register) and
leaves the pointer on `rest`; for a variable whose tag is the register-offset tag
it writes two VarInts, and `deserialize_variable` returns the same `index` (mode
and base register) and the same `offset`, whatever its sign bit, and leaves the
pointer on `rest`.  In both cases the pointer has advanced by exactly the number
of bytes written. -/
theorem variable_round_trip (M : AddressModes) (var var0 : MonoDebugVarInfo)
    (hr : var_in_range var) (rest : List guint8) :
    (var.index &&& M.flags = M.register →
      ∃ w, serialize_variable M var = .ok w ∧
        w = encode_value (to_gint32 var.index) ∧
        deserialize_variable M var0 (w ++ rest)
          = .ok ({ var0 with index := var.index }, (w ++ rest).drop w.length) ∧
        (w ++ rest).drop w.length = rest) ∧
    (var.index &&& M.flags = M.regoffset → M.regoffset ≠ M.register →
      ∃ w, serialize_variable M var = .ok w ∧
        w = encode_value (to_gint32 var.index) ++ encode_value (to_gint32 var.offset) ∧
        deserialize_variable M var0 (w ++ rest)
          = .ok ({ index := var.index, offset := var.offset }, (w ++ rest).drop w.length) ∧
        (w ++ rest).drop w.length = rest) := by
  constructor
  · intro h
    have hv : valid_address_mode M var := Or.inl h
    have e := deserialize_variable_encoding M var var0 hr hv rest
    have s := serialize_variable_valid M var hv
    unfold variable_encoding at e s
    rw [if_pos h] at e s
    rw [if_pos h] at e
    exact ⟨_, s, rfl, by rw [List.drop_left]; exact e, List.drop_left _ _⟩
  · intro h hne
    have hv : valid_address_mode M var := Or.inr h
    have c : ¬ (var.index &&& M.flags = M.register) := fun e => hne (h.symm.trans e)
    have e := deserialize_variable_encoding M var var0 hr hv rest
    have s := serialize_variable_valid M var hv
    unfold variable_encoding at e s
    rw [if_neg c] at e s
    rw [if_neg c] at e
    exact ⟨_, s, rfl, by rw [List.drop_left]; exact e, List.drop_left _ _⟩

/-- Instance of C6: the register-offset location with base register 5 and offset `-8`,
and the register location 2. -/
theorem variable_round_trip_witness :
    var_in_range ⟨0x10000005, to_guint32 (-8)⟩ ∧ var_in_range ⟨2, 0⟩ ∧
    (∃ w, serialize_variable example_modes ⟨0x10000005, to_guint32 (-8)⟩ = .ok w ∧
      w = encode_value (to_gint32 (0x10000005 : Nat))
        ++ encode_value (to_gint32 (to_guint32 (-8) : Nat)) ∧
      deserialize_variable example_modes ⟨0, 0⟩ (w ++ [7])
        = .ok ({ index := 0x10000005, offset := to_guint32 (-8) }, (w ++ [7]).drop w.length) ∧
      (w ++ [7]).drop w.length = [7]) ∧
    (∃ w, serialize_variable example_modes ⟨2, 0⟩ = .ok w ∧
      w = encode_value (to_gint32 (2 : Nat)) ∧
      deserialize_variable example_modes ⟨0, 0⟩ (w ++ [7])
        = .ok ({ index := 2, offset := 0 }, (w ++ [7]).drop w.length) ∧
      (w ++ [7]).drop w.length = [7]) :=
  ⟨by decide, by decide,
    (variable_round_trip example_modes ⟨0x10000005, to_guint32 (-8)⟩ ⟨0, 0⟩ (by decide) [7]).2
      (by decide) (by decide),
    (variable_round_trip example_modes ⟨2, 0⟩ ⟨0, 0⟩ (by decide) [7]).1 (by decide)⟩

/-- C7, the claim as stated fails.  The serializer writes `example_bytes` for the
example record, which has two parameters; the deserializer, called on these bytes
for a method that declares three parameters, does not fail. -/
theorem shape_mismatch_not_rejected :
    mono_debug_serialize_debug_info example_modes
        (example_cfg (example_method true 2) example_jit) = .ok (some example_bytes, 27) ∧
    example_jit.params.length = 2 ∧
    (example_method true 3).signature.param_count = 3 ∧
    ¬ ∃ f : Fault, deserialize_debug_info example_modes (example_method true 3) 0
        example_bytes 27 = .error f := by
  refine ⟨by decide, rfl, rfl, ?_⟩
  rintro ⟨f, hf⟩
  have h : (deserialize_debug_info example_modes (example_method true 3) 0
      example_bytes 27).toBool = true := by decide
  rw [hf] at h
  exact Bool.noConfusion h

/-- C7, amended.  `deserialize_debug_info` never compares the shape with the bytes, and
never reads `buf_len`: its result is the same for every `buf_len`.  Take a record with
`guint32` fields that the serializer has written, and a method that declares more
parameters than the record has.  If the deserializer, called for that method on the
written bytes followed by any bytes, returns a record, then the record has the
declared number of parameters, its first parameters are the locations of the written
ones, its three scalars are the written ones, and its next parameter is what
`deserialize_variable` decodes from the bytes that follow the parameters in the
buffer.  If it does not return, it has read outside the bytes or failed an assertion:
that of the header, or that of the tag on a decoded `index`.  Both happen.  On the bytes
of the example record (two parameters) and a method that declares three parameters it
returns a record: the third parameter is the register location 0 read from the byte of
`this_var`, `this_var` is read from the byte of the line count, and the line table is
empty.  On the bytes of `bare_jit` (two parameters, nothing after them but the line
count) and a method that declares three parameters it reads outside the buffer. -/
theorem shape_mismatch_behaviour (M : AddressModes) (cfg : MonoCompile)
    (info : MiniDebugMethodInfo) (jit : MonoDebugMethodJitInfo) (method : MonoMethod)
    (code_start : Nat) (rest : List guint8)
    (hinfo : cfg.debug_info = some info) (hjit : info.jit = some jit)
    (hr : jit_in_range jit)
    (hp : jit.params.length < method.signature.param_count) :
    (∀ (buf : List guint8) (buf_len : Nat),
      mono_debug_serialize_debug_info M cfg = .ok (some buf, buf_len) →
      (∀ jit2, deserialize_debug_info M method code_start (buf ++ rest) buf_len = .ok jit2 →
        jit2.params.length = method.signature.param_count ∧
        jit2.params.take jit.params.length = jit.params.map (location M) ∧
        jit2.epilogue_begin = jit.epilogue_begin ∧
        jit2.prologue_end = jit.prologue_end ∧
        jit2.code_size = jit.code_size ∧
        ∃ third q,
          deserialize_variable M ⟨0, 0⟩
            (after_params M cfg.method.signature.hasthis jit ++ rest) = .ok (third, q) ∧
          jit2.params.get? jit.params.length = some third) ∧
      (∀ f, deserialize_debug_info M method code_start (buf ++ rest) buf_len = .error f →
        f = .out_of_bounds ∨
        (f = .assertion_failed ∧
          (method.header = none ∨
            ∃ (q : List guint8) (v : Int) (r : List guint8), q <:+ buf ++ rest ∧
              decode_value q = .ok (v, r) ∧
              ¬ valid_address_mode M ⟨to_guint32 v, 0⟩)))) ∧
    (∀ (bytes : List guint8) (len len2 : Nat),
      deserialize_debug_info M method code_start bytes len2
        = deserialize_debug_info M method code_start bytes len) ∧
    deserialize_debug_info example_modes (example_method true 3) 0 example_bytes 27
      = .ok { code_start := 0, code_size := 20, prologue_end := 2, epilogue_begin := 14,
              line_numbers := [],
              this_var := some ⟨4, 0⟩,
              params := [⟨0x10000005, to_guint32 (-8)⟩, ⟨2, 0⟩, ⟨0, 0⟩],
              locals := [] } ∧
    mono_debug_serialize_debug_info example_modes
        (example_cfg (example_method false 2) bare_jit) = .ok (some [0, 0, 0, 1, 2, 0], 6) ∧
    deserialize_debug_info example_modes (example_method false 3) 0 [0, 0, 0, 1, 2, 0] 6
      = .error .out_of_bounds := by
  refine ⟨?_, fun _ _ _ => rfl, by decide, by decide, by decide⟩
  intro buf buf_len hser
  obtain ⟨vp, vt, vl, hthis2⟩ := serialize_ok_valid M cfg info jit hinfo hjit _ hser
  rw [serialize_opened M cfg info jit hinfo hjit vp vt vl hthis2] at hser
  by_cases c : (wire_layout M cfg.method.signature.hasthis jit).length < serialize_size jit
  · rw [if_pos c] at hser
    have e := Except.ok.inj hser
    have e1 : wire_layout M cfg.method.signature.hasthis jit = buf :=
      Option.some.inj (congrArg Prod.fst e)
    rw [← e1]
    refine ⟨?_, ?_⟩
    · intro jit2 hd
      rw [wire_layout_split] at hd
      obtain ⟨r1, r2, r3, rp, _⟩ := hr
      have hp2 : (jit.params.map (location M)).length < method.signature.param_count := by
        rw [List.length_map]; exact hp
      have key := deserialize_more_flow M method code_start buf_len _ _ _ _ _
        (to_gint32 jit.epilogue_begin) (to_gint32 jit.prologue_end) (to_gint32 jit.code_size)
        (jit.params.map (location M)) jit2
        (fun r => decode_encode_value _ (is_gint32_to_gint32 _) r)
        (fun r => decode_encode_value _ (is_gint32_to_gint32 _) r)
        (fun r => decode_encode_value _ (is_gint32_to_gint32 _) r)
        (fun r => by
          rw [List.length_map]
          exact deserialize_variables_encoding M jit.params rp vp r)
        hp2 hd
      obtain ⟨k1, k2, k3, k4, k5, third, q, k6, k7⟩ := key
      rw [List.length_map] at k2 k7
      exact ⟨k1, k2, by rw [k3]; exact to_guint32_to_gint32_nat _ r3,
        by rw [k4]; exact to_guint32_to_gint32_nat _ r2,
        by rw [k5]; exact to_guint32_to_gint32_nat _ r1, third, q, k6, k7⟩
    · intro f hf
      exact deserialize_error_cases M method code_start _ buf_len f hf
  · rw [if_neg c] at hser
    exact Except.noConfusion hser

/-- Instance of C7, amended: the example record, written for two parameters and read
for three. -/
theorem shape_mismatch_behaviour_witness :
    jit_in_range example_jit ∧
    example_jit.params.length < (example_method true 3).signature.param_count ∧
    mono_debug_serialize_debug_info example_modes
        (example_cfg (example_method true 2) example_jit) = .ok (some example_bytes, 27) ∧
    deserialize_debug_info example_modes (example_method true 3) 0 (example_bytes ++ []) 27
      = .ok { code_start := 0, code_size := 20, prologue_end := 2, epilogue_begin := 14,
              line_numbers := [],
              this_var := some ⟨4, 0⟩,
              params := [⟨0x10000005, to_guint32 (-8)⟩, ⟨2, 0⟩, ⟨0, 0⟩],
              locals := [] } ∧
    ([⟨0x10000005, to_guint32 (-8)⟩, ⟨2, 0⟩, ⟨0, 0⟩] : List MonoDebugVarInfo).take
        example_jit.params.length = example_jit.params.map (location example_modes) ∧
    deserialize_variable example_modes ⟨0, 0⟩
        (after_params example_modes true example_jit ++ []) = .ok (⟨0, 0⟩, [4, 0, 0, 3, 4,
          0xff, 0xff, 0xff, 0xff, 0xfe, 6, 9, 4]) :=
  ⟨by decide, by decide, by decide, by decide,
    (((shape_mismatch_behaviour example_modes (example_cfg (example_method true 2) example_jit)
      { jit := some example_jit, line_numbers := [], has_line_numbers := 1, breakpoint_id := 0 }
      example_jit (example_method true 3) 0 [] rfl rfl (by decide) (by decide)).1
      example_bytes 27 (by decide)).1
      { code_start := 0, code_size := 20, prologue_end := 2, epilogue_begin := 14,
        line_numbers := [],
        this_var := some ⟨4, 0⟩,
        params := [⟨0x10000005, to_guint32 (-8)⟩, ⟨2, 0⟩, ⟨0, 0⟩],
        locals := [] } (by decide)).2.1,
    by decide⟩

/-- C8 (tag validation).  `serialize_variable` fails, with the assertion, exactly when
the flag bits of `index` are neither the register tag nor the register-offset tag.
`deserialize_variable`, once the first VarInt has been read, fails with the
assertion exactly when the flag bits of the decoded `index` are neither tag; for
the register tag it succeeds and has consumed exactly that one VarInt; for the
register-offset tag it succeeds as soon as a second VarInt can be read and has
consumed exactly the two.  An unknown tag therefore never yields a variable. -/
theorem tag_validation (M : AddressModes) (var var0 : MonoDebugVarInfo)
    (p p1 : List guint8) (v : Int) (hd : decode_value p = .ok (v, p1)) :
    (serialize_variable M var = .error .assertion_failed ↔ ¬ valid_address_mode M var) ∧
    (deserialize_variable M var0 p = .error .assertion_failed
      ↔ ¬ valid_address_mode M { var0 with index := to_guint32 v }) ∧
    (to_guint32 v &&& M.flags = M.register →
      deserialize_variable M var0 p = .ok ({ var0 with index := to_guint32 v }, p1)) ∧
    (to_guint32 v &&& M.flags = M.regoffset → M.regoffset ≠ M.register →
      ∀ (o : Int) (p2 : List guint8), decode_value p1 = .ok (o, p2) →
        deserialize_variable M var0 p
          = .ok ({ index := to_guint32 v, offset := to_guint32 o }, p2)) := by
  have step := deserialize_variable_step M var0 p p1 v hd
  refine ⟨?_, ?_, ?_, ?_⟩
  · constructor
    · intro h hv
      rw [serialize_variable_valid M var hv] at h
      exact Except.noConfusion h
    · exact serialize_variable_invalid M var
  · unfold valid_address_mode
    show _ ↔ ¬ (to_guint32 v &&& M.flags = M.register ∨ to_guint32 v &&& M.flags = M.regoffset)
    rw [step]
    by_cases c : to_guint32 v &&& M.flags = M.register
    · rw [if_pos c]
      constructor
      · intro h; exact Except.noConfusion h
      · intro h; exact absurd (Or.inl c) h
    · rw [if_neg c]
      by_cases c2 : to_guint32 v &&& M.flags = M.regoffset
      · rw [if_pos c2]
        constructor
        · intro h
          rcases decode_value_total p1 with ⟨x, r, e⟩ | e
          · rw [e] at h; exact Except.noConfusion h
          · rw [e] at h
            injection h with h
            exact Fault.noConfusion h
        · intro h; exact absurd (Or.inr c2) h
      · rw [if_neg c2]
        constructor
        · intro _ h; rcases h with h | h
          · exact c h
          · exact c2 h
        · intro _; rfl
  · intro c
    rw [step, if_pos c]
  · intro c2 hne o p2 h2
    have c : ¬ (to_guint32 v &&& M.flags = M.register) := fun e => hne (c2.symm.trans e)
    rw [step, if_neg c, if_pos c2, h2]

/-- Instance of C8: the index `0x20000003` carries an unknown tag and is refused in
both directions. -/
theorem tag_validation_witness :
    decode_value [0xff, 0x20, 0, 0, 3, 9] = .ok (0x20000003, [9]) ∧
    serialize_variable example_modes ⟨0x20000003, 0⟩ = .error .assertion_failed ∧
    deserialize_variable example_modes ⟨0, 0⟩ [0xff, 0x20, 0, 0, 3, 9]
      = .error .assertion_failed :=
  ⟨by decide,
    (tag_validation example_modes ⟨0x20000003, 0⟩ ⟨0, 0⟩ [0xff, 0x20, 0, 0, 3, 9] [9]
      0x20000003 (by decide)).1.2 (by decide),
    (tag_validation example_modes ⟨0x20000003, 0⟩ ⟨0, 0⟩ [0xff, 0x20, 0, 0, 3, 9] [9]
      0x20000003 (by decide)).2.1.2 (by decide)⟩

/-- C9 (wire layout).  For every opened record, a buffer that the serializer produces
is exactly the wire layout: the VarInts of `epilogue_begin`, `prologue_end` and
`code_size`, the variable encoding of every parameter in index order, that of
`this_var` exactly when the signature has a receiver, that of every local in index
order, the VarInt of the number of line entries, and for each line entry in order the
VarInts of the differences of its `il_offset` and of its `native_offset` to those of
the entry before (0 and 0 before the first), taken as signed 32-bit values; the
reported length is the length of that buffer.  The serializer does produce it when
the tags are valid, the receiver variable is present if the signature has a receiver,
and the size expression does not wrap. -/
theorem serialize_wire_layout (M : AddressModes) (cfg : MonoCompile)
    (info : MiniDebugMethodInfo) (jit : MonoDebugMethodJitInfo)
    (hinfo : cfg.debug_info = some info) (hjit : info.jit = some jit) :
    (∀ res, mono_debug_serialize_debug_info M cfg = .ok res →
      res = (some (wire_layout M cfg.method.signature.hasthis jit),
        (wire_layout M cfg.method.signature.hasthis jit).length)) ∧
    (jit_valid_tags M jit →
      (cfg.method.signature.hasthis = true → jit.this_var.isSome = true) →
      allocated_size jit < 4294967296 →
      mono_debug_serialize_debug_info M cfg
        = .ok (some (wire_layout M cfg.method.signature.hasthis jit),
            (wire_layout M cfg.method.signature.hasthis jit).length)) := by
  constructor
  · intro res h
    obtain ⟨vp, vt, vl, hthis⟩ := serialize_ok_valid M cfg info jit hinfo hjit res h
    rw [serialize_opened M cfg info jit hinfo hjit vp vt vl hthis] at h
    by_cases c : (wire_layout M cfg.method.signature.hasthis jit).length < serialize_size jit
    · rw [if_pos c] at h
      exact (Except.ok.inj h).symm
    · rw [if_neg c] at h
      exact Except.noConfusion h
  · intro hv hthis hsize
    exact serialize_eq_wire_layout M cfg info jit hinfo hjit hv hthis hsize

/-- Instance of C9: the wire layout of the example record is `example_bytes`. -/
theorem serialize_wire_layout_witness :
    jit_valid_tags example_modes example_jit ∧ allocated_size example_jit < 4294967296 ∧
    wire_layout example_modes true example_jit = example_bytes ∧
    mono_debug_serialize_debug_info example_modes
        (example_cfg (example_method true 2) example_jit)
      = .ok (some (wire_layout example_modes true example_jit),
          (wire_layout example_modes true example_jit).length) :=
  ⟨by decide, by decide, by decide,
    (serialize_wire_layout example_modes (example_cfg (example_method true 2) example_jit)
      { jit := some example_jit, line_numbers := [], has_line_numbers := 1, breakpoint_id := 0 }
      example_jit rfl rfl).2 (by decide) (fun _ => rfl) (by decide)⟩

/-- C10 (serializer capacity).  For every opened record with valid tags, a receiver
variable when the signature has one, and counts for which the 32-bit size expression
`(num_params + num_locals + 1) * 10 + num_line_numbers * 10 + 64` does not wrap, the
serializer succeeds, the allocated size is the value of that expression, and the
number of bytes written is strictly smaller; so the capacity assertion holds and no
byte is written outside the allocation. -/
theorem serializer_capacity (M : AddressModes) (cfg : MonoCompile)
    (info : MiniDebugMethodInfo) (jit : MonoDebugMethodJitInfo)
    (hinfo : cfg.debug_info = some info) (hjit : info.jit = some jit)
    (hv : jit_valid_tags M jit)
    (hthis : cfg.method.signature.hasthis = true → jit.this_var.isSome = true)
    (hsize : (jit.params.length + jit.locals.length + 1) * 10
      + jit.line_numbers.length * 10 + 64 < 4294967296) :
    ∃ buf, mono_debug_serialize_debug_info M cfg = .ok (some buf, buf.length) ∧
      serialize_size jit = (jit.params.length + jit.locals.length + 1) * 10
        + jit.line_numbers.length * 10 + 64 ∧
      buf.length < (jit.params.length + jit.locals.length + 1) * 10
        + jit.line_numbers.length * 10 + 64 := by
  have hlen := wire_layout_length M cfg.method.signature.hasthis jit
  unfold allocated_size at hlen
  exact ⟨_, serialize_eq_wire_layout M cfg info jit hinfo hjit hv hthis hsize,
    serialize_size_eq jit hsize, by omega⟩

/-- Instance of C10: the example record, 27 bytes written into 104 allocated. -/
theorem serializer_capacity_witness :
    jit_valid_tags example_modes example_jit ∧
    ∃ buf, mono_debug_serialize_debug_info example_modes
        (example_cfg (example_method true 2) example_jit) = .ok (some buf, buf.length) ∧
      serialize_size example_jit = (example_jit.params.length + example_jit.locals.length + 1)
        * 10 + example_jit.line_numbers.length * 10 + 64 ∧
      buf.length < (example_jit.params.length + example_jit.locals.length + 1) * 10
        + example_jit.line_numbers.length * 10 + 64 :=
  ⟨by decide,
    serializer_capacity example_modes (example_cfg (example_method true 2) example_jit)
      { jit := some example_jit, line_numbers := [], has_line_numbers := 1, breakpoint_id := 0 }
      example_jit rfl rfl (by decide) (fun _ => rfl) (by decide)⟩

/-- C11 (first-line latch).  On a session that `mono_debug_init_method` and
`mono_debug_open_method` have just opened, `prologue_end` is 0 and the line table is
empty.  After any run of accepted calls of `mono_debug_record_line_number`,
`prologue_end` is the native address of the first call of the run (0 for the empty
run), whatever the addresses of the later calls, and the line table holds one entry
`(il_offset, native_offset)` per call, in call order.  One accepted call on any opened
session appends exactly its entry at the end of the line table, and sets
`prologue_end` to its address only if nothing had been recorded before. -/
theorem first_line_latch (K : Constants) (mono_debug_format : Nat) (cfg : MonoCompile)
    (start_block breakpoint_id : Nat) (header : MonoMethodHeader)
    (calls : List (MonoInst × Nat))
    (hf : mono_debug_format ≠ K.MONO_DEBUG_FORMAT_NONE)
    (hh : cfg.method.header = some header) (hs : is_guint32 header.code_size)
    (hacc : ∀ call ∈ calls, accepted header call.1) :
    (∃ opened info jit,
      mono_debug_open_method
        (mono_debug_init_method K mono_debug_format cfg start_block breakpoint_id)
        = .ok opened ∧
      opened.debug_info = some info ∧ info.jit = some jit ∧
      jit.prologue_end = 0 ∧ info.line_numbers = []) ∧
    (∃ cfg2 info2 jit2,
      recording_session K mono_debug_format cfg start_block breakpoint_id calls = .ok cfg2 ∧
      cfg2.debug_info = some info2 ∧ info2.jit = some jit2 ∧
      jit2.prologue_end = ((calls.head?).map Prod.snd).getD 0 ∧
      info2.line_numbers = calls.map (line_entry_of header)) ∧
    (∀ (cfg2 : MonoCompile) (info2 : MiniDebugMethodInfo) (jit2 : MonoDebugMethodJitInfo)
      (ins : MonoInst) (address : Nat),
      cfg2.debug_info = some info2 → info2.jit = some jit2 →
      cfg2.method.header = some header → accepted header ins →
      ∃ cfg3 info3 jit3,
        mono_debug_record_line_number cfg2 ins address = .ok cfg3 ∧
        cfg3.debug_info = some info3 ∧ info3.jit = some jit3 ∧
        info3.line_numbers = info2.line_numbers ++ [line_entry_of header (ins, address)] ∧
        jit3.prologue_end
          = (if info2.has_line_numbers = 0 then address else jit2.prologue_end)) := by
  refine ⟨?_, ?_, ?_⟩
  · exact ⟨_, _, _,
      open_after_init K mono_debug_format cfg start_block breakpoint_id header hf hh,
      rfl, rfl, rfl, rfl⟩
  · have run := session_run K mono_debug_format cfg start_block breakpoint_id header calls
      hf hh hs
    rw [filter_accepted_all header calls hacc] at run
    exact ⟨_, _, _, run, rfl, rfl, rfl, rfl⟩
  · intro cfg2 info2 jit2 ins address hinfo hjit hh2 ha
    obtain ⟨c, hc, h1, h2⟩ := (accepted_iff header ins).1 ha
    have step := record_accepted cfg2 info2 jit2 header ins address c hinfo hjit hh2 hc h1 h2
    have e := line_entry_of_accepted header ins address c hs hc h1 h2
    by_cases hl : info2.has_line_numbers = 0
    · rw [if_pos hl] at step
      rw [if_pos hl]
      exact ⟨_, _, _, step, rfl, rfl, by rw [← e]; rfl, rfl⟩
    · rw [if_neg hl] at step
      rw [if_neg hl]
      exact ⟨_, _, _, step, rfl, hjit, by rw [← e]; rfl, rfl⟩

/-- Instance of C11: three accepted calls, the last with the smallest address. -/
theorem first_line_latch_witness :
    (1 : Nat) ≠ example_constants.MONO_DEBUG_FORMAT_NONE ∧
    (∀ call ∈ [(example_ins 0, 2), (example_ins 3, 4), (example_ins 1, 1)],
      accepted { code := 1000, code_size := 11, num_locals := 0 } call.1) ∧
    ∃ cfg2 info2 jit2,
      recording_session example_constants 1 (example_compile example_wrapper) 0 5
        [(example_ins 0, 2), (example_ins 3, 4), (example_ins 1, 1)] = .ok cfg2 ∧
      cfg2.debug_info = some info2 ∧ info2.jit = some jit2 ∧
      jit2.prologue_end
        = (([(example_ins 0, 2), (example_ins 3, 4), (example_ins 1, 1)].head?).map
            Prod.snd).getD 0 ∧
      info2.line_numbers
        = [(example_ins 0, 2), (example_ins 3, 4), (example_ins 1, 1)].map
            (line_entry_of { code := 1000, code_size := 11, num_locals := 0 }) :=
  ⟨by decide, by decide,
    (first_line_latch example_constants 1 (example_compile example_wrapper) 0 5
      { code := 1000, code_size := 11, num_locals := 0 }
      [(example_ins 0, 2), (example_ins 3, 4), (example_ins 1, 1)]
      (by decide) rfl (by decide) (by decide)).2.1⟩

/-- C12 (close finalization).  For every opened session, the record that
`mono_debug_close_method` hands to the registry has `code_size` equal to the code
length of the compiler and `epilogue_begin` equal to its epilogue start, and its line
table is the line table recorded so far, unchanged and in order, followed by exactly
one entry whose `il_offset` is the IL code size of the header and whose
`native_offset` is `epilogue_begin`.  The close succeeds when `cfg->varinfo` holds the
variables that it reads.  After a session of accepted calls the line table has one
entry per call and the final entry, so its length is the number of calls plus one. -/
theorem close_finalization (K : Constants) (M : AddressModes) (W : World)
    (cfg : MonoCompile) (info : MiniDebugMethodInfo) (jit : MonoDebugMethodJitInfo)
    (header : MonoMethodHeader)
    (hinfo : cfg.debug_info = some info) (hjit : info.jit = some jit)
    (hh : cfg.method.header = some header) :
    (∀ W2, mono_debug_close_method K M W cfg = .ok W2 →
      ∃ record : MonoDebugMethodJitInfo,
        W2.registry = W.registry ++ [(cfg.method, record, cfg.domain)] ∧
        record.code_size = cfg.code_len ∧
        record.epilogue_begin = cfg.epilog_begin ∧
        record.line_numbers = info.line_numbers ++ [⟨header.code_size, cfg.epilog_begin⟩] ∧
        record.line_numbers.length = info.line_numbers.length + 1) ∧
    (cfg.locals_start + jit.locals.length ≤ cfg.varinfo.length →
      cfg.method.signature.hasthis.toNat + cfg.method.signature.param_count
        ≤ cfg.varinfo.length →
      (cfg.method.signature.hasthis = true → 0 < cfg.varinfo.length) →
      ∃ W2, mono_debug_close_method K M W cfg = .ok W2) ∧
    (∀ (mono_debug_format start_block breakpoint_id : Nat) (calls : List (MonoInst × Nat))
      (cfg0 cfg2 : MonoCompile) (W2 : World),
      mono_debug_format ≠ K.MONO_DEBUG_FORMAT_NONE → cfg0.method.header = some header →
      is_guint32 header.code_size → (∀ call ∈ calls, accepted header call.1) →
      recording_session K mono_debug_format cfg0 start_block breakpoint_id calls = .ok cfg2 →
      mono_debug_close_method K M W cfg2 = .ok W2 →
      ∃ record : MonoDebugMethodJitInfo,
        W2.registry = W.registry ++ [(cfg0.method, record, cfg0.domain)] ∧
        record.line_numbers
          = calls.map (line_entry_of header) ++ [⟨header.code_size, cfg0.epilog_begin⟩] ∧
        record.line_numbers.length = calls.length + 1) := by
  refine ⟨?_, ?_, ?_⟩
  · intro W2 h
    obtain ⟨locals, this_var, params, e, _, _⟩ :=
      close_ok_inv K M W W2 cfg info jit header hinfo hjit hh h
    rw [e]
    refine ⟨_, rfl, rfl, rfl, rfl, ?_⟩
    simp only [closed_record, List.length_append, List.length_cons, List.length_nil]
  · intro hl hp ht
    exact close_ok K M W cfg info jit header hinfo hjit hh hl hp ht
  · intro mono_debug_format start_block breakpoint_id calls cfg0 cfg2 W2 hf hh0 hs hacc hrun
      hclose
    obtain ⟨cfg3, info3, jit3, hrun3, hi, hj, hm, hd, he, _, _, _, _, _, hln, _, _⟩ :=
      session_state K mono_debug_format cfg0 start_block breakpoint_id header calls hf hh0 hs
    rw [hrun] at hrun3
    have e2 := Except.ok.inj hrun3
    subst e2
    rw [filter_accepted_all header calls hacc] at hln
    obtain ⟨locals, this_var, params, e, _, _⟩ :=
      close_ok_inv K M W W2 cfg2 info3 jit3 header hi hj (by rw [hm]; exact hh0) hclose
    rw [e]
    refine ⟨_, by rw [← hm, ← hd]; rfl, by rw [← hln, ← he]; rfl, ?_⟩
    simp only [closed_record, List.length_append, List.length_cons, List.length_nil, hln,
      List.length_map]

/-- Instance of C12: the session of the example wrapper, closed after three recorded
entries, registers a line table of four entries. -/
theorem close_finalization_witness :
    ∃ W2, mono_debug_close_method example_constants example_modes ⟨[], []⟩ example_opened
        = .ok W2 ∧
      ∃ record : MonoDebugMethodJitInfo,
        W2.registry = ([] : List (MonoMethod × MonoDebugMethodJitInfo × Nat))
          ++ [(example_wrapper, record, 7)] ∧
        record.code_size = 20 ∧
        record.epilogue_begin = 14 ∧
        record.line_numbers = [⟨0, 2⟩, ⟨3, 4⟩, ⟨1, 1⟩] ++ [⟨11, 14⟩] ∧
        record.line_numbers.length = 3 + 1 :=
  match (close_finalization example_constants example_modes ⟨[], []⟩ example_opened
      { jit := some { opened_jit { code := 1000, code_size := 11, num_locals := 0 } with
                  prologue_end := 2 },
        line_numbers := [⟨0, 2⟩, ⟨3, 4⟩, ⟨1, 1⟩], has_line_numbers := 1, breakpoint_id := 5 }
      { opened_jit { code := 1000, code_size := 11, num_locals := 0 } with prologue_end := 2 }
      { code := 1000, code_size := 11, num_locals := 0 } rfl rfl rfl).2.1
      (by decide) (by decide) (by decide) with
  | ⟨W2, h⟩ =>
    ⟨W2, h, (close_finalization example_constants example_modes ⟨[], []⟩ example_opened
      { jit := some { opened_jit { code := 1000, code_size := 11, num_locals := 0 } with
                  prologue_end := 2 },
        line_numbers := [⟨0, 2⟩, ⟨3, 4⟩, ⟨1, 1⟩], has_line_numbers := 1, breakpoint_id := 5 }
      { opened_jit { code := 1000, code_size := 11, num_locals := 0 } with prologue_end := 2 }
      { code := 1000, code_size := 11, num_locals := 0 } rfl rfl rfl).1 W2 h⟩

/-- C13 (empty debug info).  For every compile context whose debug session was never
initialised (`cfg->debug_info` is null) or never opened (`info->jit` is null),
`mono_debug_serialize_debug_info` stores 0 in `*buf_len` and writes no buffer; this is
the state after `mono_debug_init_method` alone.  `mono_debug_add_aot_method` with
`debug_info_len` 0 returns without fault and leaves the registry as it was, whatever
the other arguments and whatever lies at `debug_info`. -/
theorem empty_debug_info (K : Constants) (M : AddressModes) (cfg : MonoCompile)
    (h : cfg.debug_info = none ∨ ∃ info, cfg.debug_info = some info ∧ info.jit = none) :
    mono_debug_serialize_debug_info M cfg = .ok (none, 0) ∧
    (∀ mono_debug_format start_block breakpoint_id : Nat,
      mono_debug_serialize_debug_info M
        (mono_debug_init_method K mono_debug_format cfg start_block breakpoint_id)
        = .ok (none, 0)) ∧
    (∀ (mono_debug_format : Nat) (W : World) (domain : Nat) (method : MonoMethod)
      (code_start : Nat) (debug_info : List guint8),
      mono_debug_add_aot_method K M mono_debug_format W domain method code_start debug_info 0
        = .ok W) := by
  refine ⟨serialize_unopened M cfg h, ?_, ?_⟩
  · intro mono_debug_format start_block breakpoint_id
    by_cases hf : mono_debug_format = K.MONO_DEBUG_FORMAT_NONE
    · rw [init_disabled K mono_debug_format cfg start_block breakpoint_id hf]
      exact serialize_unopened M cfg h
    · rw [init_enabled K mono_debug_format cfg start_block breakpoint_id hf]
      exact serialize_unopened M _ (Or.inr ⟨_, rfl, rfl⟩)
  · intro mono_debug_format W domain method code_start debug_info
    exact add_aot_zero_len K M mono_debug_format W domain method code_start debug_info

/-- Instance of C13: a context on which `mono_debug_init_method` was never called, and
an eligible method loaded with a buffer of length 0. -/
theorem empty_debug_info_witness :
    ((example_compile example_wrapper).debug_info = none ∨
      ∃ info, (example_compile example_wrapper).debug_info = some info ∧ info.jit = none) ∧
    mono_debug_serialize_debug_info example_modes (example_compile example_wrapper)
      = .ok (none, 0) ∧
    mono_debug_add_aot_method example_constants example_modes 1 ⟨[], []⟩ 7
      (example_method true 2) 4096 example_bytes 0 = .ok ⟨[], []⟩ :=
  ⟨Or.inl rfl,
    (empty_debug_info example_constants example_modes (example_compile example_wrapper)
      (Or.inl rfl)).1,
    (empty_debug_info example_constants example_modes (example_compile example_wrapper)
      (Or.inl rfl)).2.2 1 ⟨[], []⟩ 7 (example_method true 2) 4096 example_bytes⟩

/-- C14, the claim as stated fails.  With the constants of the metadata headers,
`example_native` meets every condition of the claim: the format is not `NONE`, the
method is not an internal call, its code type is `native` and not `runtime`, it is
not a P/Invoke stub, not abstract and not a wrapper, and the buffer length is 27.
`deserialize_debug_info` returns a record for it on the example buffer, but
`mono_debug_add_aot_method` registers nothing: the test
`iflags & METHOD_IMPL_ATTRIBUTE_RUNTIME` is not 0. -/
theorem native_method_not_registered :
    kind_eligible example_constants 3 1 example_native 27 ∧
    ¬ runtime_provided example_constants 3 example_native ∧
    example_native.iflags &&& example_constants.METHOD_IMPL_ATTRIBUTE_RUNTIME ≠ 0 ∧
    deserialize_debug_info example_modes example_native 4096 example_bytes 27
      = .ok { code_start := 4096, code_size := 20, prologue_end := 2, epilogue_begin := 14,
              line_numbers := [⟨0, 0⟩, ⟨3, 4⟩, ⟨1, 10⟩, ⟨10, 14⟩],
              this_var := some ⟨0, 0⟩,
              params := [⟨0x10000005, to_guint32 (-8)⟩, ⟨2, 0⟩],
              locals := [] } ∧
    mono_debug_add_aot_method example_constants example_modes 1 ⟨[], []⟩ 7
      example_native 4096 example_bytes 27 = .ok ⟨[], []⟩ := by
  refine ⟨by decide, by decide, by decide, by decide, by decide⟩

/-- C14, amended.  `mono_debug_add_aot_method` calls `deserialize_debug_info` on the
buffer, and registers the record that it returns for the method and the domain,
exactly when the debug format is not `NONE`, the four tests
`iflags & METHOD_IMPL_ATTRIBUTE_INTERNAL_CALL`, `iflags & METHOD_IMPL_ATTRIBUTE_RUNTIME`,
`flags & METHOD_ATTRIBUTE_PINVOKE_IMPL` and `flags & METHOD_ATTRIBUTE_ABSTRACT` give 0,
the wrapper type is `MONO_WRAPPER_NONE` and `debug_info_len` is not 0.  In every other
case it returns the registry as it was, whatever the buffer holds, even where decoding
it would fault.  So a call that returns has added one entry to the registry if the
tests pass and has left it unchanged if they do not.  When
`METHOD_IMPL_ATTRIBUTE_RUNTIME` is a non-zero value of the code-type field, a method
that passes the tests is not an internal call, not runtime-provided, not a P/Invoke
stub, not abstract and not a wrapper.  The converse fails: a method whose code type
shares a bit with `METHOD_IMPL_ATTRIBUTE_RUNTIME` is skipped, whether or not its code
type is `runtime`. -/
theorem aot_add_eligibility (K : Constants) (M : AddressModes) (mono_debug_format : Nat)
    (W : World) (domain : Nat) (method : MonoMethod) (code_start : Nat)
    (debug_info : List guint8) (debug_info_len : Nat) :
    (aot_eligible K mono_debug_format method debug_info_len →
      mono_debug_add_aot_method K M mono_debug_format W domain method code_start debug_info
        debug_info_len
        = (deserialize_debug_info M method code_start debug_info debug_info_len).map
            (fun jit => { W with registry := W.registry ++ [(method, jit, domain)] })) ∧
    (¬ aot_eligible K mono_debug_format method debug_info_len →
      ∀ other : List guint8,
        mono_debug_add_aot_method K M mono_debug_format W domain method code_start other
          debug_info_len = .ok W) ∧
    (∀ W2,
      mono_debug_add_aot_method K M mono_debug_format W domain method code_start debug_info
        debug_info_len = .ok W2 →
      (W2.registry.length = W.registry.length + 1
        ↔ aot_eligible K mono_debug_format method debug_info_len) ∧
      (W2 = W ↔ ¬ aot_eligible K mono_debug_format method debug_info_len)) ∧
    (∀ code_type_mask : Nat, K.METHOD_IMPL_ATTRIBUTE_RUNTIME ≠ 0 →
      code_type_mask &&& K.METHOD_IMPL_ATTRIBUTE_RUNTIME = K.METHOD_IMPL_ATTRIBUTE_RUNTIME →
      aot_eligible K mono_debug_format method debug_info_len →
      kind_eligible K code_type_mask mono_debug_format method debug_info_len) ∧
    (∀ code_type_mask : Nat,
      (method.iflags &&& code_type_mask) &&& K.METHOD_IMPL_ATTRIBUTE_RUNTIME ≠ 0 →
      ∀ other : List guint8,
        mono_debug_add_aot_method K M mono_debug_format W domain method code_start other
          debug_info_len = .ok W) := by
  refine ⟨?_, ?_, ?_, ?_, ?_⟩
  · exact add_aot_eligible K M mono_debug_format W domain method code_start debug_info
      debug_info_len
  · intro hn other
    exact add_aot_not_eligible K M mono_debug_format W domain method code_start other
      debug_info_len hn
  · intro W2 h
    by_cases he : aot_eligible K mono_debug_format method debug_info_len
    · rw [add_aot_eligible K M mono_debug_format W domain method code_start debug_info
        debug_info_len he] at h
      cases hd : deserialize_debug_info M method code_start debug_info debug_info_len with
      | error e => rw [hd] at h; exact Except.noConfusion h
      | ok jit =>
        rw [hd] at h
        have e := Except.ok.inj h
        have hl : W2.registry.length = W.registry.length + 1 := by
          rw [← e]
          simp only [List.length_append, List.length_cons, List.length_nil]
        refine ⟨⟨fun _ => he, fun _ => hl⟩, ⟨fun e2 => ?_, fun hn => absurd he hn⟩⟩
        rw [e2] at hl
        omega
    · rw [add_aot_not_eligible K M mono_debug_format W domain method code_start debug_info
        debug_info_len he] at h
      have e := Except.ok.inj h
      refine ⟨⟨fun hl => ?_, fun h2 => absurd h2 he⟩, ⟨fun _ => he, fun _ => e.symm⟩⟩
      rw [← e] at hl
      omega
  · intro code_type_mask h0 hm he
    exact aot_eligible_kind K code_type_mask mono_debug_format method debug_info_len h0 hm he
  · intro code_type_mask hc other
    exact add_aot_not_eligible K M mono_debug_format W domain method code_start other
      debug_info_len
      (code_type_bit_not_eligible K code_type_mask mono_debug_format method debug_info_len hc)

/-- Instance of C14, amended: the example buffer is decoded and registered for a method
that passes the tests, which is of an eligible kind; it is ignored for a wrapper and
for a method of code type `OPTIL`, which is not runtime-provided. -/
theorem aot_add_eligibility_witness :
    aot_eligible example_constants 1 (example_method true 2) 27 ∧
    mono_debug_add_aot_method example_constants example_modes 1 ⟨[], []⟩ 7
      (example_method true 2) 4096 example_bytes 27
      = .ok ⟨[(example_method true 2,
              { code_start := 4096, code_size := 20, prologue_end := 2, epilogue_begin := 14,
                line_numbers := [⟨0, 0⟩, ⟨3, 4⟩, ⟨1, 10⟩, ⟨10, 14⟩],
                this_var := some ⟨0, 0⟩,
                params := [⟨0x10000005, to_guint32 (-8)⟩, ⟨2, 0⟩],
                locals := [] }, 7)], []⟩ ∧
    kind_eligible example_constants 3 1 (example_method true 2) 27 ∧
    ¬ aot_eligible example_constants 1 example_wrapper 27 ∧
    mono_debug_add_aot_method example_constants example_modes 1 ⟨[], []⟩ 7
      example_wrapper 4096 example_bytes 27 = .ok ⟨[], []⟩ ∧
    ¬ runtime_provided example_constants 3 { example_native with iflags := 2 } ∧
    ({ example_native with iflags := 2 } : MonoMethod).iflags &&& 3
      &&& example_constants.METHOD_IMPL_ATTRIBUTE_RUNTIME ≠ 0 ∧
    mono_debug_add_aot_method example_constants example_modes 1 ⟨[], []⟩ 7
      { example_native with iflags := 2 } 4096 example_bytes 27 = .ok ⟨[], []⟩ :=
  ⟨by decide,
    ((aot_add_eligibility example_constants example_modes 1 ⟨[], []⟩ 7 (example_method true 2)
      4096 example_bytes 27).1 (by decide)).trans (by decide),
    (aot_add_eligibility example_constants example_modes 1 ⟨[], []⟩ 7 (example_method true 2)
      4096 example_bytes 27).2.2.2.1 3 (by decide) (by decide) (by decide),
    by decide,
    (aot_add_eligibility example_constants example_modes 1 ⟨[], []⟩ 7 example_wrapper
      4096 [] 27).2.1 (by decide) example_bytes,
    by decide, by decide,
    (aot_add_eligibility example_constants example_modes 1 ⟨[], []⟩ 7
      { example_native with iflags := 2 } 4096 [] 27).2.2.2.2 3 (by decide) example_bytes⟩

/-- C15, the claim as stated fails.  `example_wrapper` is a wrapper method.  With a
debug format other than `NONE`, its recording session is not a no-op: after
`mono_debug_init_method`, `mono_debug_open_method` and three record calls the context
holds an opened session with three line entries, and `mono_debug_close_method`
registers a record for the method and reports its breakpoint. -/
theorem wrapper_session_registers :
    ineligible_kind example_constants example_wrapper ∧
    recording_session example_constants 1 (example_compile example_wrapper) 0 5
        [(example_ins 0, 2), (example_ins 3, 4), (example_ins 1, 1)] = .ok example_opened ∧
    example_opened ≠ example_compile example_wrapper ∧
    mono_debug_close_method example_constants example_modes ⟨[], []⟩ example_opened
      = .ok ⟨[(example_wrapper,
               { code_start := 4096, code_size := 20, prologue_end := 2, epilogue_begin := 14,
                 line_numbers := [⟨0, 2⟩, ⟨3, 4⟩, ⟨1, 1⟩, ⟨11, 14⟩],
                 this_var := none, params := [⟨3, 0⟩], locals := [] }, 7)],
             [(example_wrapper, 5)]⟩ := by
  refine ⟨by decide, by decide, by decide, by decide⟩

/-- C15, amended.  The compile path never tests the kind of the method.  Whenever the
debug format is not `NONE`, `mono_debug_init_method` attaches a session to the context
of any method; `mono_debug_open_method` then fails its assertion if the method has no
header, and otherwise the session of any run of record calls returns an opened
context, on which a `mono_debug_close_method` that returns has registered exactly one
record for the method, and does return when `cfg->varinfo` holds the variables that it
reads.  Only `mono_debug_add_aot_method` returns without registering anything for a
method that is an internal call, runtime-provided, a P/Invoke stub, abstract or a
wrapper. -/
theorem compile_path_ignores_kind (K : Constants) (M : AddressModes) (mono_debug_format : Nat)
    (W : World) (cfg : MonoCompile) (start_block breakpoint_id : Nat)
    (calls : List (MonoInst × Nat))
    (hf : mono_debug_format ≠ K.MONO_DEBUG_FORMAT_NONE) :
    (∃ info,
      (mono_debug_init_method K mono_debug_format cfg start_block breakpoint_id).debug_info
        = some info ∧ info.jit = none ∧ info.breakpoint_id = breakpoint_id) ∧
    (cfg.method.header = none →
      mono_debug_open_method
        (mono_debug_init_method K mono_debug_format cfg start_block breakpoint_id)
        = .error .assertion_failed) ∧
    (∀ header, cfg.method.header = some header → is_guint32 header.code_size →
      ∃ cfg2, recording_session K mono_debug_format cfg start_block breakpoint_id calls
          = .ok cfg2 ∧
        (∃ info jit, cfg2.debug_info = some info ∧ info.jit = some jit) ∧
        (∀ W2, mono_debug_close_method K M W cfg2 = .ok W2 →
          ∃ record : MonoDebugMethodJitInfo,
            W2.registry = W.registry ++ [(cfg.method, record, cfg.domain)]) ∧
        (cfg.locals_start + header.num_locals ≤ cfg.varinfo.length →
          cfg.method.signature.hasthis.toNat + cfg.method.signature.param_count
            ≤ cfg.varinfo.length →
          ∃ W2, mono_debug_close_method K M W cfg2 = .ok W2)) ∧
    (ineligible_kind K cfg.method →
      ∀ (domain code_start : Nat) (debug_info : List guint8) (debug_info_len : Nat),
        mono_debug_add_aot_method K M mono_debug_format W domain cfg.method code_start
          debug_info debug_info_len = .ok W) := by
  have e := init_enabled K mono_debug_format cfg start_block breakpoint_id hf
  refine ⟨?_, ?_, ?_, ?_⟩
  · rw [e]
    exact ⟨_, rfl, rfl, rfl⟩
  · intro hh
    rw [e]
    exact open_no_header _ _ rfl hh
  · intro header hh hs
    obtain ⟨cfg2, hrun, hreg, hok⟩ := session_close K M mono_debug_format W cfg start_block
      breakpoint_id header calls hf hh hs
    obtain ⟨cfg3, info3, jit3, hrun3, hi, hj, _⟩ :=
      session_state K mono_debug_format cfg start_block breakpoint_id header calls hf hh hs
    rw [hrun] at hrun3
    have e2 := Except.ok.inj hrun3
    subst e2
    refine ⟨cfg2, hrun, ⟨info3, jit3, hi, hj⟩, ?_, hok⟩
    intro W2 hclose
    obtain ⟨record, hr, _⟩ := hreg W2 hclose
    exact ⟨record, hr⟩
  · intro hk domain code_start debug_info debug_info_len
    exact add_aot_ineligible_kind K M mono_debug_format W domain cfg.method code_start
      debug_info debug_info_len hk

/-- Instance of C15, amended: the session of the wrapper method returns, and the loader
entry point ignores the same method. -/
theorem compile_path_ignores_kind_witness :
    (1 : Nat) ≠ example_constants.MONO_DEBUG_FORMAT_NONE ∧
    ineligible_kind example_constants (example_compile example_wrapper).method ∧
    (∃ info,
      (mono_debug_init_method example_constants 1 (example_compile example_wrapper) 0
        5).debug_info = some info ∧ info.jit = none ∧ info.breakpoint_id = 5) ∧
    mono_debug_add_aot_method example_constants example_modes 1 ⟨[], []⟩ 7
      (example_compile example_wrapper).method 4096 example_bytes 27 = .ok ⟨[], []⟩ :=
  ⟨by decide, by decide,
    (compile_path_ignores_kind example_constants example_modes 1 ⟨[], []⟩
      (example_compile example_wrapper) 0 5 [(example_ins 0, 2)] (by decide)).1,
    (compile_path_ignores_kind example_constants example_modes 1 ⟨[], []⟩
      (example_compile example_wrapper) 0 5 [(example_ins 0, 2)] (by decide)).2.2.2
      (by decide) 7 4096 example_bytes 27⟩

/-- C16 (disabled mode).  If the debug format is `NONE` when `mono_debug_init_method`
is called on a context with no debug info, the context is returned as it was, with no
session attached.  On that context `mono_debug_open_method` and every
`mono_debug_record_line_number` return it unchanged, so does a whole session of record
calls, `mono_debug_close_method` returns the registry and the breakpoint callbacks
unchanged, and `mono_debug_serialize_debug_info` stores length 0 and no buffer. -/
theorem disabled_mode_noop (K : Constants) (M : AddressModes) (mono_debug_format : Nat)
    (W : World) (cfg : MonoCompile) (start_block breakpoint_id : Nat)
    (hf : mono_debug_format = K.MONO_DEBUG_FORMAT_NONE) (hd : cfg.debug_info = none) :
    mono_debug_init_method K mono_debug_format cfg start_block breakpoint_id = cfg ∧
    (mono_debug_init_method K mono_debug_format cfg start_block breakpoint_id).debug_info
      = none ∧
    mono_debug_open_method
      (mono_debug_init_method K mono_debug_format cfg start_block breakpoint_id) = .ok cfg ∧
    (∀ (ins : MonoInst) (address : Nat),
      mono_debug_record_line_number cfg ins address = .ok cfg) ∧
    (∀ calls : List (MonoInst × Nat),
      recording_session K mono_debug_format cfg start_block breakpoint_id calls = .ok cfg) ∧
    mono_debug_close_method K M W cfg = .ok W ∧
    mono_debug_serialize_debug_info M cfg = .ok (none, 0) := by
  have e := init_disabled K mono_debug_format cfg start_block breakpoint_id hf
  refine ⟨e, by rw [e]; exact hd, by rw [e]; exact open_no_session cfg hd,
    fun ins address => record_unopened cfg ins address (Or.inl hd), ?_,
    close_unopened K M W cfg (Or.inl hd), serialize_unopened M cfg (Or.inl hd)⟩
  intro calls
  unfold recording_session
  rw [e, open_no_session cfg hd]
  exact record_line_numbers_unopened cfg calls (Or.inl hd)

/-- Instance of C16: the example context under the format `NONE`, which is 0. -/
theorem disabled_mode_noop_witness :
    (0 : Nat) = example_constants.MONO_DEBUG_FORMAT_NONE ∧
    (example_compile example_wrapper).debug_info = none ∧
    recording_session example_constants 0 (example_compile example_wrapper) 0 5
      [(example_ins 0, 2), (example_ins 3, 4)] = .ok (example_compile example_wrapper) ∧
    mono_debug_close_method example_constants example_modes ⟨[], []⟩
      (example_compile example_wrapper) = .ok ⟨[], []⟩ :=
  ⟨rfl, rfl,
    (disabled_mode_noop example_constants example_modes 0 ⟨[], []⟩
      (example_compile example_wrapper) 0 5 rfl rfl).2.2.2.2.1
      [(example_ins 0, 2), (example_ins 3, 4)],
    (disabled_mode_noop example_constants example_modes 0 ⟨[], []⟩
      (example_compile example_wrapper) 0 5 rfl rfl).2.2.2.2.2.1⟩

/-- C17 (decoded shape).  Whenever `deserialize_debug_info` returns a record, whatever
the buffer holds, the record has exactly `param_count` params, exactly `num_locals`
locals of the header of the method, a `this_var` if and only if the signature has
`hasthis`, and `code_start` equal to the argument; the number of its line entries is
the `guint32` value of a VarInt read from the buffer.  The call with another
`code_start` on the same buffer returns the same record but for that field. -/
theorem decoded_shape (M : AddressModes) (method : MonoMethod) (code_start : Nat)
    (buf : List guint8) (buf_len : Nat) (jit : MonoDebugMethodJitInfo)
    (h : deserialize_debug_info M method code_start buf buf_len = .ok jit) :
    jit.params.length = method.signature.param_count ∧
    (∃ header, method.header = some header ∧ jit.locals.length = header.num_locals) ∧
    jit.this_var.isSome = method.signature.hasthis ∧
    jit.code_start = code_start ∧
    (∃ (q rest : List guint8) (n : Int), q <:+ buf ∧ decode_value q = .ok (n, rest) ∧
      jit.line_numbers.length = to_guint32 n) ∧
    (∀ code_start2 buf_len2 : Nat,
      deserialize_debug_info M method code_start2 buf buf_len2
        = .ok { jit with code_start := code_start2 }) := by
  obtain ⟨header, q1, q2, q3, q4, q5, q6, q7, q8, v1, v2, v3, n, ps, ls, tv, lines, hh, h1, h2,
    h3, h4, h5, h6, h7, h8, e⟩ := deserialize_ok_inv M method code_start buf buf_len jit h
  have s3 : q3 <:+ buf :=
    ((decode_value_suffix q2 q3 v3 h3).trans (decode_value_suffix q1 q2 v2 h2)).trans
      (decode_value_suffix buf q1 v1 h1)
  have s4 : q4 <:+ q3 := deserialize_variables_suffix M _ q3 q4 ps h4
  have s6 : q6 <:+ q5 := deserialize_variables_suffix M _ q5 q6 ls h6
  have t : tv.isSome = method.signature.hasthis ∧ q5 <:+ q4 := by
    cases c : method.signature.hasthis with
    | false =>
      rw [c] at h5
      simp only [Bool.false_eq_true, if_false, Except.ok.injEq, Prod.mk.injEq] at h5
      rw [← h5.1, ← h5.2]
      exact ⟨rfl, List.suffix_refl _⟩
    | true =>
      rw [c] at h5
      simp only [if_true] at h5
      cases hd : deserialize_variable M ⟨0, 0⟩ q4 with
      | error e2 => rw [hd] at h5; exact Except.noConfusion h5
      | ok r =>
        obtain ⟨var, p⟩ := r
        rw [hd] at h5
        simp only [Except.map, Except.ok.injEq, Prod.mk.injEq] at h5
        rw [← h5.1, ← h5.2]
        exact ⟨rfl, deserialize_variable_suffix M _ var q4 p hd⟩
  rw [e]
  refine ⟨deserialize_variables_length M _ q3 q4 ps h4,
    ⟨header, hh, deserialize_variables_length M _ q5 q6 ls h6⟩, t.1, rfl,
    ⟨q6, q7, n, ((s6.trans t.2).trans s4).trans s3, h7,
      deserialize_line_numbers_length _ 0 0 q7 q8 lines h8⟩, ?_⟩
  intro code_start2 buf_len2
  exact deserialize_flow M method header code_start2 buf_len2 buf q1 q2 q3 q4 q5 q6 q7 q8
    v1 v2 v3 n ps ls tv lines hh h1 h2 h3 h4 h5 h6 h7 h8

/-- Instance of C17: the example buffer, written for two parameters, decoded for a
method that declares three parameters and a receiver. -/
theorem decoded_shape_witness :
    deserialize_debug_info example_modes (example_method true 3) 77 example_bytes 27
      = .ok { code_start := 77, code_size := 20, prologue_end := 2, epilogue_begin := 14,
              line_numbers := [],
              this_var := some ⟨4, 0⟩,
              params := [⟨0x10000005, to_guint32 (-8)⟩, ⟨2, 0⟩, ⟨0, 0⟩],
              locals := [] } ∧
    ([⟨0x10000005, to_guint32 (-8)⟩, ⟨2, 0⟩, ⟨0, 0⟩] : List MonoDebugVarInfo).length
      = (example_method true 3).signature.param_count ∧
    (some ⟨4, 0⟩ : Option MonoDebugVarInfo).isSome = (example_method true 3).signature.hasthis :=
  ⟨by decide,
    (decoded_shape example_modes (example_method true 3) 77 example_bytes 27
      { code_start := 77, code_size := 20, prologue_end := 2, epilogue_begin := 14,
        line_numbers := [],
        this_var := some ⟨4, 0⟩,
        params := [⟨0x10000005, to_guint32 (-8)⟩, ⟨2, 0⟩, ⟨0, 0⟩],
        locals := [] } (by decide)).1,
    (decoded_shape example_modes (example_method true 3) 77 example_bytes 27
      { code_start := 77, code_size := 20, prologue_end := 2, epilogue_begin := 14,
        line_numbers := [],
        this_var := some ⟨4, 0⟩,
        params := [⟨0x10000005, to_guint32 (-8)⟩, ⟨2, 0⟩, ⟨0, 0⟩],
        locals := [] } (by decide)).2.2.1⟩

/-- C18 (bound on `il_offset`).  `mono_debug_record_line_number` returns the context
unchanged, so appends nothing and leaves `prologue_end` alone, for every call whose
instruction has no IL position (`cil_code` is null) or whose IL position lies outside
the body `[code, code + code_size]` of the header.  Hence a session of arbitrary
record calls returns, and after `mono_debug_close_method` the registered line table
is that of the accepted calls followed by the final entry, and every entry of it has
`il_offset <= header->code_size`, the bound that `mono_debug_add_vg_method` asserts. -/
theorem il_offset_bound (K : Constants) (M : AddressModes) (mono_debug_format : Nat)
    (W : World) (cfg : MonoCompile) (start_block breakpoint_id : Nat)
    (header : MonoMethodHeader) (calls : List (MonoInst × Nat))
    (hf : mono_debug_format ≠ K.MONO_DEBUG_FORMAT_NONE)
    (hh : cfg.method.header = some header) (hs : is_guint32 header.code_size) :
    (∀ (cfg2 : MonoCompile) (ins : MonoInst) (address : Nat),
      ins.cil_code = none → mono_debug_record_line_number cfg2 ins address = .ok cfg2) ∧
    (∀ (cfg2 : MonoCompile) (ins : MonoInst) (address : Nat),
      cfg2.method.header = some header → ¬ accepted header ins →
      mono_debug_record_line_number cfg2 ins address = .ok cfg2) ∧
    (∃ cfg2, recording_session K mono_debug_format cfg start_block breakpoint_id calls
        = .ok cfg2 ∧
      ∀ W2, mono_debug_close_method K M W cfg2 = .ok W2 →
        ∃ record : MonoDebugMethodJitInfo,
          W2.registry = W.registry ++ [(cfg.method, record, cfg.domain)] ∧
          record.line_numbers
            = (calls.filter (fun call => decide (accepted header call.1))).map
                (line_entry_of header) ++ [⟨header.code_size, cfg.epilog_begin⟩] ∧
          vg_line_bound header record) := by
  refine ⟨?_, ?_, ?_⟩
  · intro cfg2 ins address hc
    exact record_no_cil_code cfg2 ins address hc
  · intro cfg2 ins address hh2 hn
    exact record_dropped cfg2 header ins address hh2 hn
  · obtain ⟨cfg2, hrun, hreg, _⟩ := session_close K M mono_debug_format W cfg start_block
      breakpoint_id header calls hf hh hs
    exact ⟨cfg2, hrun, hreg⟩

/-- Instance of C18: a session with a call at IL offset 12 of a body of 11 bytes and a
call without IL position; both are dropped. -/
theorem il_offset_bound_witness :
    (1 : Nat) ≠ example_constants.MONO_DEBUG_FORMAT_NONE ∧
    ¬ accepted { code := 1000, code_size := 11, num_locals := 0 } (example_ins 12) ∧
    ∃ cfg2, recording_session example_constants 1 (example_compile example_wrapper) 0 5
        [(example_ins 0, 2), (example_ins 12, 3),
         ({ example_ins 0 with cil_code := none }, 3), (example_ins 11, 4)] = .ok cfg2 ∧
      ∀ W2, mono_debug_close_method example_constants example_modes ⟨[], []⟩ cfg2 = .ok W2 →
        ∃ record : MonoDebugMethodJitInfo,
          W2.registry = [] ++ [(example_wrapper, record, 7)] ∧
          record.line_numbers
            = ([(example_ins 0, 2), (example_ins 12, 3),
                ({ example_ins 0 with cil_code := none }, 3), (example_ins 11, 4)].filter
                (fun call => decide
                  (accepted { code := 1000, code_size := 11, num_locals := 0 } call.1))).map
                (line_entry_of { code := 1000, code_size := 11, num_locals := 0 })
              ++ [⟨11, 14⟩] ∧
          vg_line_bound { code := 1000, code_size := 11, num_locals := 0 } record :=
  ⟨by decide, by decide,
    (il_offset_bound example_constants example_modes 1 ⟨[], []⟩
      (example_compile example_wrapper) 0 5 { code := 1000, code_size := 11, num_locals := 0 }
      [(example_ins 0, 2), (example_ins 12, 3),
       ({ example_ins 0 with cil_code := none }, 3), (example_ins 11, 4)]
      (by decide) rfl (by decide)).2.2⟩

/-- C19 (range and non-injectivity of `decode_value`).  When `decode_value` returns a
value from a buffer whose first byte is not `0xFF`, the value is at least 0 and at
most `0x1fffffff`, at most 127 if one byte was consumed and at most 16383 if two were;
a negative value is returned only from a first byte `0xFF`, with five bytes consumed.
The four-byte sequences that start with `0xC0` and with `0xE0` and agree on the other
three bytes decode to the same value, and `encode_value` of that value does not give
back the sequence that starts with `0xE0`. -/
theorem decode_value_range (ptr rest : List guint8) (x : Int)
    (h : decode_value ptr = .ok (x, rest)) :
    (ptr.head? ≠ some 0xff →
      0 ≤ x ∧ x ≤ 0x1fffffff ∧
      (ptr.length = rest.length + 1 → x ≤ 127) ∧
      (ptr.length = rest.length + 2 → x ≤ 16383)) ∧
    (x < 0 → ptr.head? = some 0xff ∧ ptr.length = rest.length + 5) ∧
    (∀ (b1 b2 b3 : guint8) (r : List guint8),
      ∃ y : Int,
        decode_value (0xc0 :: b1 :: b2 :: b3 :: r) = .ok (y, r) ∧
        decode_value (0xe0 :: b1 :: b2 :: b3 :: r) = .ok (y, r) ∧
        encode_value y ++ r ≠ 0xe0 :: b1 :: b2 :: b3 :: r) := by
  refine ⟨?_, ?_, ?_⟩
  · intro hne
    rcases decode_value_ok_cases ptr rest x h with ⟨b, e, hb, hx⟩ | ⟨b, b1, e, hb, hb2, hx⟩
      | ⟨b, b1, b2, b3, e, hb, hb2, hx⟩ | ⟨b, b1, b2, b3, b4, e, hb, hx⟩
    · subst e
      refine ⟨by omega, by omega, fun _ => by omega, fun _ => by omega⟩
    · subst e
      have := b1.isLt
      refine ⟨by omega, by omega, fun hl => ?_, fun _ => by omega⟩
      simp only [List.length_cons] at hl
      omega
    · subst e
      have := b1.isLt
      have := b2.isLt
      have := b3.isLt
      refine ⟨by omega, by omega, fun hl => ?_, fun hl => ?_⟩
      · simp only [List.length_cons] at hl
        omega
      · simp only [List.length_cons] at hl
        omega
    · subst e
      exfalso
      apply hne
      show some b = some 0xff
      exact congrArg some (Fin.ext hb)
  · intro hx0
    rcases decode_value_ok_cases ptr rest x h with ⟨b, e, hb, hx⟩ | ⟨b, b1, e, hb, hb2, hx⟩
      | ⟨b, b1, b2, b3, e, hb, hb2, hx⟩ | ⟨b, b1, b2, b3, b4, e, hb, hx⟩
    · omega
    · have := b1.isLt
      omega
    · have := b1.isLt
      have := b2.isLt
      have := b3.isLt
      omega
    · subst e
      refine ⟨congrArg some (Fin.ext hb), ?_⟩
      simp only [List.length_cons]
  · intro b1 b2 b3 r
    have hc := decode_value_form4 0xc0 b1 b2 b3 r (by decide) (by decide)
    have he := decode_value_form4 0xe0 b1 b2 b3 r (by decide) (by decide)
    have vc : (((0xc0 : guint8).val : Nat) : Int) % 32 = 0 := by decide
    have ve : (((0xe0 : guint8).val : Nat) : Int) % 32 = 0 := by decide
    rw [vc] at hc
    rw [ve] at he
    refine ⟨_, hc, he, ?_⟩
    intro hcontra
    have l1 := b1.isLt
    have l2 := b2.isLt
    have l3 := b3.isLt
    have hhead := congrArg List.head? hcontra
    rcases encode_value_length_cases (0 * 16777216 + (b1.val : Int) * 65536
        + (b2.val : Int) * 256 + (b3.val : Int)) with ⟨h0, h1, _⟩ | ⟨h0, h1, _⟩ | ⟨h0, h1, _⟩
      | ⟨h0, _⟩
    · rw [encode_value_form1 _ h0 h1] at hhead
      simp only [List.singleton_append, List.head?_cons, Option.some.injEq] at hhead
      have hv := to_guint8_val (0 * 16777216 + (b1.val : Int) * 65536
        + (b2.val : Int) * 256 + (b3.val : Int))
      rw [hhead] at hv
      have : (((0xe0 : guint8).val : Nat) : Int) = 224 := by decide
      omega
    · rw [encode_value_form2 _ h0 h1] at hhead
      simp only [List.cons_append, List.head?_cons, Option.some.injEq] at hhead
      have hv := to_guint8_val (128 + (0 * 16777216 + (b1.val : Int) * 65536
        + (b2.val : Int) * 256 + (b3.val : Int)) / 256)
      rw [hhead] at hv
      have : (((0xe0 : guint8).val : Nat) : Int) = 224 := by decide
      omega
    · rw [encode_value_form4 _ h0 h1] at hhead
      simp only [List.cons_append, List.head?_cons, Option.some.injEq] at hhead
      have hv := to_guint8_val (192 + (0 * 16777216 + (b1.val : Int) * 65536
        + (b2.val : Int) * 256 + (b3.val : Int)) / 16777216)
      rw [hhead] at hv
      have : (((0xe0 : guint8).val : Nat) : Int) = 224 := by decide
      omega
    · omega

/-- Instance of C19: the two-byte form `[0x85, 0x01]`, and the two sequences
`[0xC0, 0, 0, 5]` and `[0xE0, 0, 0, 5]`, which both decode to 5. -/
theorem decode_value_range_witness :
    decode_value [0x85, 0x01, 0x07] = .ok (1281, [0x07]) ∧
    (([0x85, 0x01, 0x07] : List guint8).head? ≠ some 0xff →
      (0 : Int) ≤ 1281 ∧ (1281 : Int) ≤ 0x1fffffff ∧
      (([0x85, 0x01, 0x07] : List guint8).length = ([0x07] : List guint8).length + 1
        → (1281 : Int) ≤ 127) ∧
      (([0x85, 0x01, 0x07] : List guint8).length = ([0x07] : List guint8).length + 2
        → (1281 : Int) ≤ 16383)) ∧
    decode_value [0xc0, 0, 0, 5] = .ok (5, []) ∧
    decode_value [0xe0, 0, 0, 5] = .ok (5, []) ∧
    encode_value 5 = [5] :=
  ⟨by decide,
    (decode_value_range [0x85, 0x01, 0x07] [0x07] 1281 (by decide)).1,
    by decide, by decide, by decide⟩

end DebugMini
